import Mathlib

/-!
# Ray-tracing grid search: polygon-vs-disk classifier and adaptive quadtree

A shallow embedding of `typedefs.c` and `searchgrid.c`.

Conventions of the embedding.

* A C `double` holding a finite value is an element of a linearly ordered field `α`
  (exact arithmetic, no rounding, no overflow).  The definitions are generic in `α`
  and take the square root as a parameter `sqrt : α → α`; the theorems instantiate
  `α := ℝ` and `sqrt := Real.sqrt` where the square root matters.
* A division whose divisor is zero does not produce a finite value in C (it yields
  `±inf` or `NaN`).  Every division of the source whose divisor can be zero on
  finite operands is embedded through `fdiv`, whose result `none` stands for such a
  non-finite value, and each use site spells out what the C comparisons do on it.
  (The remaining divisions are by `2`, by `pointsPerSide >= 10`, and by the
  resolution inside the `(int)` cast, see `pointsPerSide`.)
* A polygon vertex is an `Option (point α)`: `none` is a vertex whose two coordinates
  are `NaN` (the only non-finite vertex `mapsToSource` can produce).
* `int` values are unbounded integers; the `(int)` cast of a quotient that does not
  fit in an `int`, and array indices outside `0..999`, are outside the model.
* Floating-point literals of `main` are taken at their decimal values.
* Calls into the plotting library (`cpg*`) and the `debugMode` drawing are output
  only and are not modelled, except for the rectangle drawn for a hit region, which
  is recorded in the search state.
-/

namespace Raytrace

/-- The enum `intersectionType` of `typedefs.h`. -/
inductive intersectionType where
  | NO_OVERLAP
  | INSIDE_SOURCE
  | ENCLOSES_SOURCE
  | OVERLAP
deriving DecidableEq, Repr

/-- The enum `corner` of `typedefs.h`. -/
inductive corner where
  | BOTTOM_LEFT
  | TOP_LEFT
  | TOP_RIGHT
  | BOTTOM_RIGHT
deriving DecidableEq, Repr

/-- The struct `point`. -/
structure point (α : Type) where
  x : α
  y : α
deriving DecidableEq, Repr

/-- The struct `searchArea`: bottom-left corner and side length. -/
structure searchArea (α : Type) where
  x : α
  y : α
  size : α
deriving DecidableEq, Repr

/-- The struct `lens`. -/
structure lens (α : Type) where
  origin : point α
  mass : α
deriving DecidableEq, Repr

/-- The struct `source`. -/
structure source (α : Type) where
  origin : point α
  radius : α
deriving DecidableEq, Repr

/-- The struct `event`; the array `lenses` with its length `numLenses` is a list. -/
structure event (α : Type) where
  lenses : List (lens α)
  resolution : α

/-- The struct `searchGrid`; the pointers `event` and `source` are read-only values. -/
structure searchGrid (α : Type) where
  event : event α
  source : source α
  searchArea : searchArea α
  checkLenses : Bool
  checkCriticalCurve : Bool
  level : Int

section Defs

variable {α : Type} [LinearOrderedField α]

/-- Quotient `x / y` of two finite doubles.  `none` stands for the non-finite result
(`±inf`, or `NaN` for `0 / 0`) that C produces when the divisor is zero. -/
def fdiv (x y : α) : Option α :=
  if y = 0 then none else some (x / y)

/-- The function `makePoint`. -/
def makePoint (x y : α) : point α := { x := x, y := y }

/-- The function `makeSearchArea`. -/
def makeSearchArea (x y size : α) : searchArea α := { x := x, y := y, size := size }

/-- The function `makeSearchGrid`. -/
def makeSearchGrid (a : searchArea α) (src : source α) (ev : event α)
    (checkLenses checkCriticalCurve : Bool) (level : Int) : searchGrid α :=
  { event := ev, source := src, searchArea := a, checkLenses := checkLenses,
    checkCriticalCurve := checkCriticalCurve, level := level }

/-- The function `pointInArea`: inclusive on all four sides. -/
def pointInArea (p : point α) (a : searchArea α) : Bool :=
  decide (p.x ≥ a.x) && decide (p.x ≤ a.x + a.size) &&
    decide (p.y ≥ a.y) && decide (p.y ≤ a.y + a.size)

/-- The function `interpolatePosition`. -/
def interpolatePosition (startPoint endPoint : point α) (ratio : α) : point α :=
  { x := startPoint.x + (endPoint.x - startPoint.x) * ratio,
    y := startPoint.y + (endPoint.y - startPoint.y) * ratio }

/-- The function `areaCorner`. -/
def areaCorner (a : searchArea α) (c : corner) : point α :=
  match c with
  | corner.BOTTOM_LEFT => makePoint a.x a.y
  | corner.TOP_LEFT => makePoint a.x (a.y + a.size)
  | corner.TOP_RIGHT => makePoint (a.x + a.size) (a.y + a.size)
  | corner.BOTTOM_RIGHT => makePoint (a.x + a.size) a.y

/-- The C library function `hypot` over exact arithmetic. -/
def hypot (sqrt : α → α) (x y : α) : α := sqrt (x * x + y * y)

/-- Vertex test of the first loop of `testPolygonAgainstSource`:
`hypot(v[i].x - origin.x, v[i].y - origin.y) <= radius`.  For a `NaN` vertex the
distance is `NaN` and the comparison is false. -/
def vertexInSource (sqrt : α → α) (src : source α) : Option (point α) → Bool
  | none => false
  | some p => decide (hypot sqrt (p.x - src.origin.x) (p.y - src.origin.y) ≤ src.radius)

/-- The first loop of `testPolygonAgainstSource`; the state is the pair
`(polygonEnclosedInSource, hit)`, initially `(TRUE, FALSE)`. -/
def vertexPass (sqrt : α → α) (src : source α) (v : List (Option (point α))) : Bool × Bool :=
  v.foldl (fun st vi => if vertexInSource sqrt src vi then (st.1, true) else (false, st.2))
    (true, false)

/-- The ray test of one edge (`p = -dux/du; 0 < p && p <= 1 && v1 + p*dv >= origin.y`).
With `du = 0` the quotient is `±inf` or `NaN`, and `0 < p && p <= 1` is false. -/
def rayHitsEdge (src : source α) (p1 p2 : point α) : Bool :=
  let du := p2.x - p1.x
  let dv := p2.y - p1.y
  let dux := p1.x - src.origin.x
  match fdiv (-dux) du with
  | none => false
  | some p => decide (0 < p) && decide (p ≤ 1) && decide (p1.y + p * dv ≥ src.origin.y)

/-- The circle test of one edge: the discriminant is non-negative and one of the two
roots `(-b ± sqrt(d)) / (2*a)` lies in `[0,1]`.  With `a = 0` both quotients are
non-finite and every comparison is false. -/
def edgeCrossesSource (sqrt : α → α) (src : source α) (p1 p2 : point α) : Bool :=
  let du := p2.x - p1.x
  let dv := p2.y - p1.y
  let dux := p1.x - src.origin.x
  let dvy := p1.y - src.origin.y
  let a := du * du + dv * dv
  let b := 2 * (du * dux + dv * dvy)
  let c := dux * dux + dvy * dvy - src.radius * src.radius
  let d := b * b - 4 * a * c
  if d < 0 then false
  else
    match fdiv (-b + sqrt d) (2 * a), fdiv (-b - sqrt d) (2 * a) with
    | some r1, some r2 =>
      (decide (0 ≤ r1) && decide (r1 ≤ 1)) || (decide (0 ≤ r2) && decide (r2 ≤ 1))
    | _, _ => false

/-- The vertex `v[i]`; an index outside the list does not occur in the loops. -/
def vertexAt (v : List (Option (point α))) (i : Nat) : Option (point α) :=
  (v[i]?).join

/-- The second loop of `testPolygonAgainstSource` over the remaining indices, with
the running counter `edgeHits`.  The result `none` is the early `return OVERLAP`;
`some n` is the final value of `edgeHits`.  An edge with a `NaN` end point has
`NaN` in every quantity, so it passes no test. -/
def edgeLoop (sqrt : α → α) (src : source α) (v : List (Option (point α))) :
    List Nat → Nat → Option Nat
  | [], edgeHits => some edgeHits
  | i :: rest, edgeHits =>
    match vertexAt v i, vertexAt v ((i + 1) % v.length) with
    | some p1, some p2 =>
      let edgeHits1 := if rayHitsEdge src p1 p2 then edgeHits + 1 else edgeHits
      if edgeCrossesSource sqrt src p1 p2 then none
      else edgeLoop sqrt src v rest edgeHits1
    | _, _ => edgeLoop sqrt src v rest edgeHits

/-- The circle test of the edge that starts at `v[i]` and ends at `v[(i+1) % vp]`;
false when an end point is `NaN`. -/
def edgeCrossesAt (sqrt : α → α) (src : source α) (v : List (Option (point α)))
    (i : Nat) : Bool :=
  match vertexAt v i, vertexAt v ((i + 1) % v.length) with
  | some p1, some p2 => edgeCrossesSource sqrt src p1 p2
  | _, _ => false

/-- The ray test of the edge that starts at `v[i]` and ends at `v[(i+1) % vp]`;
false when an end point is `NaN`. -/
def rayHitsAt (src : source α) (v : List (Option (point α))) (i : Nat) : Bool :=
  match vertexAt v i, vertexAt v ((i + 1) % v.length) with
  | some p1, some p2 => rayHitsEdge src p1 p2
  | _, _ => false

/-- The number of edges of the polygon that pass the ray test: the value of
`edgeHits` when the second loop runs to its end. -/
def rayCrossings (src : source α) (v : List (Option (point α))) : Nat :=
  ((List.range v.length).filter (rayHitsAt src v)).length

/-- The function `testPolygonAgainstSource`; the array `v` with its length `vp` is
the list `v`. -/
def testPolygonAgainstSource (sqrt : α → α) (v : List (Option (point α)))
    (src : source α) : intersectionType :=
  let st := vertexPass sqrt src v
  let polygonEnclosedInSource := st.1
  let hit := st.2
  if polygonEnclosedInSource then intersectionType.INSIDE_SOURCE
  else if hit then intersectionType.OVERLAP
  else
    match edgeLoop sqrt src v (List.range v.length) 0 with
    | none => intersectionType.OVERLAP
    | some edgeHits =>
      if edgeHits % 2 ≠ 0 && !hit then intersectionType.ENCLOSES_SOURCE
      else if hit then intersectionType.OVERLAP
      else intersectionType.NO_OVERLAP

/-- The expression `dx*dx + dy*dy` with `dx, dy = p - l.origin`: the divisor `dsq` of
`lensJacobianContribution` and `lensDsq` of `mapsToSource`. -/
def lensDsq (l : lens α) (p : point α) : α :=
  (p.x - l.origin.x) * (p.x - l.origin.x) + (p.y - l.origin.y) * (p.y - l.origin.y)

/-- The function `lensJacobianContribution`.  The result `none` is `NaN`: when
`dsq = 0` both `dx` and `dy` are zero, the term `2*mass*dx*dx/(dsq*dsq)` (and its
siblings) is `0/0`, and adding `-mass/dsq` to it leaves `NaN`. -/
def lensJacobianContribution (l : lens α) (p : point α) (type : Int) : Option α :=
  let dx := p.x - l.origin.x
  let dy := p.y - l.origin.y
  let dsq := lensDsq l p
  match type with
  | 1 => fdiv (2 * l.mass * dx * dy) (dsq * dsq)
  | 2 => do
    let t1 ← fdiv (-l.mass) dsq
    let t2 ← fdiv (2 * l.mass * dy * dy) (dsq * dsq)
    pure (t1 + t2)
  | _ => do
    let t1 ← fdiv (-l.mass) dsq
    let t2 ← fdiv (2 * l.mass * dx * dx) (dsq * dsq)
    pure (t1 + t2)

/-- The accumulation loop of `jacobianSignAtPoint`: the triple `(dFxx, dFxy, dFyy)`
after all lenses, or `none` when a contribution was `NaN` (the sums stay `NaN`). -/
def jacobianSums (lenses : List (lens α)) (p : point α) : Option (α × α × α) :=
  lenses.foldl (fun acc l => do
    let s ← acc
    let cxx ← lensJacobianContribution l p 0
    let cxy ← lensJacobianContribution l p 1
    let cyy ← lensJacobianContribution l p 2
    pure (s.1 + cxx, s.2.1 + cxy, s.2.2 + cyy)) (some (1, 0, 1))

/-- The function `jacobianSignAtPoint`.  With a `NaN` determinant the comparison
`jacobian > 0` is false and the result is `-1`. -/
def jacobianSignAtPoint (p : point α) (grid : searchGrid α) : Int :=
  match jacobianSums grid.event.lenses p with
  | none => -1
  | some (dFxx, dFxy, dFyy) =>
    let jacobian := dFxx * dFyy - dFxy * dFxy
    if jacobian > 0 then 1 else -1

/-- The inner loop of `mapsToSource` for one boundary point `p`: the transformed
point, or `none` when `p` coincides with a lens origin (then `mass*dx/lensDsq` and
`mass*dy/lensDsq` are both `0/0`, and both coordinates are `NaN` from there on). -/
def mapToSourcePlane (lenses : List (lens α)) (p : point α) : Option (point α) :=
  lenses.foldl (fun acc l => do
    let vt ← acc
    let dx := p.x - l.origin.x
    let dy := p.y - l.origin.y
    let qx ← fdiv (l.mass * dx) (lensDsq l p)
    let qy ← fdiv (l.mass * dy) (lensDsq l p)
    pure { x := vt.x - qx, y := vt.y - qy }) (some p)

/-- The C cast `(int)x` of a finite double: truncation towards zero. -/
def truncToInt [FloorRing α] (x : α) : Int :=
  if 0 ≤ x then Int.floor x else Int.ceil x

/-- The variable `pointsPerSide` of `mapsToSource`.  It is at least `minPoints = 10`,
so it is kept as a natural number.  (With `resolution = 0` the quotient is not
finite and the C cast is undefined.) -/
def pointsPerSide [FloorRing α] (grid : searchGrid α) : Nat :=
  let minPoints : Int := 10
  let q := truncToInt (grid.searchArea.size / grid.event.resolution)
  (if q > minPoints then q else minPoints).toNat

/-- The array `v` of `mapsToSource`: the boundary samples, left side bottom to top,
top side left to right, right side top to bottom, bottom side right to left. -/
def boundaryPoints [FloorRing α] (grid : searchGrid α) : List (point α) :=
  let n := pointsPerSide grid
  let a := grid.searchArea
  let du := a.size / (n : α)
  (List.range n).map (fun (i : Nat) => makePoint a.x (a.y + (i : α) * du))
    ++ (List.range n).map (fun (i : Nat) => makePoint (a.x + (i : α) * du) (a.y + a.size))
    ++ (List.range n).map
      (fun (i : Nat) => makePoint (a.x + a.size) (a.y + a.size - (i : α) * du))
    ++ (List.range n).map (fun (i : Nat) => makePoint (a.x + a.size - (i : α) * du) a.y)

/-- The function `mapsToSource`. -/
def mapsToSource [FloorRing α] (sqrt : α → α) (grid : searchGrid α) : intersectionType :=
  let vt := (boundaryPoints grid).map (mapToSourcePlane grid.event.lenses)
  testPolygonAgainstSource sqrt vt grid.source

/-- The global arrays `eliminated[]` and `calculations[]`, indexed by level, and the
rectangles drawn (outside debug mode) for the regions reported as hits. -/
structure globals (α : Type) where
  eliminated : Int → α
  calculations : Int → Int
  drawn : List (searchArea α)

/-- Statically initialised globals: every counter is zero and nothing is drawn. -/
def globalsZero : globals α :=
  { eliminated := fun _ => 0, calculations := fun _ => 0, drawn := [] }

/-- The statement `eliminated[level] += area`. -/
def addEliminated (st : globals α) (level : Int) (area : α) : globals α :=
  { st with eliminated := fun l => if l = level then st.eliminated l + area else st.eliminated l }

/-- The statement `calculations[level] += n`. -/
def addCalculations (st : globals α) (level : Int) (n : Int) : globals α :=
  { st with
    calculations := fun l => if l = level then st.calculations l + n else st.calculations l }

/-- The lens loop of `search`: some lens origin lies in the search area. -/
def lensInArea (grid : searchGrid α) : Bool :=
  grid.event.lenses.any (fun l => pointInArea l.origin grid.searchArea)

/-- The critical-curve condition of `search`: the Jacobian sign at the bottom-left
corner differs from the sign at one of the other three corners. -/
def straddlesCriticalCurve (grid : searchGrid α) : Bool :=
  let jacobianSign := jacobianSignAtPoint (areaCorner grid.searchArea corner.BOTTOM_LEFT) grid
  decide (jacobianSign ≠ jacobianSignAtPoint (areaCorner grid.searchArea corner.TOP_LEFT) grid)
    || decide
      (jacobianSign ≠ jacobianSignAtPoint (areaCorner grid.searchArea corner.TOP_RIGHT) grid)
    || decide
      (jacobianSign ≠ jacobianSignAtPoint (areaCorner grid.searchArea corner.BOTTOM_RIGHT) grid)

/-- The array `cRects` of `divideAndConquer`. -/
def cRects (pArea : searchArea α) : List (searchArea α) :=
  let newSize := pArea.size / 2
  [makeSearchArea pArea.x pArea.y newSize,
   makeSearchArea (pArea.x + newSize) pArea.y newSize,
   makeSearchArea pArea.x (pArea.y + newSize) newSize,
   makeSearchArea (pArea.x + newSize) (pArea.y + newSize) newSize]

/-- The four grids on which `divideAndConquer` calls `search`, in call order. -/
def childGrids (grid : searchGrid α) : List (searchGrid α) :=
  (cRects grid.searchArea).map (fun c =>
    makeSearchGrid c grid.source grid.event grid.checkLenses grid.checkCriticalCurve
      (grid.level + 1))

/-- The function `divideAndConquer`, given the function it calls on each child. -/
def divideAndConquer (search : searchGrid α → globals α → Option (globals α))
    (grid : searchGrid α) (st : globals α) : Option (globals α) :=
  (childGrids grid).foldlM (fun st child => search child st) st

/-- The body of `search` up to its calls of `divideAndConquer`, all of which are in
tail position: the globals after the body, and the grid passed to
`divideAndConquer` when the body ends in such a call (`none` when it returns). -/
def searchBody [FloorRing α] (sqrt : α → α) (grid : searchGrid α) (st : globals α) :
    globals α × Option (searchGrid α) :=
  if grid.checkLenses && lensInArea grid then
    if grid.searchArea.size > grid.event.resolution then (st, some grid) else (st, none)
  else
    let grid := { grid with checkLenses := false }
    if grid.checkCriticalCurve && straddlesCriticalCurve grid then
      if grid.searchArea.size > grid.event.resolution then (st, some grid) else (st, none)
    else
      let grid := { grid with checkCriticalCurve := false }
      let hit := mapsToSource sqrt grid
      let st := addCalculations st grid.level 40
      if hit = intersectionType.NO_OVERLAP then
        (addEliminated st grid.level (grid.searchArea.size * grid.searchArea.size), none)
      else if hit = intersectionType.INSIDE_SOURCE
          || decide (grid.searchArea.size ≤ grid.event.resolution) then
        let st := addEliminated st grid.level (grid.searchArea.size * grid.searchArea.size)
        ({ st with drawn := st.drawn ++ [grid.searchArea] }, none)
      else (st, some grid)

/-- The function `search`, with a bound `fuel` on the recursion depth; `none` means
the bound was reached. -/
def search [FloorRing α] (sqrt : α → α) : Nat → searchGrid α → globals α → Option (globals α)
  | 0, _, _ => none
  | fuel + 1, grid, st =>
    match searchBody sqrt grid st with
    | (st1, none) => some st1
    | (st1, some grid1) => divideAndConquer (search sqrt fuel) grid1 st1

/-- The grids on which one call of `search` calls `search` again. -/
def subGrids [FloorRing α] (sqrt : α → α) (grid : searchGrid α) : List (searchGrid α) :=
  match (searchBody sqrt grid globalsZero).2 with
  | none => []
  | some grid1 => childGrids grid1

/-- The nodes of the recursion tree of `search` that lie `n` levels below `grid`. -/
def nodesAtDepth [FloorRing α] (sqrt : α → α) : Nat → searchGrid α → List (searchGrid α)
  | 0, grid => [grid]
  | n + 1, grid => (subGrids sqrt grid).flatMap (nodesAtDepth sqrt n)

/-- The sum of `x_i * y_(i+1) - x_(i+1) * y_i` over the consecutive points of an open
path: twice the signed area it sweeps as seen from the origin. -/
def crossSum : List (point α) → α
  | p :: q :: rest => (p.x * q.y - q.x * p.y) + crossSum (q :: rest)
  | _ => 0

/-- The signed (shoelace) area of the closed polygon with the given vertices, last
vertex joined to the first: positive for a counter-clockwise polygon, negative for
a clockwise one. -/
def shoelaceArea (v : List (point α)) : α :=
  match v with
  | [] => 0
  | p :: rest => crossSum (p :: rest ++ [p]) / 2
/-- The node calls `mapsToSource`: `search` gets past the lens loop and past the
critical-curve check. -/
def callsClassifier (grid : searchGrid α) : Bool :=
  !(grid.checkLenses && lensInArea grid)
    && !(grid.checkCriticalCurve && straddlesCriticalCurve grid)

/-- The number of calls of `mapsToSource` made at level `l` during `search` on
`grid`: the number of nodes of the recursion tree at that level that call it. -/
def classifierCalls [FloorRing α] (sqrt : α → α) (grid : searchGrid α) (l : Int) : Nat :=
  if grid.level ≤ l then
    ((nodesAtDepth sqrt (l - grid.level).toNat grid).filter callsClassifier).length
  else 0
/-- The function `makeSource`. -/
def makeSource (origin : point α) (radius : α) : source α :=
  { origin := origin, radius := radius }

/-- The function `makeLens`. -/
def makeLens (origin : point α) (mass : α) : lens α := { origin := origin, mass := mass }

/-- The function `makeEvent`; `numLenses` is the length of the list. -/
def makeEvent (lenses : List (lens α)) (resolution : α) : event α :=
  { lenses := lenses, resolution := resolution }

/-- The array `lenses` of `main`. -/
def main.lenses : List (lens α) :=
  [makeLens (makePoint 0 0) (1.0 / 1.5), makeLens (makePoint 2 0) (0.5 / 1.5)]

/-- The variable `a` of `main`: the window `(windowX, windowY, windowW)`. -/
def main.a : searchArea α := makeSearchArea (-1) (-2) 4

/-- The variable `e` of `main`, with `searchResolution = 1e-2`. -/
def main.e : event α := makeEvent main.lenses 1e-2

/-- The variable `startPoint` of `main`:
`((startTime - peakTime)/crossingTime, impactRadius)`. -/
def main.startPoint : point α := makePoint ((5700 - 4500) / 800) (-0.17)

/-- The variable `endPoint` of `main`:
`((endTime - peakTime)/crossingTime, impactRadius)`. -/
def main.endPoint : point α := makePoint ((6000 - 4500) / 800) (-0.17)

/-- The variable `animationFrames` of `main`. -/
def main.animationFrames : Int := 100

/-- The variable `s` of `main` in the frame with index `i`: the source of radius
`sourceRadius = 0.05` placed by `interpolatePosition`. -/
def main.s (i : Int) : source α :=
  makeSource
    (if main.animationFrames > 0 then
      interpolatePosition main.startPoint main.endPoint
        ((i : α) / ((main.animationFrames : Int) : α))
    else main.startPoint) 0.05

/-- The loop `for (jj = 0; jj < LEVELS; jj++) { eliminated[jj] == 0; }` of `main`:
the body is a comparison whose value is discarded. -/
def main.resetLoop (st : globals α) : globals α :=
  (List.range 1000).foldl (fun st _ => st) st

/-- The `switch (c)` of the frame loop, for a key other than `q`: the new frame
index `i`.  (The key `g` toggles `debugMode`, which only changes what is drawn.) -/
def main.key (c : Char) (i : Int) : Int :=
  if c = 'f' then (if i ≤ main.animationFrames then i + 1 else i)
  else if c = 'b' then (if i > 0 then i - 1 else i)
  else i

/-- The do-while loop of `main`.  The list holds the successive values of `c`: the
value it has when the loop is entered, then the keys delivered by the successful
calls of `cpgcurs`; the loop ends when `cpgcurs` fails (the list is used up) or on
the key `q`.  The result is the final value of the globals, `none` when a search
reaches the recursion bound. -/
def main.loop [FloorRing α] (sqrt : α → α) (fuel : Nat) :
    List Char → Int → globals α → Option (globals α)
  | [], _, st => some st
  | c :: keys, i, st =>
    if c = 'q' then some st
    else
      match search sqrt fuel
        (makeSearchGrid main.a (main.s (main.key c i)) main.e true true 1) st with
      | none => none
      | some st1 => main.loop sqrt fuel keys (main.key c i) st1

/-- The function `main` from the reset loop on (loading the curve file and opening
the window are not modelled): `c` is the value of the variable `c` when the frame
loop is entered, `keys` the keys read afterwards. -/
def main.run [FloorRing α] (sqrt : α → α) (fuel : Nat) (c : Char) (keys : List Char) :
    Option (globals α) :=
  main.loop sqrt fuel (c :: keys) 0 (main.resetLoop globalsZero)

end Defs

section VertexPass

variable {α : Type} [LinearOrderedField α]

/-- The first loop started from any state: the first flag stays set exactly when it
was set and every vertex passes the test, the second flag is set exactly when it
was set or some vertex passes the test. -/
theorem vertexPass_foldl (sqrt : α → α) (src : source α) (v : List (Option (point α)))
    (st : Bool × Bool) :
    v.foldl (fun st vi => if vertexInSource sqrt src vi then (st.1, true) else (false, st.2)) st
      = (st.1 && v.all (vertexInSource sqrt src), st.2 || v.any (vertexInSource sqrt src)) := by
  induction v generalizing st with
  | nil => simp
  | cons vi rest ih =>
    rw [List.foldl_cons, ih]
    cases h : vertexInSource sqrt src vi <;> simp [h]

theorem vertexPass_eq (sqrt : α → α) (src : source α) (v : List (Option (point α))) :
    vertexPass sqrt src v
      = (v.all (vertexInSource sqrt src), v.any (vertexInSource sqrt src)) := by
  unfold vertexPass
  rw [vertexPass_foldl]
  simp

theorem testPolygonAgainstSource_of_all (sqrt : α → α) (src : source α)
    (v : List (Option (point α))) (h : v.all (vertexInSource sqrt src) = true) :
    testPolygonAgainstSource sqrt v src = intersectionType.INSIDE_SOURCE := by
  simp only [testPolygonAgainstSource, vertexPass_eq, h, if_true]

theorem testPolygonAgainstSource_of_mixed (sqrt : α → α) (src : source α)
    (v : List (Option (point α))) (hall : v.all (vertexInSource sqrt src) = false)
    (hany : v.any (vertexInSource sqrt src) = true) :
    testPolygonAgainstSource sqrt v src = intersectionType.OVERLAP := by
  simp [testPolygonAgainstSource, vertexPass_eq, hall, hany]

theorem testPolygonAgainstSource_of_none (sqrt : α → α) (src : source α)
    (v : List (Option (point α))) (hall : v.all (vertexInSource sqrt src) = false)
    (hany : v.any (vertexInSource sqrt src) = false) :
    testPolygonAgainstSource sqrt v src =
      match edgeLoop sqrt src v (List.range v.length) 0 with
      | none => intersectionType.OVERLAP
      | some edgeHits =>
        if edgeHits % 2 ≠ 0 then intersectionType.ENCLOSES_SOURCE
        else intersectionType.NO_OVERLAP := by
  simp only [testPolygonAgainstSource, vertexPass_eq, hall, hany]
  cases edgeLoop sqrt src v (List.range v.length) 0 <;> simp

end VertexPass

theorem vertexAt_map_some {α : Type} (v : List (point α)) (i : Nat) :
    vertexAt (v.map some) i = v[i]? := by
  simp only [vertexAt, List.getElem?_map]
  cases v[i]? <;> rfl

section EdgeLoop

variable {α : Type} [LinearOrderedField α]

/-- The second loop returns early exactly when some edge passes the circle test;
otherwise it counts the edges that pass the ray test. -/
theorem edgeLoop_eq (sqrt : α → α) (src : source α) (v : List (Option (point α)))
    (is : List Nat) (edgeHits : Nat) :
    edgeLoop sqrt src v is edgeHits =
      if is.any (edgeCrossesAt sqrt src v) then none
      else some (edgeHits + (is.filter (rayHitsAt src v)).length) := by
  induction is generalizing edgeHits with
  | nil => simp [edgeLoop]
  | cons i rest ih =>
    cases h1 : vertexAt v i with
    | none => simp [edgeLoop, ih, edgeCrossesAt, rayHitsAt, h1]
    | some p1 =>
      cases h2 : vertexAt v ((i + 1) % v.length) with
      | none => simp [edgeLoop, ih, edgeCrossesAt, rayHitsAt, h1, h2]
      | some p2 =>
        cases hc : edgeCrossesSource sqrt src p1 p2
        · cases hr : rayHitsEdge src p1 p2
          · simp [edgeLoop, ih, edgeCrossesAt, rayHitsAt, h1, h2, hc, hr]
          · simp [edgeLoop, ih, edgeCrossesAt, rayHitsAt, h1, h2, hc, hr]
            split
            · rfl
            · simp only [Option.some.injEq]
              omega
        · simp [edgeLoop, edgeCrossesAt, h1, h2, hc]

theorem edgeCrossesAt_map_some (sqrt : α → α) (src : source α) (v : List (point α))
    (i : Nat) :
    edgeCrossesAt sqrt src (v.map some) i = true ↔
      ∃ p1 p2, v[i]? = some p1 ∧ v[(i + 1) % v.length]? = some p2 ∧
        edgeCrossesSource sqrt src p1 p2 = true := by
  simp only [edgeCrossesAt, vertexAt_map_some, List.length_map]
  cases v[i]? with
  | none => simp
  | some p1 =>
    cases v[(i + 1) % v.length]? with
    | none => simp
    | some p2 => simp

/-- With a zero-length edge the coefficient `a` is zero, both quotients are
non-finite, and the circle test fails. -/
theorem edgeCrossesSource_self (sqrt : α → α) (src : source α) (p : point α) :
    edgeCrossesSource sqrt src p p = false := by
  simp [edgeCrossesSource, fdiv]

/-- The classifier on a non-empty polygon none of whose vertices passes the vertex
test: `OVERLAP` when some edge passes the circle test, otherwise the parity of the
number of edges that pass the ray test decides. -/
theorem testPolygonAgainstSource_of_outside (sqrt : α → α) (src : source α)
    (v : List (Option (point α))) (hne : v ≠ [])
    (hany : v.any (vertexInSource sqrt src) = false) :
    testPolygonAgainstSource sqrt v src =
      if (List.range v.length).any (edgeCrossesAt sqrt src v) then intersectionType.OVERLAP
      else if rayCrossings src v % 2 ≠ 0 then intersectionType.ENCLOSES_SOURCE
      else intersectionType.NO_OVERLAP := by
  have hall : v.all (vertexInSource sqrt src) = false := by
    cases v with
    | nil => exact absurd rfl hne
    | cons a rest =>
      rw [List.any_cons, Bool.or_eq_false_iff] at hany
      rw [List.all_cons, hany.1, Bool.false_and]
  rw [testPolygonAgainstSource_of_none sqrt src v hall hany, edgeLoop_eq]
  by_cases hc : (List.range v.length).any (edgeCrossesAt sqrt src v) = true
  · simp only [hc, if_true]
  · simp only [hc, rayCrossings, Nat.zero_add]
    rfl

end EdgeLoop

section RealVertex

/-- Over the reals the vertex test is the comparison of the Euclidean distance with
the radius. -/
theorem vertexInSource_real (src : source ℝ) (p : point ℝ) :
    vertexInSource Real.sqrt src (some p) = true ↔
      Real.sqrt ((p.x - src.origin.x) ^ 2 + (p.y - src.origin.y) ^ 2) ≤ src.radius := by
  simp [vertexInSource, hypot, sq]

/-- The squared form of the vertex test. -/
theorem vertexInSource_real_sq (src : source ℝ) (p : point ℝ) :
    vertexInSource Real.sqrt src (some p) = true ↔
      0 ≤ src.radius ∧
        (p.x - src.origin.x) ^ 2 + (p.y - src.origin.y) ^ 2 ≤ src.radius ^ 2 := by
  rw [vertexInSource_real, Real.sqrt_le_iff]

end RealVertex

section RealEdge

/-- The root test on a quadratic `a t² + b t + c` with `a > 0` that is positive at
`t = 1`: the discriminant is non-negative and a root lies in `[0,1]` exactly when
the quadratic is non-positive somewhere on `[0,1]`. -/
theorem quadratic_root_test (a b c : ℝ) (ha : 0 < a) (h1 : 0 < a + b + c) :
    (¬ (b * b - 4 * a * c < 0) ∧
      ((0 ≤ (-b + Real.sqrt (b * b - 4 * a * c)) / (2 * a)
          ∧ (-b + Real.sqrt (b * b - 4 * a * c)) / (2 * a) ≤ 1)
        ∨ (0 ≤ (-b - Real.sqrt (b * b - 4 * a * c)) / (2 * a)
          ∧ (-b - Real.sqrt (b * b - 4 * a * c)) / (2 * a) ≤ 1)))
      ↔ ∃ t : ℝ, 0 ≤ t ∧ t ≤ 1 ∧ a * t * t + b * t + c ≤ 0 := by
  have h2a : (0 : ℝ) < 2 * a := by linarith
  constructor
  · rintro ⟨hd, hroot⟩
    have hd0 : 0 ≤ b * b - 4 * a * c := not_lt.1 hd
    have hs : Real.sqrt (b * b - 4 * a * c) * Real.sqrt (b * b - 4 * a * c)
        = b * b - 4 * a * c := Real.mul_self_sqrt hd0
    generalize Real.sqrt (b * b - 4 * a * c) = s at hs hroot
    rcases hroot with ⟨h0, h1⟩ | ⟨h0, h1⟩
    · refine ⟨(-b + s) / (2 * a), h0, h1, ?_⟩
      have : a * ((-b + s) / (2 * a)) * ((-b + s) / (2 * a)) + b * ((-b + s) / (2 * a)) + c
          = (s * s - (b * b - 4 * a * c)) / (4 * a) := by
        field_simp
        ring
      rw [this, hs]; simp
    · refine ⟨(-b - s) / (2 * a), h0, h1, ?_⟩
      have : a * ((-b - s) / (2 * a)) * ((-b - s) / (2 * a)) + b * ((-b - s) / (2 * a)) + c
          = (s * s - (b * b - 4 * a * c)) / (4 * a) := by
        field_simp
        ring
      rw [this, hs]; simp
  · rintro ⟨t, ht0, ht1, hq⟩
    have hd0 : 0 ≤ b * b - 4 * a * c := by nlinarith [sq_nonneg (2 * a * t + b)]
    have hs : Real.sqrt (b * b - 4 * a * c) * Real.sqrt (b * b - 4 * a * c)
        = b * b - 4 * a * c := Real.mul_self_sqrt hd0
    have hs0 : 0 ≤ Real.sqrt (b * b - 4 * a * c) := Real.sqrt_nonneg _
    refine ⟨not_lt.2 hd0, ?_⟩
    generalize Real.sqrt (b * b - 4 * a * c) = s at hs hs0 ⊢
    have hts : (2 * a * t + b) * (2 * a * t + b) ≤ s * s := by nlinarith
    have hup : 2 * a * t + b ≤ s := by nlinarith
    have hlo : -s ≤ 2 * a * t + b := by nlinarith
    have h1s : s * s < (2 * a + b) * (2 * a + b) := by nlinarith
    left
    rw [le_div_iff₀ h2a, div_le_iff₀ h2a]
    refine ⟨by nlinarith, ?_⟩
    by_contra hcon
    push_neg at hcon
    have : 2 * a + b < -s := by nlinarith
    nlinarith

/-- The circle test of an edge of non-zero length whose end point is strictly
outside the disk decides whether the closed segment meets the closed disk. -/
theorem edgeCrossesSource_real_iff (src : source ℝ) (p1 p2 : point ℝ) (hne : p1 ≠ p2)
    (h2 : src.radius ^ 2 < (p2.x - src.origin.x) ^ 2 + (p2.y - src.origin.y) ^ 2) :
    edgeCrossesSource Real.sqrt src p1 p2 = true ↔
      ∃ t : ℝ, 0 ≤ t ∧ t ≤ 1 ∧
        ((interpolatePosition p1 p2 t).x - src.origin.x) ^ 2
          + ((interpolatePosition p1 p2 t).y - src.origin.y) ^ 2 ≤ src.radius ^ 2 := by
  have ha : 0 < (p2.x - p1.x) * (p2.x - p1.x) + (p2.y - p1.y) * (p2.y - p1.y) := by
    by_contra hcon
    have hxx := mul_self_nonneg (p2.x - p1.x)
    have hyy := mul_self_nonneg (p2.y - p1.y)
    have hle := not_lt.1 hcon
    have hx : p2.x - p1.x = 0 := mul_self_eq_zero.1 (by linarith)
    have hy : p2.y - p1.y = 0 := mul_self_eq_zero.1 (by linarith)
    apply hne
    cases p1
    cases p2
    simp only [point.mk.injEq]
    constructor <;> linarith
  have h1 : 0 < ((p2.x - p1.x) * (p2.x - p1.x) + (p2.y - p1.y) * (p2.y - p1.y))
      + 2 * ((p2.x - p1.x) * (p1.x - src.origin.x) + (p2.y - p1.y) * (p1.y - src.origin.y))
      + ((p1.x - src.origin.x) * (p1.x - src.origin.x)
          + (p1.y - src.origin.y) * (p1.y - src.origin.y) - src.radius * src.radius) := by
    nlinarith
  have key := quadratic_root_test _ _ _ ha h1
  have h2a : 2 * ((p2.x - p1.x) * (p2.x - p1.x) + (p2.y - p1.y) * (p2.y - p1.y)) ≠ 0 := by
    linarith
  refine Iff.trans ?_ (key.trans ?_)
  · simp only [edgeCrossesSource, fdiv, if_neg h2a]
    rw [ite_eq_iff]
    simp only [Bool.false_eq_true, and_false, false_or, Bool.or_eq_true, Bool.and_eq_true,
      decide_eq_true_eq]
  · apply exists_congr
    intro t
    apply and_congr_right
    intro _
    apply and_congr_right
    intro _
    simp only [interpolatePosition]
    constructor <;> intro h <;> nlinarith

end RealEdge

section Classifier

/-- C1: if every vertex of the polygon is at Euclidean distance at most the radius
from the source origin (equality included), the first loop leaves
`polygonEnclosedInSource` set, so `testPolygonAgainstSource` returns `INSIDE_SOURCE`
at its first `return`, before the edge loop. -/
theorem testPolygonAgainstSource_all_vertices_inside (v : List (point ℝ)) (src : source ℝ)
    (h : ∀ p ∈ v,
      Real.sqrt ((p.x - src.origin.x) ^ 2 + (p.y - src.origin.y) ^ 2) ≤ src.radius) :
    (vertexPass Real.sqrt src (v.map some)).1 = true ∧
      testPolygonAgainstSource Real.sqrt (v.map some) src = intersectionType.INSIDE_SOURCE := by
  have hall : (v.map some).all (vertexInSource Real.sqrt src) = true := by
    rw [List.all_eq_true]
    intro vi hvi
    obtain ⟨p, hp, rfl⟩ := List.mem_map.1 hvi
    exact (vertexInSource_real src p).2 (h p hp)
  exact ⟨by rw [vertexPass_eq, hall], testPolygonAgainstSource_of_all _ _ _ hall⟩

theorem testPolygonAgainstSource_all_vertices_inside_witness :
    (∀ p ∈ [({ x := 0, y := 0 } : point ℝ), { x := 1, y := 0 }],
      Real.sqrt ((p.x - (0 : ℝ)) ^ 2 + (p.y - (0 : ℝ)) ^ 2) ≤ (1 : ℝ)) ∧
    testPolygonAgainstSource Real.sqrt
      ([({ x := 0, y := 0 } : point ℝ), { x := 1, y := 0 }].map some)
      { origin := { x := 0, y := 0 }, radius := 1 } = intersectionType.INSIDE_SOURCE :=
  ⟨by simp, (testPolygonAgainstSource_all_vertices_inside
    [{ x := 0, y := 0 }, { x := 1, y := 0 }]
    { origin := { x := 0, y := 0 }, radius := 1 } (by simp)).2⟩

/-- C2: a polygon with a vertex at distance at most the radius and a vertex at
distance greater than the radius is classified `OVERLAP`, in whatever order its
vertices are listed. -/
theorem testPolygonAgainstSource_mixed_vertices (v : List (point ℝ)) (src : source ℝ)
    (hin : ∃ p ∈ v,
      Real.sqrt ((p.x - src.origin.x) ^ 2 + (p.y - src.origin.y) ^ 2) ≤ src.radius)
    (hout : ∃ p ∈ v,
      src.radius < Real.sqrt ((p.x - src.origin.x) ^ 2 + (p.y - src.origin.y) ^ 2)) :
    ∀ w : List (point ℝ), w.Perm v →
      testPolygonAgainstSource Real.sqrt (w.map some) src = intersectionType.OVERLAP := by
  intro w hw
  obtain ⟨p, hp, hpin⟩ := hin
  obtain ⟨q, hq, hqout⟩ := hout
  apply testPolygonAgainstSource_of_mixed
  · rw [List.all_eq_false]
    refine ⟨some q, List.mem_map.2 ⟨q, hw.mem_iff.2 hq, rfl⟩, ?_⟩
    rw [vertexInSource_real]
    exact not_le.2 hqout
  · rw [List.any_eq_true]
    exact ⟨some p, List.mem_map.2 ⟨p, hw.mem_iff.2 hp, rfl⟩, (vertexInSource_real src p).2 hpin⟩

theorem testPolygonAgainstSource_mixed_vertices_witness :
    testPolygonAgainstSource Real.sqrt
      ([({ x := 2, y := 0 } : point ℝ), { x := 0, y := 0 }].map some)
      { origin := { x := 0, y := 0 }, radius := 1 } = intersectionType.OVERLAP :=
  testPolygonAgainstSource_mixed_vertices [{ x := 0, y := 0 }, { x := 2, y := 0 }]
    { origin := { x := 0, y := 0 }, radius := 1 }
    ⟨{ x := 0, y := 0 }, by simp, by simp⟩
    ⟨{ x := 2, y := 0 }, by simp, by
      show (1 : ℝ) < Real.sqrt (((2 : ℝ) - 0) ^ 2 + ((0 : ℝ) - 0) ^ 2)
      rw [Real.lt_sqrt (by norm_num)]
      norm_num⟩
    [{ x := 2, y := 0 }, { x := 0, y := 0 }] (List.Perm.swap _ _ _)

/-- C3: over the reals, for a radius that is not negative and a polygon without
zero-length edges whose vertices are all strictly outside the disk, the classifier
returns `OVERLAP` exactly when some edge, as a closed segment, has a point at
distance at most the radius from the source origin (a tangent edge included): the
root test of the quadratic decides the intersection of segment and disk. -/
theorem testPolygonAgainstSource_overlap_iff_edge_meets_disk (v : List (point ℝ))
    (src : source ℝ) (hr : 0 ≤ src.radius)
    (hedge : ∀ (i : Nat) (p1 p2 : point ℝ),
      v[i]? = some p1 → v[(i + 1) % v.length]? = some p2 → p1 ≠ p2)
    (hout : ∀ p ∈ v,
      src.radius < Real.sqrt ((p.x - src.origin.x) ^ 2 + (p.y - src.origin.y) ^ 2)) :
    testPolygonAgainstSource Real.sqrt (v.map some) src = intersectionType.OVERLAP ↔
      ∃ (i : Nat) (p1 p2 : point ℝ),
        v[i]? = some p1 ∧ v[(i + 1) % v.length]? = some p2 ∧
          ∃ t : ℝ, 0 ≤ t ∧ t ≤ 1 ∧
            Real.sqrt (((interpolatePosition p1 p2 t).x - src.origin.x) ^ 2
              + ((interpolatePosition p1 p2 t).y - src.origin.y) ^ 2) ≤ src.radius := by
  have hany : (v.map some).any (vertexInSource Real.sqrt src) = false := by
    rw [List.any_eq_false]
    intro vi hvi
    obtain ⟨p, hp, rfl⟩ := List.mem_map.1 hvi
    rw [vertexInSource_real]
    exact not_le.2 (hout p hp)
  have hedgeIff : ∀ (i : Nat) (p1 p2 : point ℝ),
      v[i]? = some p1 → v[(i + 1) % v.length]? = some p2 →
      (edgeCrossesSource Real.sqrt src p1 p2 = true ↔
        ∃ t : ℝ, 0 ≤ t ∧ t ≤ 1 ∧
          Real.sqrt (((interpolatePosition p1 p2 t).x - src.origin.x) ^ 2
            + ((interpolatePosition p1 p2 t).y - src.origin.y) ^ 2) ≤ src.radius) := by
    intro i p1 p2 h1 h2
    have hp2 : p2 ∈ v := List.getElem?_mem h2
    rw [edgeCrossesSource_real_iff src p1 p2 (hedge i p1 p2 h1 h2)
      ((Real.lt_sqrt hr).1 (hout p2 hp2))]
    apply exists_congr
    intro t
    rw [Real.sqrt_le_iff]
    simp only [hr, true_and]
  by_cases hv : v = []
  · subst hv
    constructor
    · intro h
      simp [testPolygonAgainstSource, vertexPass] at h
    · rintro ⟨i, p1, p2, h1, _⟩
      simp at h1
  · have hv2 : v.map some ≠ [] := by simpa using hv
    rw [testPolygonAgainstSource_of_outside Real.sqrt src _ hv2 hany]
    constructor
    · intro h
      by_cases hc : (List.range (v.map some).length).any
          (edgeCrossesAt Real.sqrt src (v.map some)) = true
      · rw [List.any_eq_true] at hc
        obtain ⟨i, _, hi⟩ := hc
        obtain ⟨p1, p2, h1, h2, hcross⟩ := (edgeCrossesAt_map_some Real.sqrt src v i).1 hi
        exact ⟨i, p1, p2, h1, h2, (hedgeIff i p1 p2 h1 h2).1 hcross⟩
      · rw [if_neg hc] at h
        split at h <;> exact absurd h (by decide)
    · rintro ⟨i, p1, p2, h1, h2, ht⟩
      have hi : i < v.length := by
        by_contra hcon
        rw [List.getElem?_eq_none (not_lt.1 hcon)] at h1
        exact absurd h1 (by simp)
      have hc : (List.range (v.map some).length).any
          (edgeCrossesAt Real.sqrt src (v.map some)) = true := by
        rw [List.any_eq_true]
        refine ⟨i, by simpa using hi, ?_⟩
        exact (edgeCrossesAt_map_some Real.sqrt src v i).2
          ⟨p1, p2, h1, h2, (hedgeIff i p1 p2 h1 h2).2 ht⟩
      rw [if_pos hc]

theorem testPolygonAgainstSource_overlap_iff_edge_meets_disk_witness :
    testPolygonAgainstSource Real.sqrt
      ([({ x := -2, y := 0 } : point ℝ), { x := 2, y := 0 }].map some)
      { origin := { x := 0, y := 0 }, radius := 1 } = intersectionType.OVERLAP :=
  (testPolygonAgainstSource_overlap_iff_edge_meets_disk
    [{ x := -2, y := 0 }, { x := 2, y := 0 }]
    { origin := { x := 0, y := 0 }, radius := 1 }
    (by norm_num)
    (by
      intro i p1 p2 h1 h2
      rcases i with _ | _ | i
      · simp at h1 h2
        rw [← h1, ← h2]
        norm_num
      · simp at h1 h2
        rw [← h1, ← h2]
        norm_num
      · simp at h1)
    (by
      intro p hp
      simp only [List.mem_cons, List.mem_singleton, List.not_mem_nil, or_false] at hp
      rcases hp with rfl | rfl
      · show (1 : ℝ) < Real.sqrt (((-2 : ℝ) - 0) ^ 2 + ((0 : ℝ) - 0) ^ 2)
        rw [Real.lt_sqrt (by norm_num)]
        norm_num
      · show (1 : ℝ) < Real.sqrt (((2 : ℝ) - 0) ^ 2 + ((0 : ℝ) - 0) ^ 2)
        rw [Real.lt_sqrt (by norm_num)]
        norm_num)).2
    ⟨0, { x := -2, y := 0 }, { x := 2, y := 0 }, rfl, rfl, 1 / 2, by norm_num, by norm_num, by
      simp only [interpolatePosition]
      rw [Real.sqrt_le_iff]
      norm_num⟩

/-- C5: for a source of radius zero and a non-empty polygon without zero-length
edges whose boundary does not pass through the source origin, the classifier
returns neither `OVERLAP` nor `INSIDE_SOURCE`: the result is `ENCLOSES_SOURCE` when
the number of edges that pass the ray test is odd, and `NO_OVERLAP` when it is
even. -/
theorem testPolygonAgainstSource_radius_zero (v : List (point ℝ)) (src : source ℝ)
    (hr : src.radius = 0) (hv : v ≠ [])
    (hedge : ∀ (i : Nat) (p1 p2 : point ℝ),
      v[i]? = some p1 → v[(i + 1) % v.length]? = some p2 → p1 ≠ p2)
    (hvert : ∀ p ∈ v, p ≠ src.origin)
    (hbd : ∀ (i : Nat) (p1 p2 : point ℝ),
      v[i]? = some p1 → v[(i + 1) % v.length]? = some p2 →
        ∀ t : ℝ, 0 ≤ t → t ≤ 1 → interpolatePosition p1 p2 t ≠ src.origin) :
    testPolygonAgainstSource Real.sqrt (v.map some) src =
      if rayCrossings src (v.map some) % 2 = 1 then intersectionType.ENCLOSES_SOURCE
      else intersectionType.NO_OVERLAP := by
  have hzero : ∀ p : point ℝ,
      (p.x - src.origin.x) ^ 2 + (p.y - src.origin.y) ^ 2 ≤ src.radius ^ 2 →
        p = src.origin := by
    intro p hp
    rw [hr] at hp
    have hxx := sq_nonneg (p.x - src.origin.x)
    have hyy := sq_nonneg (p.y - src.origin.y)
    have hx : p.x - src.origin.x = 0 := pow_eq_zero_iff (two_ne_zero) |>.1 (by nlinarith)
    have hy : p.y - src.origin.y = 0 := pow_eq_zero_iff (two_ne_zero) |>.1 (by nlinarith)
    cases p with
    | mk px py =>
      cases ho : src.origin with
      | mk ox oy =>
        rw [ho] at hx hy
        simp only [point.mk.injEq]
        constructor <;> linarith
  have hany : (v.map some).any (vertexInSource Real.sqrt src) = false := by
    rw [List.any_eq_false]
    intro vi hvi
    obtain ⟨p, hp, rfl⟩ := List.mem_map.1 hvi
    rw [vertexInSource_real_sq]
    rintro ⟨_, hle⟩
    exact hvert p hp (hzero p hle)
  have hv2 : v.map some ≠ [] := by simpa using hv
  have hc : ¬ (List.range (v.map some).length).any
      (edgeCrossesAt Real.sqrt src (v.map some)) = true := by
    rw [List.any_eq_true]
    rintro ⟨i, _, hi⟩
    obtain ⟨p1, p2, h1, h2, hcross⟩ := (edgeCrossesAt_map_some Real.sqrt src v i).1 hi
    have hp2 : p2 ∈ v := List.getElem?_mem h2
    have hout : src.radius ^ 2
        < (p2.x - src.origin.x) ^ 2 + (p2.y - src.origin.y) ^ 2 := by
      by_contra hcon
      exact hvert p2 hp2 (hzero p2 (not_lt.1 hcon))
    obtain ⟨t, ht0, ht1, hle⟩ :=
      (edgeCrossesSource_real_iff src p1 p2 (hedge i p1 p2 h1 h2) hout).1 hcross
    exact hbd i p1 p2 h1 h2 t ht0 ht1 (hzero _ hle)
  rw [testPolygonAgainstSource_of_outside Real.sqrt src _ hv2 hany, if_neg hc]
  by_cases hodd : rayCrossings src (v.map some) % 2 = 1
  · rw [if_pos hodd, if_pos (by omega)]
  · rw [if_neg hodd, if_neg (by omega)]

theorem testPolygonAgainstSource_radius_zero_witness :
    testPolygonAgainstSource Real.sqrt
      ([({ x := -1, y := -1 } : point ℝ), { x := -1, y := 1 }, { x := 1, y := 1 },
        { x := 1, y := -1 }].map some)
      { origin := { x := 0, y := 0 }, radius := 0 } = intersectionType.ENCLOSES_SOURCE :=
  (testPolygonAgainstSource_radius_zero
    [{ x := -1, y := -1 }, { x := -1, y := 1 }, { x := 1, y := 1 }, { x := 1, y := -1 }]
    { origin := { x := 0, y := 0 }, radius := 0 } rfl (by simp)
    (by
      intro i p1 p2 h1 h2
      rcases i with _ | _ | _ | _ | i
      · simp at h1 h2
        rw [← h1, ← h2]
        norm_num
      · simp at h1 h2
        rw [← h1, ← h2]
        norm_num
      · simp at h1 h2
        rw [← h1, ← h2]
        norm_num
      · simp at h1 h2
        rw [← h1, ← h2]
        norm_num
      · simp at h1)
    (by
      intro p hp
      simp only [List.mem_cons, List.mem_singleton, List.not_mem_nil, or_false] at hp
      rcases hp with rfl | rfl | rfl | rfl <;> norm_num)
    (by
      intro i p1 p2 h1 h2 t _ _ h
      have hx := congrArg point.x h
      have hy := congrArg point.y h
      rcases i with _ | _ | _ | _ | i
      · simp at h1 h2
        rw [← h1, ← h2] at hx
        norm_num [interpolatePosition] at hx
      · simp at h1 h2
        rw [← h1, ← h2] at hy
        norm_num [interpolatePosition] at hy
      · simp at h1 h2
        rw [← h1, ← h2] at hx
        norm_num [interpolatePosition] at hx
      · simp at h1 h2
        rw [← h1, ← h2] at hy
        norm_num [interpolatePosition] at hy
      · simp at h1)).trans
    (by
      have hc : rayCrossings ({ origin := { x := 0, y := 0 }, radius := 0 } : source ℝ)
          ([({ x := -1, y := -1 } : point ℝ), { x := -1, y := 1 }, { x := 1, y := 1 },
            { x := 1, y := -1 }].map some) = 1 := by
        simp [rayCrossings, rayHitsAt, vertexAt, rayHitsEdge, fdiv, List.range_succ,
          List.filter]
        norm_num
      rw [hc]
      rfl)

/-- C4 (the code at a failing input): the unit square with corners `(0,1)`, `(0,2)`,
`(1,2)`, `(1,1)` has no point within distance `1/2` of the origin, yet for the
source of radius `1/2` at the origin the classifier returns `ENCLOSES_SOURCE`: the
ray through the corner `(0,1)` is counted once, on the edge that ends there. -/
theorem testPolygonAgainstSource_disjoint_square :
    (∀ x y : ℝ, 0 ≤ x → x ≤ 1 → 1 ≤ y → y ≤ 2 →
        (1 / 2 : ℝ) < Real.sqrt ((x - 0) ^ 2 + (y - 0) ^ 2)) ∧
      testPolygonAgainstSource Real.sqrt
        ([({ x := 0, y := 1 } : point ℝ), { x := 0, y := 2 }, { x := 1, y := 2 },
          { x := 1, y := 1 }].map some)
        { origin := { x := 0, y := 0 }, radius := 1 / 2 }
        = intersectionType.ENCLOSES_SOURCE := by
  constructor
  · intro x y _ _ hy1 _
    rw [Real.lt_sqrt (by norm_num)]
    nlinarith [sq_nonneg x]
  · rw [testPolygonAgainstSource_of_outside _ _ _ (by simp)]
    · have h1 : (List.range ([({ x := 0, y := 1 } : point ℝ), { x := 0, y := 2 },
          { x := 1, y := 2 }, { x := 1, y := 1 }].map some).length).any
          (edgeCrossesAt Real.sqrt { origin := { x := 0, y := 0 }, radius := 1 / 2 }
            ([({ x := 0, y := 1 } : point ℝ), { x := 0, y := 2 }, { x := 1, y := 2 },
              { x := 1, y := 1 }].map some)) = false := by
        simp [edgeCrossesAt, vertexAt, edgeCrossesSource, fdiv, List.range_succ]
        norm_num
      rw [h1]
      simp [rayCrossings, rayHitsAt, vertexAt, rayHitsEdge, fdiv, List.range_succ, List.filter]
    · norm_num [vertexInSource, hypot, Real.lt_sqrt]

end Classifier

section Subdivision

variable {α : Type} [LinearOrderedField α]

theorem pointInArea_iff (p : point α) (a : searchArea α) :
    pointInArea p a = true ↔
      a.x ≤ p.x ∧ p.x ≤ a.x + a.size ∧ a.y ≤ p.y ∧ p.y ≤ a.y + a.size := by
  simp only [pointInArea, Bool.and_eq_true, decide_eq_true_eq, ge_iff_le, and_assoc]

theorem childGrids_searchArea (grid : searchGrid α) :
    (childGrids grid).map (fun g => g.searchArea) = cRects grid.searchArea := by
  simp [childGrids, makeSearchGrid, cRects]

/-- A child region lies inside its parent when the parent's side is not negative. -/
theorem pointInArea_of_child (a c : searchArea α) (p : point α) (hs : 0 ≤ a.size)
    (hc : c ∈ cRects a) (hp : pointInArea p c = true) : pointInArea p a = true := by
  simp only [cRects, makeSearchArea, List.mem_cons, List.mem_singleton, List.not_mem_nil,
    or_false] at hc
  rw [pointInArea_iff] at hp ⊢
  have hh : a.size / 2 + a.size / 2 = a.size := add_halves a.size
  have hh0 : 0 ≤ a.size / 2 := by positivity
  rcases hc with rfl | rfl | rfl | rfl <;> simp only at hp <;>
    refine ⟨by linarith, by linarith, by linarith, by linarith⟩

theorem mem_childGrids (grid c : searchGrid α) (hc : c ∈ childGrids grid) :
    c.searchArea ∈ cRects grid.searchArea ∧ c.event = grid.event ∧ c.source = grid.source ∧
      c.checkLenses = grid.checkLenses ∧ c.checkCriticalCurve = grid.checkCriticalCurve ∧
      c.level = grid.level + 1 := by
  simp only [childGrids, List.mem_map] at hc
  obtain ⟨a, ha, rfl⟩ := hc
  exact ⟨ha, rfl, rfl, rfl, rfl, rfl⟩

theorem size_of_mem_cRects (a c : searchArea α) (hc : c ∈ cRects a) : c.size = a.size / 2 := by
  simp only [cRects, makeSearchArea, List.mem_cons, List.mem_singleton, List.not_mem_nil,
    or_false] at hc
  rcases hc with rfl | rfl | rfl | rfl <;> rfl

theorem lensDsq_pos (l : lens α) (p : point α) (h : p ≠ l.origin) : 0 < lensDsq l p := by
  unfold lensDsq
  have hxx := mul_self_nonneg (p.x - l.origin.x)
  have hyy := mul_self_nonneg (p.y - l.origin.y)
  by_contra hcon
  have hx : p.x - l.origin.x = 0 := mul_self_eq_zero.1 (by linarith)
  have hy : p.y - l.origin.y = 0 := mul_self_eq_zero.1 (by linarith)
  apply h
  cases p with
  | mk px py =>
    cases ho : l.origin with
    | mk ox oy =>
      rw [ho] at hx hy
      simp only [point.mk.injEq]
      constructor <;> linarith

/-- No divisor vanishes at a point of a region that contains no lens origin. -/
theorem lensDsq_pos_of_not_lensInArea (grid : searchGrid α) (p : point α)
    (hl : lensInArea grid = false) (hp : pointInArea p grid.searchArea = true) :
    ∀ l ∈ grid.event.lenses, 0 < lensDsq l p := by
  intro l hmem
  apply lensDsq_pos
  intro heq
  have : lensInArea grid = true := by
    unfold lensInArea
    rw [List.any_eq_true]
    exact ⟨l, hmem, heq ▸ hp⟩
  rw [hl] at this
  exact absurd this (by decide)

theorem areaCorner_in_area (a : searchArea α) (c : corner) (hs : 0 ≤ a.size) :
    pointInArea (areaCorner a c) a = true := by
  rw [pointInArea_iff]
  cases c <;> simp only [areaCorner, makePoint] <;>
    exact ⟨by linarith, by linarith, by linarith, by linarith⟩

end Subdivision

section SubdivisionClaims

/-- C9: the four regions built by `divideAndConquer` have side `size/2`; a point is
in the parent (by `pointInArea`) exactly when it is in one of the children; a point
in two different children lies on one of the two dividing lines; and no point is
strictly inside two different children. -/
theorem divideAndConquer_tiles (grid : searchGrid ℝ) (hs : 0 ≤ grid.searchArea.size) :
    (childGrids grid).map (fun g => g.searchArea) = cRects grid.searchArea ∧
    (cRects grid.searchArea).length = 4 ∧
    (∀ c ∈ cRects grid.searchArea, c.size = grid.searchArea.size / 2) ∧
    (∀ p : point ℝ, pointInArea p grid.searchArea = true ↔
      ∃ c ∈ cRects grid.searchArea, pointInArea p c = true) ∧
    (∀ (p : point ℝ) (i j : Nat) (ci cj : searchArea ℝ),
      (cRects grid.searchArea)[i]? = some ci → (cRects grid.searchArea)[j]? = some cj →
      i ≠ j → pointInArea p ci = true → pointInArea p cj = true →
        p.x = grid.searchArea.x + grid.searchArea.size / 2
          ∨ p.y = grid.searchArea.y + grid.searchArea.size / 2) ∧
    (∀ (p : point ℝ) (i j : Nat) (ci cj : searchArea ℝ),
      (cRects grid.searchArea)[i]? = some ci → (cRects grid.searchArea)[j]? = some cj →
      i ≠ j →
        ¬ ((ci.x < p.x ∧ p.x < ci.x + ci.size ∧ ci.y < p.y ∧ p.y < ci.y + ci.size)
          ∧ (cj.x < p.x ∧ p.x < cj.x + cj.size ∧ cj.y < p.y ∧ p.y < cj.y + cj.size))) := by
  have hh : grid.searchArea.size / 2 + grid.searchArea.size / 2 = grid.searchArea.size :=
    add_halves _
  have hh0 : 0 ≤ grid.searchArea.size / 2 := by positivity
  refine ⟨childGrids_searchArea grid, rfl, ?_, ?_, ?_, ?_⟩
  · intro c hc
    simp only [cRects, makeSearchArea, List.mem_cons, List.mem_singleton, List.not_mem_nil,
      or_false] at hc
    rcases hc with rfl | rfl | rfl | rfl <;> rfl
  · intro p
    constructor
    · intro hp
      rw [pointInArea_iff] at hp
      simp only [cRects, makeSearchArea, List.mem_cons, List.mem_singleton, List.not_mem_nil,
        or_false, exists_eq_or_imp, exists_eq_left, pointInArea_iff]
      rcases le_total p.x (grid.searchArea.x + grid.searchArea.size / 2) with hx | hx <;>
        rcases le_total p.y (grid.searchArea.y + grid.searchArea.size / 2) with hy | hy
      · exact Or.inl ⟨by linarith, by linarith, by linarith, by linarith⟩
      · exact Or.inr (Or.inr (Or.inl ⟨by linarith, by linarith, by linarith, by linarith⟩))
      · exact Or.inr (Or.inl ⟨by linarith, by linarith, by linarith, by linarith⟩)
      · exact Or.inr (Or.inr (Or.inr ⟨by linarith, by linarith, by linarith, by linarith⟩))
    · rintro ⟨c, hc, hp⟩
      exact pointInArea_of_child _ c p hs hc hp
  · intro p i j ci cj hi hj hij hpi hpj
    rw [pointInArea_iff] at hpi hpj
    rcases i with _ | _ | _ | _ | i <;> rcases j with _ | _ | _ | _ | j <;>
      simp [cRects, makeSearchArea] at hi hj hij <;>
      subst hi <;> subst hj <;> simp only at hpi hpj <;>
      first
        | exact Or.inl (le_antisymm (by linarith) (by linarith))
        | exact Or.inr (le_antisymm (by linarith) (by linarith))
  · intro p i j ci cj hi hj hij
    rintro ⟨hpi, hpj⟩
    rcases i with _ | _ | _ | _ | i <;> rcases j with _ | _ | _ | _ | j <;>
      simp [cRects, makeSearchArea] at hi hj hij <;>
      subst hi <;> subst hj <;> simp only at hpi hpj <;> linarith [hpi.1, hpi.2.1, hpi.2.2.1,
        hpi.2.2.2, hpj.1, hpj.2.1, hpj.2.2.1, hpj.2.2.2]

theorem divideAndConquer_tiles_witness :
    ∃ c ∈ cRects ({ x := -1, y := -2, size := 4 } : searchArea ℝ),
      pointInArea ({ x := 1, y := 0 } : point ℝ) c = true :=
  ((divideAndConquer_tiles
    (makeSearchGrid { x := -1, y := -2, size := 4 }
      { origin := { x := 0, y := 0 }, radius := 1 } { lenses := [], resolution := 1 }
      true true 1)
    (by norm_num [makeSearchGrid])).2.2.2.1 { x := 1, y := 0 }).1
    (by norm_num [makeSearchGrid, pointInArea])

/-- C10: the areas `size * size` of the four child regions created by
`divideAndConquer` sum to the area of the parent, `4 * (size/2)^2 = size^2`. -/
theorem divideAndConquer_area_sum (grid : searchGrid ℝ) :
    ((childGrids grid).map (fun g => g.searchArea.size * g.searchArea.size)).sum
        = grid.searchArea.size * grid.searchArea.size ∧
      4 * (grid.searchArea.size / 2) ^ 2 = grid.searchArea.size ^ 2 := by
  constructor
  · simp only [childGrids, cRects, makeSearchGrid, makeSearchArea, List.map_cons, List.map_nil,
      List.sum_cons, List.sum_nil]
    ring
  · ring

end SubdivisionClaims

section SearchBody

variable {α : Type} [LinearOrderedField α] [FloorRing α]

/-- The grid handed to `divideAndConquer` does not depend on the globals. -/
theorem searchBody_snd_globals (sqrt : α → α) (grid : searchGrid α) (st st1 : globals α) :
    (searchBody sqrt grid st).2 = (searchBody sqrt grid st1).2 := by
  unfold searchBody
  split
  · split <;> rfl
  · simp only []
    split
    · split <;> rfl
    · split
      · rfl
      · split <;> rfl

/-- A call of `divideAndConquer` happens only when the side exceeds the resolution,
and the grid passed differs from the node's grid in its two flags at most. -/
theorem searchBody_snd_some (sqrt : α → α) (grid grid1 : searchGrid α) (st : globals α)
    (h : (searchBody sqrt grid st).2 = some grid1) :
    grid.event.resolution < grid.searchArea.size ∧ grid1.searchArea = grid.searchArea ∧
      grid1.event = grid.event ∧ grid1.source = grid.source ∧ grid1.level = grid.level := by
  unfold searchBody at h
  split at h
  · split at h
    · simp only [Option.some.injEq] at h
      subst h
      exact ⟨by assumption, rfl, rfl, rfl, rfl⟩
    · simp at h
  · simp only [] at h
    split at h
    · split at h
      · simp only [Option.some.injEq] at h
        subst h
        exact ⟨by assumption, rfl, rfl, rfl, rfl⟩
      · simp at h
    · split at h
      · simp at h
      · split at h
        · simp at h
        · rename_i hcond
          simp only [Option.some.injEq] at h
          subst h
          simp only [Bool.or_eq_true, decide_eq_true_eq, not_or, not_le] at hcond
          exact ⟨hcond.2, rfl, rfl, rfl, rfl⟩

theorem searchBody_snd_none_of_le (sqrt : α → α) (grid : searchGrid α) (st : globals α)
    (h : grid.searchArea.size ≤ grid.event.resolution) :
    (searchBody sqrt grid st).2 = none := by
  cases hb : (searchBody sqrt grid st).2 with
  | none => rfl
  | some grid1 => exact absurd (searchBody_snd_some sqrt grid grid1 st hb).1 (not_lt.2 h)

theorem search_succ (sqrt : α → α) (fuel : Nat) (grid : searchGrid α) (st : globals α) :
    search sqrt (fuel + 1) grid st =
      match (searchBody sqrt grid st).2 with
      | none => some (searchBody sqrt grid st).1
      | some grid1 => divideAndConquer (search sqrt fuel) grid1 (searchBody sqrt grid st).1 := by
  rw [search]
  rcases hb : searchBody sqrt grid st with ⟨st1, _ | grid1⟩ <;> rfl

/-- A node on which `search` recurses has half the side of its parent, the same
event, and a parent whose side exceeds the resolution. -/
theorem mem_subGrids (sqrt : α → α) (grid c : searchGrid α) (hc : c ∈ subGrids sqrt grid) :
    grid.event.resolution < grid.searchArea.size ∧
      c.searchArea ∈ cRects grid.searchArea ∧ c.event = grid.event ∧
      c.source = grid.source := by
  unfold subGrids at hc
  cases hb : (searchBody sqrt grid globalsZero).2 with
  | none => rw [hb] at hc; simp at hc
  | some grid1 =>
    rw [hb] at hc
    obtain ⟨h1, h2, h3, h4, _⟩ := searchBody_snd_some sqrt grid grid1 _ hb
    obtain ⟨k1, k2, k3, _⟩ := mem_childGrids grid1 c hc
    exact ⟨h1, h2 ▸ k1, k2.trans h3, k3.trans h4⟩

theorem subGrids_of_le (sqrt : α → α) (grid : searchGrid α)
    (h : grid.searchArea.size ≤ grid.event.resolution) : subGrids sqrt grid = [] := by
  unfold subGrids
  rw [searchBody_snd_none_of_le sqrt grid _ h]

/-- The search that `divideAndConquer` runs over the children returns when every
call on a child returns. -/
theorem foldlM_isSome {β σ : Type} (f : β → σ → Option σ) (l : List β)
    (h : ∀ c ∈ l, ∀ st : σ, (f c st).isSome = true) (st : σ) :
    (l.foldlM (fun st c => f c st) st).isSome = true := by
  induction l generalizing st with
  | nil => rfl
  | cons c rest ih =>
    rw [List.foldlM_cons]
    have hc := h c (List.mem_cons_self c rest) st
    obtain ⟨st1, hst1⟩ := Option.isSome_iff_exists.1 hc
    rw [hst1]
    exact ih (fun d hd => h d (List.mem_cons_of_mem c hd)) st1

theorem mem_nodesAtDepth_succ (sqrt : α → α) (n : Nat) (grid c : searchGrid α) :
    c ∈ nodesAtDepth sqrt (n + 1) grid ↔
      ∃ d ∈ subGrids sqrt grid, c ∈ nodesAtDepth sqrt n d := by
  rw [nodesAtDepth, List.mem_flatMap]

/-- No node lies more than `n` levels below a node whose side is at most
`resolution * 2^n`. -/
theorem nodesAtDepth_succ_eq_nil (sqrt : α → α) (n : Nat) (grid : searchGrid α)
    (h : grid.searchArea.size ≤ grid.event.resolution * 2 ^ n) :
    nodesAtDepth sqrt (n + 1) grid = [] := by
  induction n generalizing grid with
  | zero =>
    rw [nodesAtDepth, subGrids_of_le sqrt grid (by simpa using h)]
    rfl
  | succ n ih =>
    rw [List.eq_nil_iff_forall_not_mem]
    intro c hc
    obtain ⟨d, hd, hcd⟩ := (mem_nodesAtDepth_succ sqrt (n + 1) grid c).1 hc
    obtain ⟨_, harea, hev, _⟩ := mem_subGrids sqrt grid d hd
    have hsz := size_of_mem_cRects _ _ harea
    have hle : d.searchArea.size ≤ d.event.resolution * 2 ^ n := by
      rw [hsz, hev, div_le_iff₀ (by norm_num : (0 : α) < 2)]
      calc grid.searchArea.size ≤ grid.event.resolution * 2 ^ (n + 1) := h
        _ = grid.event.resolution * 2 ^ n * 2 := by ring
    rw [ih d hle] at hcd
    exact absurd hcd (List.not_mem_nil c)

/-- With `n + 1` units of fuel `search` returns on a node whose side is at most
`resolution * 2^n`. -/
theorem search_isSome (sqrt : α → α) (n : Nat) (grid : searchGrid α) (st : globals α)
    (h : grid.searchArea.size ≤ grid.event.resolution * 2 ^ n) :
    (search sqrt (n + 1) grid st).isSome = true := by
  induction n generalizing grid st with
  | zero =>
    rw [search_succ, searchBody_snd_none_of_le sqrt grid st (by simpa using h)]
    rfl
  | succ n ih =>
    rw [search_succ]
    cases hb : (searchBody sqrt grid st).2 with
    | none => rfl
    | some grid1 =>
      obtain ⟨_, h2, h3, _⟩ := searchBody_snd_some sqrt grid grid1 st hb
      apply foldlM_isSome
      intro c hc st1
      obtain ⟨k1, k2, _⟩ := mem_childGrids grid1 c hc
      have hsz := size_of_mem_cRects _ _ k1
      apply ih
      rw [hsz, k2, h2, h3, div_le_iff₀ (by norm_num : (0 : α) < 2)]
      calc grid.searchArea.size ≤ grid.event.resolution * 2 ^ (n + 1) := h
        _ = grid.event.resolution * 2 ^ n * 2 := by ring

theorem length_subGrids_le (sqrt : α → α) (grid : searchGrid α) :
    (subGrids sqrt grid).length ≤ 4 := by
  unfold subGrids
  cases (searchBody sqrt grid globalsZero).2 with
  | none => simp
  | some grid1 => simp [childGrids, cRects]

theorem length_nodesAtDepth_le (sqrt : α → α) (n : Nat) (grid : searchGrid α) :
    (nodesAtDepth sqrt n grid).length ≤ 4 ^ n := by
  induction n generalizing grid with
  | zero => simp [nodesAtDepth]
  | succ n ih =>
    rw [nodesAtDepth, List.length_flatMap]
    calc ((subGrids sqrt grid).map (fun d => (nodesAtDepth sqrt n d).length)).sum
        ≤ ((subGrids sqrt grid).map (fun _ => 4 ^ n)).sum :=
          List.sum_le_sum (fun d _ => ih d)
      _ = (subGrids sqrt grid).length * 4 ^ n := by simp
      _ ≤ 4 * 4 ^ n := Nat.mul_le_mul_right _ (length_subGrids_le sqrt grid)
      _ = 4 ^ (n + 1) := by ring

theorem pointsPerSide_pos (grid : searchGrid α) : 0 < pointsPerSide grid := by
  unfold pointsPerSide
  simp only []
  split <;> omega

/-- Every boundary sample of `mapsToSource` lies in the (closed) search area. -/
theorem boundaryPoints_in_area (grid : searchGrid α) (hs : 0 ≤ grid.searchArea.size) :
    ∀ p ∈ boundaryPoints grid, pointInArea p grid.searchArea = true := by
  have hn : (0 : α) < (pointsPerSide grid : α) := by exact_mod_cast pointsPerSide_pos grid
  have hstep : ∀ i : Nat, i < pointsPerSide grid →
      0 ≤ (i : α) * (grid.searchArea.size / (pointsPerSide grid : α)) ∧
        (i : α) * (grid.searchArea.size / (pointsPerSide grid : α)) ≤ grid.searchArea.size := by
    intro i hi
    have hi0 : (0 : α) ≤ (i : α) := Nat.cast_nonneg i
    have hin : (i : α) ≤ (pointsPerSide grid : α) := by exact_mod_cast hi.le
    have hd : 0 ≤ grid.searchArea.size / (pointsPerSide grid : α) := div_nonneg hs hn.le
    refine ⟨mul_nonneg hi0 hd, ?_⟩
    calc (i : α) * (grid.searchArea.size / (pointsPerSide grid : α))
        ≤ (pointsPerSide grid : α) * (grid.searchArea.size / (pointsPerSide grid : α)) :=
          mul_le_mul_of_nonneg_right hin hd
      _ = grid.searchArea.size := by field_simp
  intro p hp
  simp only [boundaryPoints, List.mem_append, List.mem_map, List.mem_range] at hp
  rw [pointInArea_iff]
  rcases hp with ((⟨i, hi, rfl⟩ | ⟨i, hi, rfl⟩) | ⟨i, hi, rfl⟩) | ⟨i, hi, rfl⟩ <;>
    simp only [makePoint] <;> have := hstep i hi <;>
    exact ⟨by linarith, by linarith, by linarith, by linarith⟩

/-- When the body of `search` ends in a call of `divideAndConquer`, either the call
comes from the lens loop, and the grid passed still has `checkLenses` set, or the
node got past the lens loop. -/
theorem searchBody_snd_some_flags (sqrt : α → α) (grid grid1 : searchGrid α)
    (st : globals α) (h : (searchBody sqrt grid st).2 = some grid1) :
    grid1.checkLenses = true ∨ ¬ (grid.checkLenses = true ∧ lensInArea grid = true) := by
  unfold searchBody at h
  split at h
  · rename_i hcond
    split at h
    · simp only [Option.some.injEq] at h
      subst h
      simp only [Bool.and_eq_true] at hcond
      exact Or.inl hcond.1
    · simp at h
  · rename_i hcond
    simp only [Bool.and_eq_true] at hcond
    exact Or.inr hcond

/-- The invariant of the recursion started with `checkLenses` set: a node either
still has the flag set or its region contains no lens origin; its side is positive. -/
theorem lens_invariant_subGrids (sqrt : α → α) (grid c : searchGrid α)
    (hinv : (grid.checkLenses = true ∨ lensInArea grid = false) ∧ 0 < grid.searchArea.size)
    (hc : c ∈ subGrids sqrt grid) :
    (c.checkLenses = true ∨ lensInArea c = false) ∧ 0 < c.searchArea.size := by
  obtain ⟨_, harea, hev, _⟩ := mem_subGrids sqrt grid c hc
  have hsz := size_of_mem_cRects _ _ harea
  refine ⟨?_, by rw [hsz]; linarith [hinv.2]⟩
  unfold subGrids at hc
  cases hb : (searchBody sqrt grid globalsZero).2 with
  | none => rw [hb] at hc; simp at hc
  | some grid1 =>
    rw [hb] at hc
    obtain ⟨_, _, _, k4, _⟩ := mem_childGrids grid1 c hc
    rcases searchBody_snd_some_flags sqrt grid grid1 _ hb with hflag | hpast
    · exact Or.inl (k4.trans hflag)
    · right
      have hno : lensInArea grid = false := by
        rcases hinv.1 with h1 | h1
        · cases hl : lensInArea grid with
          | false => rfl
          | true => exact absurd ⟨h1, hl⟩ hpast
        · exact h1
      unfold lensInArea at hno ⊢
      rw [List.any_eq_false] at hno ⊢
      intro l hl hin
      rw [hev] at hl
      exact hno l hl (pointInArea_of_child _ _ _ hinv.2.le harea hin)

theorem lens_invariant_nodesAtDepth (sqrt : α → α) (n : Nat) (grid c : searchGrid α)
    (hinv : (grid.checkLenses = true ∨ lensInArea grid = false) ∧ 0 < grid.searchArea.size)
    (hc : c ∈ nodesAtDepth sqrt n grid) :
    (c.checkLenses = true ∨ lensInArea c = false) ∧ 0 < c.searchArea.size := by
  induction n generalizing grid with
  | zero =>
    simp only [nodesAtDepth, List.mem_singleton] at hc
    rw [hc]
    exact hinv
  | succ n ih =>
    obtain ⟨d, hd, hcd⟩ := (mem_nodesAtDepth_succ sqrt n grid c).1 hc
    exact ih d (lens_invariant_subGrids sqrt grid d hinv hd) hcd

end SearchBody

section SearchClaims

/-- C7: a node whose side is at most the resolution never calls `divideAndConquer`:
the body of `search` ends in a `return` whatever the two flags are, whether or not a
lens lies in the region or the corner signs differ, and whatever the classifier
(here for any square-root function) returns; the node has no children and `search`
returns after the body. -/
theorem search_stops_at_resolution (sqrt : ℝ → ℝ) (grid : searchGrid ℝ) (st : globals ℝ)
    (h : grid.searchArea.size ≤ grid.event.resolution) :
    (searchBody sqrt grid st).2 = none ∧ subGrids sqrt grid = [] ∧
      ∀ fuel : Nat, search sqrt (fuel + 1) grid st = some (searchBody sqrt grid st).1 := by
  refine ⟨searchBody_snd_none_of_le sqrt grid st h, subGrids_of_le sqrt grid h, ?_⟩
  intro fuel
  rw [search_succ, searchBody_snd_none_of_le sqrt grid st h]

theorem search_stops_at_resolution_witness :
    subGrids Real.sqrt
      (makeSearchGrid { x := 0, y := 0, size := 1 }
        { origin := { x := 0, y := 0 }, radius := 1 }
        { lenses := [{ origin := { x := 0, y := 0 }, mass := 1 }], resolution := 2 }
        true true 1) = [] :=
  (search_stops_at_resolution Real.sqrt
    (makeSearchGrid { x := 0, y := 0, size := 1 }
      { origin := { x := 0, y := 0 }, radius := 1 }
      { lenses := [{ origin := { x := 0, y := 0 }, mass := 1 }], resolution := 2 }
      true true 1) globalsZero (by norm_num [makeSearchGrid])).2.1

/-- The depth bound of the claim turned into the side bound used by the lemmas. -/
theorem size_le_of_depth_bound (size res : ℝ) (hsize : 0 < size) (hres : 0 < res) (n : Nat)
    (hn : (max 0 (Int.ceil (Real.logb 2 (size / res)))).toNat ≤ n) :
    size ≤ res * 2 ^ n := by
  have h1 : Int.ceil (Real.logb 2 (size / res)) ≤ (n : Int) :=
    le_trans (le_max_right 0 _) (Int.toNat_le.1 hn)
  have h2 : Real.logb 2 (size / res) ≤ (n : ℝ) := by
    have := Int.ceil_le.1 h1
    simpa using this
  have h3 : size / res ≤ (2 : ℝ) ^ (n : ℝ) :=
    (Real.logb_le_iff_le_rpow (by norm_num) (div_pos hsize hres)).1 h2
  rw [Real.rpow_natCast, div_le_iff₀ hres] at h3
  linarith [mul_comm res ((2 : ℝ) ^ n)]

/-- C6: for a root region of positive side and a positive resolution, with any
flags, lens field and source, `search` terminates: with
`D = max(0, ceil(log2(size / resolution)))` no node of the recursion tree lies more
than `D` levels below the root, level `n` of the tree has at most `4^n` nodes, and
`search` returns a result as soon as its recursion depth may exceed `D`. -/
theorem search_terminates (root : searchGrid ℝ) (hsize : 0 < root.searchArea.size)
    (hres : 0 < root.event.resolution) :
    (∀ n : Nat,
      (max 0 (Int.ceil (Real.logb 2
        (root.searchArea.size / root.event.resolution)))).toNat < n →
        nodesAtDepth Real.sqrt n root = []) ∧
    (∀ n : Nat, (nodesAtDepth Real.sqrt n root).length ≤ 4 ^ n) ∧
    (∀ (fuel : Nat) (st : globals ℝ),
      (max 0 (Int.ceil (Real.logb 2
        (root.searchArea.size / root.event.resolution)))).toNat < fuel →
        (search Real.sqrt fuel root st).isSome = true) := by
  refine ⟨?_, fun n => length_nodesAtDepth_le Real.sqrt n root, ?_⟩
  · intro n hn
    obtain ⟨m, rfl⟩ := Nat.exists_eq_succ_of_ne_zero (Nat.not_eq_zero_of_lt hn)
    exact nodesAtDepth_succ_eq_nil Real.sqrt m root
      (size_le_of_depth_bound _ _ hsize hres m (Nat.lt_succ_iff.1 hn))
  · intro fuel st hn
    obtain ⟨m, rfl⟩ := Nat.exists_eq_succ_of_ne_zero (Nat.not_eq_zero_of_lt hn)
    exact search_isSome Real.sqrt m root st
      (size_le_of_depth_bound _ _ hsize hres m (Nat.lt_succ_iff.1 hn))

theorem search_terminates_witness :
    (search Real.sqrt 3
      (makeSearchGrid { x := -1, y := -2, size := 4 }
        { origin := { x := 0, y := 0 }, radius := 1 }
        { lenses := [{ origin := { x := 0, y := 0 }, mass := 1 }], resolution := 1 }
        true true 1) globalsZero).isSome = true :=
  (search_terminates
    (makeSearchGrid { x := -1, y := -2, size := 4 }
      { origin := { x := 0, y := 0 }, radius := 1 }
      { lenses := [{ origin := { x := 0, y := 0 }, mass := 1 }], resolution := 1 }
      true true 1)
    (by norm_num [makeSearchGrid]) (by norm_num [makeSearchGrid])).2.2 3 globalsZero
    (by
      have h : Real.logb 2 ((4 : ℝ) / 1) = ((2 : Nat) : ℝ) := by
        rw [show (4 : ℝ) / 1 = (2 : ℝ) ^ (2 : Nat) by norm_num, Real.logb_pow,
          Real.logb_self_eq_one (by norm_num)]
        norm_num
      show (max 0 (Int.ceil (Real.logb 2 ((4 : ℝ) / 1)))).toNat < 3
      rw [h]
      simp)

/-- C8: when `search` is started with `checkLenses` set on a region of positive
side, every node of the recursion that gets past the lens loop (the only nodes that
evaluate the Jacobian or call `mapsToSource`) has all four corners and all boundary
samples different from every lens origin: each divisor `dsq` / `lensDsq` is
strictly positive, so no Jacobian sum and no mapped vertex is `NaN`. -/
theorem search_avoids_lens_origins (root : searchGrid ℝ) (hflag : root.checkLenses = true)
    (hsize : 0 < root.searchArea.size) (n : Nat) (grid : searchGrid ℝ)
    (hnode : grid ∈ nodesAtDepth Real.sqrt n root)
    (hpast : ¬ (grid.checkLenses = true ∧ lensInArea grid = true)) :
    (∀ (c : corner), ∀ l ∈ grid.event.lenses, 0 < lensDsq l (areaCorner grid.searchArea c)) ∧
    (∀ p ∈ boundaryPoints grid, ∀ l ∈ grid.event.lenses, 0 < lensDsq l p) := by
  obtain ⟨hinv, hpos⟩ :=
    lens_invariant_nodesAtDepth Real.sqrt n root grid ⟨Or.inl hflag, hsize⟩ hnode
  have hno : lensInArea grid = false := by
    rcases hinv with h1 | h1
    · cases hl : lensInArea grid with
      | false => rfl
      | true => exact absurd ⟨h1, hl⟩ hpast
    · exact h1
  constructor
  · intro c
    exact lensDsq_pos_of_not_lensInArea grid _ hno (areaCorner_in_area _ c hpos.le)
  · intro p hp
    exact lensDsq_pos_of_not_lensInArea grid p hno (boundaryPoints_in_area grid hpos.le p hp)

theorem search_avoids_lens_origins_witness :
    0 < lensDsq ({ origin := { x := 5, y := 5 }, mass := 1 } : lens ℝ)
      (areaCorner ({ x := 0, y := 0, size := 1 } : searchArea ℝ) corner.TOP_RIGHT) :=
  (search_avoids_lens_origins
    (makeSearchGrid { x := 0, y := 0, size := 1 }
      { origin := { x := 0, y := 0 }, radius := 1 }
      { lenses := [{ origin := { x := 5, y := 5 }, mass := 1 }], resolution := 1 }
      true true 1)
    rfl (by norm_num [makeSearchGrid]) 0
    (makeSearchGrid { x := 0, y := 0, size := 1 }
      { origin := { x := 0, y := 0 }, radius := 1 }
      { lenses := [{ origin := { x := 5, y := 5 }, mass := 1 }], resolution := 1 }
      true true 1)
    (by simp [nodesAtDepth])
    (by norm_num [makeSearchGrid, lensInArea, pointInArea])).1 corner.TOP_RIGHT
    { origin := { x := 5, y := 5 }, mass := 1 } (by simp [makeSearchGrid])

end SearchClaims

section Jacobian

variable {α : Type} [LinearOrderedField α]

/-- A quotient with a non-zero divisor is finite. -/
theorem fdiv_of_ne (x y : α) (h : y ≠ 0) : fdiv x y = some (x / y) := by
  simp [fdiv, h]

theorem fdiv_zero (x : α) : fdiv x 0 = none := by
  simp [fdiv]

/-- The value of `lensJacobianContribution` where the divisor does not vanish. -/
theorem lensJacobianContribution_of_ne (l : lens α) (p : point α) (type : Int)
    (h : lensDsq l p ≠ 0) :
    lensJacobianContribution l p type = some
      (if type = 1 then
        2 * l.mass * (p.x - l.origin.x) * (p.y - l.origin.y) / (lensDsq l p * lensDsq l p)
      else if type = 2 then
        -l.mass / lensDsq l p
          + 2 * l.mass * (p.y - l.origin.y) * (p.y - l.origin.y) / (lensDsq l p * lensDsq l p)
      else
        -l.mass / lensDsq l p
          + 2 * l.mass * (p.x - l.origin.x) * (p.x - l.origin.x)
            / (lensDsq l p * lensDsq l p)) := by
  have h2 : lensDsq l p * lensDsq l p ≠ 0 := mul_ne_zero h h
  unfold lensJacobianContribution
  split
  · simp [fdiv_of_ne _ _ h2]
  · simp [fdiv_of_ne _ _ h2, fdiv_of_ne _ _ h]
  · rename_i h1 h3
    have e1 : type ≠ 1 := fun e => h1 e
    have e2 : type ≠ 2 := fun e => h3 e
    simp [fdiv_of_ne _ _ h2, fdiv_of_ne _ _ h, e1, e2]

theorem lensJacobianContribution_of_eq (l : lens α) (p : point α) (type : Int)
    (h : lensDsq l p = 0) : lensJacobianContribution l p type = none := by
  unfold lensJacobianContribution
  split <;> simp [h, fdiv_zero]

/-- Once a sum is `NaN` it stays `NaN`. -/
theorem jacobianStep_none (p : point α) (lenses : List (lens α)) :
    lenses.foldl (fun (acc : Option (α × α × α)) l => do
      let s ← acc
      let cxx ← lensJacobianContribution l p 0
      let cxy ← lensJacobianContribution l p 1
      let cyy ← lensJacobianContribution l p 2
      pure (s.1 + cxx, s.2.1 + cxy, s.2.2 + cyy)) none = none := by
  induction lenses with
  | nil => rfl
  | cons l rest ih => simpa using ih

/-- The accumulation loop of `jacobianSignAtPoint` from any starting triple: the three
sums of the per-lens contributions are added when no divisor vanishes, and the
result is `NaN` otherwise. -/
theorem jacobianSums_foldl (p : point α) (lenses : List (lens α)) (s : α × α × α) :
    lenses.foldl (fun (acc : Option (α × α × α)) l => do
      let s ← acc
      let cxx ← lensJacobianContribution l p 0
      let cxy ← lensJacobianContribution l p 1
      let cyy ← lensJacobianContribution l p 2
      pure (s.1 + cxx, s.2.1 + cxy, s.2.2 + cyy)) (some s) =
    if ∀ l ∈ lenses, lensDsq l p ≠ 0 then
      some
        (s.1 + (lenses.map (fun l => -l.mass / lensDsq l p
            + 2 * l.mass * (p.x - l.origin.x) * (p.x - l.origin.x)
              / (lensDsq l p * lensDsq l p))).sum,
         s.2.1 + (lenses.map (fun l => 2 * l.mass * (p.x - l.origin.x) * (p.y - l.origin.y)
              / (lensDsq l p * lensDsq l p))).sum,
         s.2.2 + (lenses.map (fun l => -l.mass / lensDsq l p
            + 2 * l.mass * (p.y - l.origin.y) * (p.y - l.origin.y)
              / (lensDsq l p * lensDsq l p))).sum)
    else none := by
  induction lenses generalizing s with
  | nil => simp
  | cons l rest ih =>
    rw [List.foldl_cons]
    by_cases h : lensDsq l p = 0
    · simp only [lensJacobianContribution_of_eq l p _ h]
      rw [if_neg (by
        intro hall
        exact hall l (List.mem_cons_self l rest) h)]
      simpa using jacobianStep_none p rest
    · simp only [lensJacobianContribution_of_ne l p _ h]
      simp only [Option.bind_eq_bind, Option.some_bind, Option.pure_def]
      norm_num only [if_true, if_false]
      refine (ih _).trans ?_
      simp only [List.mem_cons, forall_eq_or_imp, h, not_false_eq_true, true_and, ne_eq,
        List.map_cons, List.sum_cons, add_assoc]


theorem jacobianSums_of_ne (p : point α) (lenses : List (lens α))
    (h : ∀ l ∈ lenses, lensDsq l p ≠ 0) :
    jacobianSums lenses p = some
      (1 + (lenses.map (fun l => -l.mass / lensDsq l p
          + 2 * l.mass * (p.x - l.origin.x) * (p.x - l.origin.x)
            / (lensDsq l p * lensDsq l p))).sum,
       0 + (lenses.map (fun l => 2 * l.mass * (p.x - l.origin.x) * (p.y - l.origin.y)
            / (lensDsq l p * lensDsq l p))).sum,
       1 + (lenses.map (fun l => -l.mass / lensDsq l p
          + 2 * l.mass * (p.y - l.origin.y) * (p.y - l.origin.y)
            / (lensDsq l p * lensDsq l p))).sum) := by
  unfold jacobianSums
  rw [jacobianSums_foldl, if_pos h]

theorem jacobianSums_of_eq (p : point α) (lenses : List (lens α))
    (h : ∃ l ∈ lenses, lensDsq l p = 0) : jacobianSums lenses p = none := by
  unfold jacobianSums
  rw [jacobianSums_foldl, if_neg]
  intro hall
  obtain ⟨l, hl, h0⟩ := h
  exact hall l hl h0

end Jacobian

section JacobianClaims

/-- C13: `jacobianSignAtPoint` returns `1` or `-1` and nothing else.  Where no
divisor vanishes, `dFxx` and `dFyy` are `1` plus the sum of the per-lens `xx` and
`yy` contributions, `dFxy` is `0` plus the sum of the `xy` contributions, and the
result is `1` when `dFxx*dFyy - dFxy^2` is strictly positive and `-1` otherwise
(also for a zero determinant).  At a lens origin the determinant is `NaN`, which is
not positive, and the result is `-1`. -/
theorem jacobianSignAtPoint_spec (p : point ℝ) (grid : searchGrid ℝ) :
    (jacobianSignAtPoint p grid = 1 ∨ jacobianSignAtPoint p grid = -1) ∧
    ((∀ l ∈ grid.event.lenses, lensDsq l p ≠ 0) →
      jacobianSignAtPoint p grid =
        if 0 < (1 + (grid.event.lenses.map (fun l => -l.mass / lensDsq l p
                + 2 * l.mass * (p.x - l.origin.x) * (p.x - l.origin.x)
                  / (lensDsq l p * lensDsq l p))).sum)
              * (1 + (grid.event.lenses.map (fun l => -l.mass / lensDsq l p
                + 2 * l.mass * (p.y - l.origin.y) * (p.y - l.origin.y)
                  / (lensDsq l p * lensDsq l p))).sum)
            - (0 + (grid.event.lenses.map (fun l =>
                2 * l.mass * (p.x - l.origin.x) * (p.y - l.origin.y)
                  / (lensDsq l p * lensDsq l p))).sum) ^ 2
        then 1 else -1) ∧
    ((∃ l ∈ grid.event.lenses, lensDsq l p = 0) → jacobianSignAtPoint p grid = -1) := by
  refine ⟨?_, ?_, ?_⟩
  · unfold jacobianSignAtPoint
    split
    · exact Or.inr rfl
    · simp only []
      split
      · exact Or.inl rfl
      · exact Or.inr rfl
  · intro h
    unfold jacobianSignAtPoint
    rw [jacobianSums_of_ne p _ h]
    simp only [gt_iff_lt, sq]
  · intro h
    unfold jacobianSignAtPoint
    rw [jacobianSums_of_eq p _ h]

/-- C14: over the reals, for the lens field of a single lens of mass `m > 0` at the
origin and a point `p` other than the origin, `jacobianSignAtPoint` is `1` exactly
when `|p|^2 > m`: it is `-1` on the Einstein ring `|p| = sqrt(m)` and `1` at every
point outside the ring. -/
theorem jacobianSignAtPoint_single_lens (m : ℝ) (hm : 0 < m) (p : point ℝ)
    (hp : p ≠ { x := 0, y := 0 }) (grid : searchGrid ℝ)
    (hl : grid.event.lenses = [{ origin := { x := 0, y := 0 }, mass := m }]) :
    (jacobianSignAtPoint p grid = 1 ↔ m < p.x ^ 2 + p.y ^ 2) ∧
    (Real.sqrt (p.x ^ 2 + p.y ^ 2) = Real.sqrt m → jacobianSignAtPoint p grid = -1) ∧
    (m < p.x ^ 2 + p.y ^ 2 → jacobianSignAtPoint p grid = 1) := by
  have hs : 0 < lensDsq ({ origin := { x := 0, y := 0 }, mass := m } : lens ℝ) p :=
    lensDsq_pos _ p hp
  have hsv : lensDsq ({ origin := { x := 0, y := 0 }, mass := m } : lens ℝ) p
      = p.x ^ 2 + p.y ^ 2 := by
    simp only [lensDsq]
    ring
  have hs2 : 0 < p.x ^ 2 + p.y ^ 2 := hsv ▸ hs
  have key : jacobianSignAtPoint p grid = if m < p.x ^ 2 + p.y ^ 2 then 1 else -1 := by
    unfold jacobianSignAtPoint
    rw [hl, jacobianSums_of_ne p _ (by
      intro l hmem
      rw [List.mem_singleton] at hmem
      rw [hmem]
      exact hs.ne')]
    simp only [List.map_cons, List.map_nil, List.sum_cons, List.sum_nil, hsv, sub_zero,
      add_zero, zero_add, gt_iff_lt]
    have hdet : (1 + (-m / (p.x ^ 2 + p.y ^ 2)
          + 2 * m * p.x * p.x / ((p.x ^ 2 + p.y ^ 2) * (p.x ^ 2 + p.y ^ 2))))
        * (1 + (-m / (p.x ^ 2 + p.y ^ 2)
          + 2 * m * p.y * p.y / ((p.x ^ 2 + p.y ^ 2) * (p.x ^ 2 + p.y ^ 2))))
        - 2 * m * p.x * p.y / ((p.x ^ 2 + p.y ^ 2) * (p.x ^ 2 + p.y ^ 2))
          * (2 * m * p.x * p.y / ((p.x ^ 2 + p.y ^ 2) * (p.x ^ 2 + p.y ^ 2)))
        = ((p.x ^ 2 + p.y ^ 2) ^ 2 - m ^ 2) / (p.x ^ 2 + p.y ^ 2) ^ 2 := by
      field_simp
      ring
    rw [hdet]
    have hpos : 0 < (p.x ^ 2 + p.y ^ 2) ^ 2 := by positivity
    by_cases hlt : m < p.x ^ 2 + p.y ^ 2
    · rw [if_pos hlt, if_pos]
      apply div_pos _ hpos
      nlinarith
    · rw [if_neg hlt, if_neg]
      rw [not_lt] at hlt ⊢
      apply div_nonpos_of_nonpos_of_nonneg _ hpos.le
      nlinarith
  refine ⟨?_, ?_, ?_⟩
  · rw [key]
    constructor
    · intro h
      by_contra hcon
      rw [if_neg hcon] at h
      exact absurd h (by decide)
    · intro h
      rw [if_pos h]
  · intro hsq
    have h : p.x ^ 2 + p.y ^ 2 = m := (Real.sqrt_inj hs2.le hm.le).1 hsq
    rw [key, if_neg (by rw [h]; exact lt_irrefl m)]
  · intro h
    rw [key, if_pos h]


theorem jacobianSignAtPoint_spec_witness :
    jacobianSignAtPoint ({ x := 2, y := 0 } : point ℝ)
      (makeSearchGrid { x := 0, y := 0, size := 1 }
        { origin := { x := 0, y := 0 }, radius := 1 }
        { lenses := [{ origin := { x := 0, y := 0 }, mass := 1 }], resolution := 1 }
        true true 1) = 1 :=
  ((jacobianSignAtPoint_spec { x := 2, y := 0 }
    (makeSearchGrid { x := 0, y := 0, size := 1 }
      { origin := { x := 0, y := 0 }, radius := 1 }
      { lenses := [{ origin := { x := 0, y := 0 }, mass := 1 }], resolution := 1 }
      true true 1)).2.1
    (by
      intro l hl
      simp only [makeSearchGrid, List.mem_singleton] at hl
      rw [hl]
      norm_num [lensDsq])).trans
    (by norm_num [makeSearchGrid, lensDsq])

theorem jacobianSignAtPoint_single_lens_witness :
    jacobianSignAtPoint ({ x := 2, y := 0 } : point ℝ)
      (makeSearchGrid { x := 0, y := 0, size := 1 }
        { origin := { x := 0, y := 0 }, radius := 1 }
        { lenses := [{ origin := { x := 0, y := 0 }, mass := 1 }], resolution := 1 }
        true true 1) = 1 :=
  (jacobianSignAtPoint_single_lens 1 (by norm_num) { x := 2, y := 0 } (by simp)
    (makeSearchGrid { x := 0, y := 0, size := 1 }
      { origin := { x := 0, y := 0 }, radius := 1 }
      { lenses := [{ origin := { x := 0, y := 0 }, mass := 1 }], resolution := 1 }
      true true 1) rfl).2.2 (by norm_num)

/-- C15: where `dsq = dx^2 + dy^2` is not zero (`dx, dy = point - lens.origin`),
`lensJacobianContribution` returns `-mass/dsq + 2*mass*dx^2/dsq^2` for component 0,
`2*mass*dx*dy/dsq^2` for component 1 and `-mass/dsq + 2*mass*dy^2/dsq^2` for
component 2. -/
theorem lensJacobianContribution_formula (l : lens ℝ) (p : point ℝ)
    (h : (p.x - l.origin.x) ^ 2 + (p.y - l.origin.y) ^ 2 ≠ 0) :
    lensJacobianContribution l p 0 = some
      (-l.mass / ((p.x - l.origin.x) ^ 2 + (p.y - l.origin.y) ^ 2)
        + 2 * l.mass * (p.x - l.origin.x) ^ 2
          / ((p.x - l.origin.x) ^ 2 + (p.y - l.origin.y) ^ 2) ^ 2) ∧
    lensJacobianContribution l p 1 = some
      (2 * l.mass * (p.x - l.origin.x) * (p.y - l.origin.y)
          / ((p.x - l.origin.x) ^ 2 + (p.y - l.origin.y) ^ 2) ^ 2) ∧
    lensJacobianContribution l p 2 = some
      (-l.mass / ((p.x - l.origin.x) ^ 2 + (p.y - l.origin.y) ^ 2)
        + 2 * l.mass * (p.y - l.origin.y) ^ 2
          / ((p.x - l.origin.x) ^ 2 + (p.y - l.origin.y) ^ 2) ^ 2) := by
  have hd : lensDsq l p = (p.x - l.origin.x) ^ 2 + (p.y - l.origin.y) ^ 2 := by
    simp only [lensDsq]
    ring
  have hne : lensDsq l p ≠ 0 := by rw [hd]; exact h
  refine ⟨?_, ?_, ?_⟩
  · rw [lensJacobianContribution_of_ne l p 0 hne, hd]
    norm_num only [if_false]
    simp only [Option.some.injEq]
    ring
  · rw [lensJacobianContribution_of_ne l p 1 hne, hd]
    simp only [if_true, Option.some.injEq]
    ring
  · rw [lensJacobianContribution_of_ne l p 2 hne, hd]
    norm_num only [if_true, if_false]
    simp only [Option.some.injEq]
    ring

theorem lensJacobianContribution_formula_witness :
    lensJacobianContribution ({ origin := { x := 0, y := 0 }, mass := 1 } : lens ℝ)
      { x := 1, y := 0 } 1 = some
        (2 * 1 * ((1 : ℝ) - 0) * ((0 : ℝ) - 0) / (((1 : ℝ) - 0) ^ 2 + ((0 : ℝ) - 0) ^ 2) ^ 2) :=
  (lensJacobianContribution_formula { origin := { x := 0, y := 0 }, mass := 1 }
    { x := 1, y := 0 } (by norm_num)).2.1

/-- C16: `pointInArea(p, a)` is TRUE exactly when `a.x <= p.x <= a.x + a.size` and
`a.y <= p.y <= a.y + a.size`; in particular the points of the four boundary lines
that lie between the corners are inside, and so are the four corners returned by
`areaCorner` when the side is not negative. -/
theorem pointInArea_spec (p : point ℝ) (a : searchArea ℝ) :
    (pointInArea p a = true ↔
      a.x ≤ p.x ∧ p.x ≤ a.x + a.size ∧ a.y ≤ p.y ∧ p.y ≤ a.y + a.size) ∧
    ((p.x = a.x ∨ p.x = a.x + a.size) → a.y ≤ p.y → p.y ≤ a.y + a.size →
      pointInArea p a = true) ∧
    ((p.y = a.y ∨ p.y = a.y + a.size) → a.x ≤ p.x → p.x ≤ a.x + a.size →
      pointInArea p a = true) ∧
    (0 ≤ a.size → ∀ c : corner, pointInArea (areaCorner a c) a = true) := by
  refine ⟨pointInArea_iff p a, ?_, ?_, fun hs c => areaCorner_in_area a c hs⟩
  · intro hx hy1 hy2
    rw [pointInArea_iff]
    rcases hx with hx | hx <;> exact ⟨by linarith, by linarith, hy1, hy2⟩
  · intro hy hx1 hx2
    rw [pointInArea_iff]
    rcases hy with hy | hy <;> exact ⟨hx1, hx2, by linarith, by linarith⟩

theorem pointInArea_spec_witness :
    pointInArea (areaCorner ({ x := -1, y := -2, size := 4 } : searchArea ℝ) corner.TOP_RIGHT)
      { x := -1, y := -2, size := 4 } = true :=
  (pointInArea_spec { x := 0, y := 0 } { x := -1, y := -2, size := 4 }).2.2.2
    (by norm_num) corner.TOP_RIGHT

end JacobianClaims

theorem straddlesCriticalCurve_flags {α : Type} [LinearOrderedField α] (grid : searchGrid α)
    (b1 b2 : Bool) :
    straddlesCriticalCurve { grid with checkLenses := b1, checkCriticalCurve := b2 }
      = straddlesCriticalCurve grid := rfl

section SearchCases

variable {α : Type} [LinearOrderedField α] [FloorRing α]

theorem mapsToSource_flags (sqrt : α → α) (grid : searchGrid α) (b1 b2 : Bool) :
    mapsToSource sqrt { grid with checkLenses := b1, checkCriticalCurve := b2 }
      = mapsToSource sqrt grid := rfl

/-- The body of `search` on a node that returns from the lens loop. -/
theorem searchBody_lens (sqrt : α → α) (grid : searchGrid α) (st : globals α)
    (h : grid.checkLenses = true ∧ lensInArea grid = true) :
    searchBody sqrt grid st =
      (st, if grid.searchArea.size > grid.event.resolution then some grid else none) := by
  unfold searchBody
  rw [if_pos (by simp [h.1, h.2])]
  split <;> rfl

/-- The body of `search` on a node that gets past the lens loop and returns from the
critical-curve check. -/
theorem searchBody_critical (sqrt : α → α) (grid : searchGrid α) (st : globals α)
    (hlens : ¬ (grid.checkLenses = true ∧ lensInArea grid = true))
    (h : grid.checkCriticalCurve = true ∧ straddlesCriticalCurve grid = true) :
    searchBody sqrt grid st =
      (st, if grid.searchArea.size > grid.event.resolution
        then some { grid with checkLenses := false } else none) := by
  unfold searchBody
  rw [if_neg (by simpa using hlens)]
  simp only []
  rw [if_pos (by
    have := straddlesCriticalCurve_flags grid false grid.checkCriticalCurve
    simp only [Bool.and_eq_true]
    exact ⟨h.1, this.trans h.2⟩)]
  split <;> rfl

/-- The body of `search` on a node that reaches the overlap classification. -/
theorem searchBody_classify (sqrt : α → α) (grid : searchGrid α) (st : globals α)
    (hlens : ¬ (grid.checkLenses = true ∧ lensInArea grid = true))
    (hcrit : ¬ (grid.checkCriticalCurve = true ∧ straddlesCriticalCurve grid = true)) :
    searchBody sqrt grid st =
      if mapsToSource sqrt grid = intersectionType.NO_OVERLAP then
        (addEliminated (addCalculations st grid.level 40) grid.level
          (grid.searchArea.size * grid.searchArea.size), none)
      else if mapsToSource sqrt grid = intersectionType.INSIDE_SOURCE
          ∨ grid.searchArea.size ≤ grid.event.resolution then
        ({ addEliminated (addCalculations st grid.level 40) grid.level
            (grid.searchArea.size * grid.searchArea.size) with
          drawn := st.drawn ++ [grid.searchArea] }, none)
      else
        (addCalculations st grid.level 40,
          some { grid with checkLenses := false, checkCriticalCurve := false }) := by
  unfold searchBody
  rw [if_neg (by simpa using hlens)]
  simp only []
  rw [if_neg (by
    have := straddlesCriticalCurve_flags grid false grid.checkCriticalCurve
    simp only [Bool.and_eq_true]
    rintro ⟨h1, h2⟩
    exact hcrit ⟨h1, this.symm.trans h2⟩)]
  have hm := mapsToSource_flags sqrt grid false false
  simp only [] at hm ⊢
  rw [hm]
  by_cases h1 : mapsToSource sqrt grid = intersectionType.NO_OVERLAP
  · rw [if_pos h1, if_pos h1]
  · rw [if_neg h1, if_neg h1]
    by_cases h2 : mapsToSource sqrt grid = intersectionType.INSIDE_SOURCE
        ∨ grid.searchArea.size ≤ grid.event.resolution
    · rw [if_pos h2, if_pos (by simpa using h2)]
      rfl
    · rw [if_neg h2, if_neg (by simpa using h2)]

end SearchCases

section NodeClaims

/-- C17: a node that reaches the overlap classification (it got past the lens loop
and the critical-curve check).  If the classifier returns `NO_OVERLAP` the node
returns without children and `eliminated[level]` grows by exactly `size*size`; if
it returns `INSIDE_SOURCE`, or `size <= resolution`, the same holds (and the region
is drawn); otherwise (`OVERLAP` or `ENCLOSES_SOURCE` with `size > resolution`) the
node changes no entry of `eliminated[]` and recurses into exactly four children. -/
theorem search_classification_outcomes (sqrt : ℝ → ℝ) (grid : searchGrid ℝ) (st : globals ℝ)
    (hlens : ¬ (grid.checkLenses = true ∧ lensInArea grid = true))
    (hcrit : ¬ (grid.checkCriticalCurve = true ∧ straddlesCriticalCurve grid = true)) :
    (mapsToSource sqrt grid = intersectionType.NO_OVERLAP →
      (searchBody sqrt grid st).2 = none ∧ subGrids sqrt grid = [] ∧
      (searchBody sqrt grid st).1.eliminated =
        (fun l => if l = grid.level
          then st.eliminated l + grid.searchArea.size * grid.searchArea.size
          else st.eliminated l)) ∧
    (mapsToSource sqrt grid ≠ intersectionType.NO_OVERLAP →
      (mapsToSource sqrt grid = intersectionType.INSIDE_SOURCE
        ∨ grid.searchArea.size ≤ grid.event.resolution) →
      (searchBody sqrt grid st).2 = none ∧ subGrids sqrt grid = [] ∧
      (searchBody sqrt grid st).1.eliminated =
        (fun l => if l = grid.level
          then st.eliminated l + grid.searchArea.size * grid.searchArea.size
          else st.eliminated l) ∧
      (searchBody sqrt grid st).1.drawn = st.drawn ++ [grid.searchArea]) ∧
    (mapsToSource sqrt grid ≠ intersectionType.NO_OVERLAP →
      mapsToSource sqrt grid ≠ intersectionType.INSIDE_SOURCE →
      grid.event.resolution < grid.searchArea.size →
      (searchBody sqrt grid st).1.eliminated = st.eliminated ∧
      ∃ grid1 : searchGrid ℝ, (searchBody sqrt grid st).2 = some grid1 ∧
        subGrids sqrt grid = childGrids grid1 ∧ (subGrids sqrt grid).length = 4 ∧
        (childGrids grid1).map (fun g => g.searchArea) = cRects grid.searchArea) := by
  have hbody := fun st0 : globals ℝ => searchBody_classify sqrt grid st0 hlens hcrit
  refine ⟨?_, ?_, ?_⟩
  · intro h1
    have hb := hbody st
    have hb0 := hbody globalsZero
    rw [if_pos h1] at hb hb0
    refine ⟨by rw [hb], by rw [subGrids, hb0], ?_⟩
    rw [hb]
    rfl
  · intro h1 h2
    have hb := hbody st
    have hb0 := hbody globalsZero
    rw [if_neg h1, if_pos h2] at hb hb0
    refine ⟨by rw [hb], by rw [subGrids, hb0], ?_, by rw [hb]⟩
    rw [hb]
    rfl
  · intro h1 h2 h3
    have h4 : ¬ (mapsToSource sqrt grid = intersectionType.INSIDE_SOURCE
        ∨ grid.searchArea.size ≤ grid.event.resolution) := by
      rintro (h | h)
      · exact h2 h
      · exact absurd h3 (not_lt.2 h)
    have hb := hbody st
    have hb0 := hbody globalsZero
    rw [if_neg h1, if_neg h4] at hb hb0
    refine ⟨by rw [hb]; rfl, _, by rw [hb], by rw [subGrids, hb0], ?_, ?_⟩
    · rw [subGrids, hb0]
      simp [childGrids, cRects]
    · rw [childGrids_searchArea]

theorem search_classification_outcomes_witness :
    (searchBody Real.sqrt
      (makeSearchGrid { x := 0, y := 0, size := 1 }
        { origin := { x := 0, y := 0 }, radius := 1 }
        { lenses := [], resolution := 1 } false false 1) globalsZero).2 = none :=
  by
    have h := search_classification_outcomes Real.sqrt
      (makeSearchGrid { x := 0, y := 0, size := 1 }
        { origin := { x := 0, y := 0 }, radius := 1 }
        { lenses := [], resolution := 1 } false false 1) globalsZero
      (by simp [makeSearchGrid]) (by simp [makeSearchGrid])
    by_cases h1 : mapsToSource Real.sqrt
        (makeSearchGrid ({ x := 0, y := 0, size := 1 } : searchArea ℝ)
          { origin := { x := 0, y := 0 }, radius := 1 }
          { lenses := [], resolution := 1 } false false 1) = intersectionType.NO_OVERLAP
    · exact (h.1 h1).1
    · exact (h.2.1 h1 (Or.inr (by norm_num [makeSearchGrid]))).1

/-- C18 (what the code does): a node with `checkLenses` set whose region contains a
lens origin and whose side is at most the resolution returns from the lens loop:
the classifier is not called, no entry of `eliminated[]` or `calculations[]`
changes, nothing is drawn and no child is created. -/
theorem search_lens_at_floor_returns (sqrt : ℝ → ℝ) (grid : searchGrid ℝ) (st : globals ℝ)
    (hflag : grid.checkLenses = true) (hlens : lensInArea grid = true)
    (hfloor : grid.searchArea.size ≤ grid.event.resolution) :
    searchBody sqrt grid st = (st, none) ∧ subGrids sqrt grid = [] ∧
      ∀ fuel : Nat, search sqrt (fuel + 1) grid st = some st := by
  have hb : ∀ st0 : globals ℝ, searchBody sqrt grid st0 = (st0, none) := by
    intro st0
    rw [searchBody_lens sqrt grid st0 ⟨hflag, hlens⟩, if_neg (not_lt.2 hfloor)]
  refine ⟨hb st, by rw [subGrids, hb], ?_⟩
  intro fuel
  rw [search_succ, hb]

theorem search_lens_at_floor_returns_witness :
    search Real.sqrt 1
      (makeSearchGrid { x := 0, y := 0, size := 1 }
        { origin := { x := 0, y := 0 }, radius := 1 }
        { lenses := [{ origin := { x := 0, y := 0 }, mass := 1 }], resolution := 1 }
        true true 1) globalsZero = some globalsZero :=
  (search_lens_at_floor_returns Real.sqrt
    (makeSearchGrid { x := 0, y := 0, size := 1 }
      { origin := { x := 0, y := 0 }, radius := 1 }
      { lenses := [{ origin := { x := 0, y := 0 }, mass := 1 }], resolution := 1 }
      true true 1) globalsZero rfl
    (by norm_num [makeSearchGrid, lensInArea, pointInArea])
    (by norm_num [makeSearchGrid])).2.2 0

/-- C18 (counterexample): the region `[0,1] x [0,1]` with a lens at its corner
`(0,0)`, `checkLenses` set and `size = resolution = 1`.  The node is not classified:
the body of `search` leaves every counter at zero and draws nothing. -/
theorem search_lens_at_floor_not_recorded :
    (makeSearchGrid ({ x := 0, y := 0, size := 1 } : searchArea ℝ)
        { origin := { x := 0, y := 0 }, radius := 1 }
        { lenses := [{ origin := { x := 0, y := 0 }, mass := 1 }], resolution := 1 }
        true true 1).checkLenses = true ∧
    lensInArea (makeSearchGrid ({ x := 0, y := 0, size := 1 } : searchArea ℝ)
        { origin := { x := 0, y := 0 }, radius := 1 }
        { lenses := [{ origin := { x := 0, y := 0 }, mass := 1 }], resolution := 1 }
        true true 1) = true ∧
    (1 : ℝ) ≤ 1 ∧
    (searchBody Real.sqrt
      (makeSearchGrid ({ x := 0, y := 0, size := 1 } : searchArea ℝ)
        { origin := { x := 0, y := 0 }, radius := 1 }
        { lenses := [{ origin := { x := 0, y := 0 }, mass := 1 }], resolution := 1 }
        true true 1) globalsZero).1.calculations 1 = 0 ∧
    (searchBody Real.sqrt
      (makeSearchGrid ({ x := 0, y := 0, size := 1 } : searchArea ℝ)
        { origin := { x := 0, y := 0 }, radius := 1 }
        { lenses := [{ origin := { x := 0, y := 0 }, mass := 1 }], resolution := 1 }
        true true 1) globalsZero).1.eliminated 1 = 0 ∧
    (searchBody Real.sqrt
      (makeSearchGrid ({ x := 0, y := 0, size := 1 } : searchArea ℝ)
        { origin := { x := 0, y := 0 }, radius := 1 }
        { lenses := [{ origin := { x := 0, y := 0 }, mass := 1 }], resolution := 1 }
        true true 1) globalsZero).1.drawn = [] := by
  have hl : lensInArea (makeSearchGrid ({ x := 0, y := 0, size := 1 } : searchArea ℝ)
      { origin := { x := 0, y := 0 }, radius := 1 }
      { lenses := [{ origin := { x := 0, y := 0 }, mass := 1 }], resolution := 1 }
      true true 1) = true := by
    norm_num [makeSearchGrid, lensInArea, pointInArea]
  have hb := searchBody_lens Real.sqrt
    (makeSearchGrid ({ x := 0, y := 0, size := 1 } : searchArea ℝ)
      { origin := { x := 0, y := 0 }, radius := 1 }
      { lenses := [{ origin := { x := 0, y := 0 }, mass := 1 }], resolution := 1 }
      true true 1) globalsZero ⟨rfl, hl⟩
  refine ⟨rfl, hl, le_refl _, ?_, ?_, ?_⟩ <;> rw [hb] <;> rfl

end NodeClaims

section Measure

variable {α : Type} [LinearOrderedField α]

/-- The sum of `eliminated[]` over a set of levels after `eliminated[level] += area`. -/
theorem sum_addEliminated (st : globals α) (level : Int) (area : α) (S : Finset Int) :
    ∑ l in S, (addEliminated st level area).eliminated l
      = ∑ l in S, st.eliminated l + if level ∈ S then area else 0 := by
  have h : ∀ l : Int, (addEliminated st level area).eliminated l
      = st.eliminated l + if level = l then area else 0 := by
    intro l
    simp only [addEliminated]
    by_cases hl : l = level
    · simp [hl]
    · simp [hl, Ne.symm hl]
  simp only [h, Finset.sum_add_distrib, Finset.sum_ite_eq]

/-- A fold of steps each of which raises a measure by at least `0` and at most `b`:
the whole fold raises it by at most `length * b`, and if it raises it by exactly
that much, then every step raised it by exactly `b`. -/
theorem foldlM_measure {β σ : Type} (μ : σ → α) (b : α) (f : β → σ → Option σ)
    (l : List β)
    (hstep : ∀ c ∈ l, ∀ s s1 : σ, f c s = some s1 → μ s ≤ μ s1 ∧ μ s1 ≤ μ s + b)
    (st st1 : σ) (h : l.foldlM (fun s c => f c s) st = some st1) :
    μ st ≤ μ st1 ∧ μ st1 ≤ μ st + (l.length : α) * b ∧
      (μ st1 = μ st + (l.length : α) * b →
        ∀ c ∈ l, ∃ s s1 : σ, f c s = some s1 ∧ μ s1 = μ s + b) := by
  induction l generalizing st with
  | nil =>
    simp only [List.foldlM_nil, Option.pure_def, Option.some.injEq] at h
    subst h
    simp
  | cons c rest ih =>
    rw [List.foldlM_cons] at h
    cases hc : f c st with
    | none => rw [hc] at h; simp at h
    | some s1 =>
      rw [hc] at h
      simp only [Option.bind_eq_bind, Option.some_bind] at h
      obtain ⟨h1, h2⟩ := hstep c (List.mem_cons_self c rest) st s1 hc
      obtain ⟨k1, k2, k3⟩ := ih (fun d hd => hstep d (List.mem_cons_of_mem c hd)) s1 h
      have hlen : ((c :: rest).length : α) = (rest.length : α) + 1 := by
        simp
      refine ⟨le_trans h1 k1, ?_, ?_⟩
      · rw [hlen]
        linarith
      · intro heq
        rw [hlen] at heq
        have e1 : μ s1 = μ st + b := by linarith
        have e2 : μ st1 = μ s1 + (rest.length : α) * b := by linarith
        intro d hd
        rcases List.mem_cons.1 hd with rfl | hd
        · exact ⟨st, s1, hc, e1⟩
        · exact k3 e2 d hd

end Measure

section Accounting

variable {α : Type} [LinearOrderedField α] [FloorRing α]

/-- What the body of `search` does to `eliminated[]`: nothing when it ends in a call
of `divideAndConquer`; otherwise nothing or `eliminated[level] += size*size`. -/
theorem searchBody_eliminated (sqrt : α → α) (grid : searchGrid α) (st : globals α) :
    ((searchBody sqrt grid st).2 ≠ none →
      (searchBody sqrt grid st).1.eliminated = st.eliminated) ∧
    ((searchBody sqrt grid st).1.eliminated = st.eliminated ∨
      (searchBody sqrt grid st).1.eliminated
        = (addEliminated st grid.level
            (grid.searchArea.size * grid.searchArea.size)).eliminated) := by
  by_cases hlens : grid.checkLenses = true ∧ lensInArea grid = true
  · rw [searchBody_lens sqrt grid st hlens]
    exact ⟨fun _ => rfl, Or.inl rfl⟩
  · by_cases hcrit : grid.checkCriticalCurve = true ∧ straddlesCriticalCurve grid = true
    · rw [searchBody_critical sqrt grid st hlens hcrit]
      exact ⟨fun _ => rfl, Or.inl rfl⟩
    · rw [searchBody_classify sqrt grid st hlens hcrit]
      split
      · exact ⟨fun h => absurd rfl h, Or.inr rfl⟩
      · split
        · exact ⟨fun h => absurd rfl h, Or.inr rfl⟩
        · exact ⟨fun _ => rfl, Or.inl rfl⟩

/-- The sum of `eliminated[]` over any set of levels does not decrease during a call
of `search`, and grows by at most the area of the node's region. -/
theorem search_eliminated_bounds (sqrt : α → α) (S : Finset Int) (fuel : Nat)
    (grid : searchGrid α) (st st1 : globals α) (h : search sqrt fuel grid st = some st1) :
    ∑ l in S, st.eliminated l ≤ ∑ l in S, st1.eliminated l ∧
      ∑ l in S, st1.eliminated l
        ≤ ∑ l in S, st.eliminated l + grid.searchArea.size * grid.searchArea.size := by
  induction fuel generalizing grid st st1 with
  | zero => simp [search] at h
  | succ fuel ih =>
    rw [search_succ] at h
    have hsq : 0 ≤ grid.searchArea.size * grid.searchArea.size := mul_self_nonneg _
    obtain ⟨hdiv, hterm⟩ := searchBody_eliminated sqrt grid st
    cases hb : (searchBody sqrt grid st).2 with
    | none =>
      rw [hb] at h
      simp only [Option.some.injEq] at h
      subst h
      rcases hterm with e | e
      · rw [e]
        exact ⟨le_refl _, by linarith⟩
      · rw [e, sum_addEliminated]
        split <;> exact ⟨by linarith, by linarith⟩
    | some grid1 =>
      rw [hb] at h
      simp only [] at h
      have e := hdiv (by rw [hb]; simp)
      obtain ⟨_, h2, _⟩ := searchBody_snd_some sqrt grid grid1 st hb
      have hstep : ∀ c ∈ childGrids grid1, ∀ s s1 : globals α,
          search sqrt fuel c s = some s1 →
            ∑ l in S, s.eliminated l ≤ ∑ l in S, s1.eliminated l ∧
            ∑ l in S, s1.eliminated l ≤ ∑ l in S, s.eliminated l
              + grid.searchArea.size / 2 * (grid.searchArea.size / 2) := by
        intro c hc s s1 hs
        obtain ⟨k1, _⟩ := mem_childGrids grid1 c hc
        have hsz := size_of_mem_cRects _ _ k1
        have := ih c s s1 hs
        rw [hsz, h2] at this
        exact this
      obtain ⟨k1, k2, _⟩ := foldlM_measure (fun s : globals α => ∑ l in S, s.eliminated l)
        (grid.searchArea.size / 2 * (grid.searchArea.size / 2)) (search sqrt fuel)
        (childGrids grid1) hstep _ st1 h
      have hlen : ((childGrids grid1).length : α) = 4 := by
        simp [childGrids, cRects]
      simp only [e, hlen] at k1 k2
      refine ⟨k1, ?_⟩
      calc ∑ l in S, st1.eliminated l
          ≤ ∑ l in S, st.eliminated l
            + 4 * (grid.searchArea.size / 2 * (grid.searchArea.size / 2)) := k2
        _ = ∑ l in S, st.eliminated l + grid.searchArea.size * grid.searchArea.size := by ring

/-- If a call of `search` raises the sum of `eliminated[]` by the full area of the
node's region, then no node of its recursion tree returned from the lens loop or the
critical-curve check with a side at most the resolution (such a node adds nothing). -/
theorem search_eliminated_eq (sqrt : α → α) (S : Finset Int) (fuel : Nat)
    (grid : searchGrid α) (st st1 : globals α) (h : search sqrt fuel grid st = some st1)
    (hpos : 0 < grid.searchArea.size)
    (heq : ∑ l in S, st1.eliminated l
      = ∑ l in S, st.eliminated l + grid.searchArea.size * grid.searchArea.size) :
    ∀ (n : Nat) (c : searchGrid α), c ∈ nodesAtDepth sqrt n grid →
      ¬ (((c.checkLenses = true ∧ lensInArea c = true)
          ∨ (c.checkCriticalCurve = true ∧ straddlesCriticalCurve c = true))
        ∧ c.searchArea.size ≤ c.event.resolution) := by
  induction fuel generalizing grid st st1 with
  | zero => simp [search] at h
  | succ fuel ih =>
    rw [search_succ] at h
    have hsq : 0 < grid.searchArea.size * grid.searchArea.size := mul_pos hpos hpos
    cases hb : (searchBody sqrt grid st).2 with
    | none =>
      rw [hb] at h
      simp only [Option.some.injEq] at h
      subst h
      have hsub : subGrids sqrt grid = [] := by
        rw [subGrids, searchBody_snd_globals sqrt grid globalsZero st, hb]
      intro n c hc
      cases n with
      | zero =>
        simp only [nodesAtDepth, List.mem_singleton] at hc
        subst hc
        rintro ⟨hcheck, _⟩
        have hst : (searchBody sqrt c st).1 = st := by
          by_cases hlens : c.checkLenses = true ∧ lensInArea c = true
          · rw [searchBody_lens sqrt c st hlens]
          · rcases hcheck with hl | hcrit
            · exact absurd hl hlens
            · rw [searchBody_critical sqrt c st hlens hcrit]
        rw [hst] at heq
        linarith
      | succ n =>
        rw [nodesAtDepth, hsub] at hc
        simp at hc
    | some grid1 =>
      rw [hb] at h
      simp only [] at h
      have e := (searchBody_eliminated sqrt grid st).1 (by rw [hb]; simp)
      obtain ⟨hres, h2, h3, _⟩ := searchBody_snd_some sqrt grid grid1 st hb
      have hstep : ∀ c ∈ childGrids grid1, ∀ s s1 : globals α,
          search sqrt fuel c s = some s1 →
            ∑ l in S, s.eliminated l ≤ ∑ l in S, s1.eliminated l ∧
            ∑ l in S, s1.eliminated l ≤ ∑ l in S, s.eliminated l
              + grid.searchArea.size / 2 * (grid.searchArea.size / 2) := by
        intro c hc s s1 hs
        obtain ⟨k1, _⟩ := mem_childGrids grid1 c hc
        have hsz := size_of_mem_cRects _ _ k1
        have := search_eliminated_bounds sqrt S fuel c s s1 hs
        rw [hsz, h2] at this
        exact this
      obtain ⟨_, _, k3⟩ := foldlM_measure (fun s : globals α => ∑ l in S, s.eliminated l)
        (grid.searchArea.size / 2 * (grid.searchArea.size / 2)) (search sqrt fuel)
        (childGrids grid1) hstep _ st1 h
      have hlen : ((childGrids grid1).length : α) = 4 := by
        simp [childGrids, cRects]
      simp only [e, hlen] at k3
      have hall := k3 (by rw [heq]; ring)
      have hsub : subGrids sqrt grid = childGrids grid1 := by
        rw [subGrids, searchBody_snd_globals sqrt grid globalsZero st, hb]
      intro n c hc
      cases n with
      | zero =>
        simp only [nodesAtDepth, List.mem_singleton] at hc
        subst hc
        rintro ⟨_, hfloor⟩
        exact absurd hres (not_lt.2 hfloor)
      | succ n =>
        obtain ⟨d, hd, hcd⟩ := (mem_nodesAtDepth_succ sqrt n grid c).1 hc
        rw [hsub] at hd
        obtain ⟨s, s1, hs, hseq⟩ := hall d hd
        obtain ⟨k1, _⟩ := mem_childGrids grid1 d hd
        have hsz := size_of_mem_cRects _ _ k1
        rw [h2] at hsz
        exact ih d s s1 hs (by rw [hsz]; linarith) (by rw [hseq, hsz]) n c hcd

end Accounting

section MapToSource

variable {α : Type} [LinearOrderedField α]

/-- Once a mapped point is `NaN` it stays `NaN`. -/
theorem mapToSourcePlane_none (p : point α) (lenses : List (lens α)) :
    lenses.foldl (fun (acc : Option (point α)) l => do
      let vt ← acc
      let dx := p.x - l.origin.x
      let dy := p.y - l.origin.y
      let qx ← fdiv (l.mass * dx) (lensDsq l p)
      let qy ← fdiv (l.mass * dy) (lensDsq l p)
      pure { x := vt.x - qx, y := vt.y - qy }) none = none := by
  induction lenses with
  | nil => rfl
  | cons l rest ih => simpa using ih

/-- The inner loop of `mapsToSource` from any starting point: the deflections of all
lenses are subtracted when no divisor vanishes, and the result is `NaN` otherwise. -/
theorem mapToSourcePlane_foldl (p vt : point α) (lenses : List (lens α)) :
    lenses.foldl (fun (acc : Option (point α)) l => do
      let vt ← acc
      let dx := p.x - l.origin.x
      let dy := p.y - l.origin.y
      let qx ← fdiv (l.mass * dx) (lensDsq l p)
      let qy ← fdiv (l.mass * dy) (lensDsq l p)
      pure { x := vt.x - qx, y := vt.y - qy }) (some vt) =
    if ∀ l ∈ lenses, lensDsq l p ≠ 0 then
      some
        { x := vt.x - (lenses.map (fun l => l.mass * (p.x - l.origin.x) / lensDsq l p)).sum,
          y := vt.y - (lenses.map (fun l => l.mass * (p.y - l.origin.y) / lensDsq l p)).sum }
    else none := by
  induction lenses generalizing vt with
  | nil => simp
  | cons l rest ih =>
    rw [List.foldl_cons]
    by_cases h : lensDsq l p = 0
    · rw [if_neg (by
        intro hall
        exact hall l (List.mem_cons_self l rest) h)]
      simp only [h, fdiv, if_true]
      simpa using mapToSourcePlane_none p rest
    · simp only [fdiv_of_ne _ _ h]
      simp only [Option.bind_eq_bind, Option.some_bind, Option.pure_def]
      refine (ih _).trans ?_
      simp only [List.mem_cons, forall_eq_or_imp, h, not_false_eq_true, true_and, ne_eq,
        List.map_cons, List.sum_cons, sub_sub]

theorem mapToSourcePlane_of_ne (p : point α) (lenses : List (lens α))
    (h : ∀ l ∈ lenses, lensDsq l p ≠ 0) :
    mapToSourcePlane lenses p = some
      { x := p.x - (lenses.map (fun l => l.mass * (p.x - l.origin.x) / lensDsq l p)).sum,
        y := p.y - (lenses.map (fun l => l.mass * (p.y - l.origin.y) / lensDsq l p)).sum } := by
  unfold mapToSourcePlane
  rw [mapToSourcePlane_foldl, if_pos h]

theorem mapToSourcePlane_of_eq (p : point α) (lenses : List (lens α))
    (h : ∃ l ∈ lenses, lensDsq l p = 0) : mapToSourcePlane lenses p = none := by
  unfold mapToSourcePlane
  rw [mapToSourcePlane_foldl, if_neg]
  intro hall
  obtain ⟨l, hl, h0⟩ := h
  exact hall l hl h0

end MapToSource

section HitExample

/-- The example node `[0,1] x [0,1]` with a lens of mass 1 at `(5,5)` and a source
of radius 10 at the origin: no lens origin lies in the region. -/
theorem hitExample_lens :
    lensInArea (makeSearchGrid (⟨0, 0, 1⟩ : searchArea ℝ) ⟨⟨0, 0⟩, 10⟩ ⟨[⟨⟨5, 5⟩, 1⟩], 1 / 4⟩
      true true 1) = false := by
  norm_num [makeSearchGrid, lensInArea, pointInArea]

/-- The Jacobian sign is the same at the four corners of the example node. -/
theorem hitExample_critical :
    straddlesCriticalCurve
      (makeSearchGrid (⟨0, 0, 1⟩ : searchArea ℝ) ⟨⟨0, 0⟩, 10⟩ ⟨[⟨⟨5, 5⟩, 1⟩], 1 / 4⟩
        true true 1) = false := by
  norm_num [makeSearchGrid, straddlesCriticalCurve, jacobianSignAtPoint, jacobianSums,
    lensJacobianContribution, fdiv, lensDsq, areaCorner, makePoint]

/-- Every mapped boundary sample of the example node lies in the source disk. -/
theorem hitExample_inside :
    mapsToSource Real.sqrt
      (makeSearchGrid (⟨0, 0, 1⟩ : searchArea ℝ) ⟨⟨0, 0⟩, 10⟩ ⟨[⟨⟨5, 5⟩, 1⟩], 1 / 4⟩
        true true 1) = intersectionType.INSIDE_SOURCE := by
  unfold mapsToSource
  apply testPolygonAgainstSource_of_all
  rw [List.all_eq_true]
  intro vi hvi
  obtain ⟨p, hp, rfl⟩ := List.mem_map.1 hvi
  have hin := boundaryPoints_in_area _ (by norm_num [makeSearchGrid]) p hp
  rw [pointInArea_iff] at hin
  simp only [makeSearchGrid] at hin ⊢
  obtain ⟨hx0, hx1, hy0, hy1⟩ := hin
  have hd : (32 : ℝ) ≤ lensDsq (⟨⟨5, 5⟩, 1⟩ : lens ℝ) p := by
    simp only [lensDsq]
    nlinarith
  have hd0 : (0 : ℝ) < lensDsq (⟨⟨5, 5⟩, 1⟩ : lens ℝ) p := by linarith
  rw [mapToSourcePlane_of_ne p _ (by
    intro l hl
    rw [List.mem_singleton] at hl
    rw [hl]
    exact hd0.ne')]
  rw [vertexInSource_real_sq]
  simp only [List.map_cons, List.map_nil, List.sum_cons, List.sum_nil, add_zero, sub_zero]
  refine ⟨by norm_num, ?_⟩
  have hqx1 : 0 ≤ -(1 * (p.x - 5) / lensDsq (⟨⟨5, 5⟩, 1⟩ : lens ℝ) p) :=
    by rw [← neg_div]; exact div_nonneg (by linarith) hd0.le
  have hqx2 : -(1 * (p.x - 5) / lensDsq (⟨⟨5, 5⟩, 1⟩ : lens ℝ) p) ≤ 1 := by
    rw [← neg_div, div_le_one hd0]
    linarith
  have hqy1 : 0 ≤ -(1 * (p.y - 5) / lensDsq (⟨⟨5, 5⟩, 1⟩ : lens ℝ) p) :=
    by rw [← neg_div]; exact div_nonneg (by linarith) hd0.le
  have hqy2 : -(1 * (p.y - 5) / lensDsq (⟨⟨5, 5⟩, 1⟩ : lens ℝ) p) ≤ 1 := by
    rw [← neg_div, div_le_one hd0]
    linarith
  nlinarith

end HitExample

section AreaClaims

/-- The example node terminates as a hit: its area is added to `eliminated[1]` and
its region is drawn. -/
theorem hitExample_search :
    search Real.sqrt 1
      (makeSearchGrid (⟨0, 0, 1⟩ : searchArea ℝ) ⟨⟨0, 0⟩, 10⟩ ⟨[⟨⟨5, 5⟩, 1⟩], 1 / 4⟩
        true true 1) globalsZero
      = some { addEliminated (addCalculations globalsZero 1 40) 1 ((1 : ℝ) * 1) with
          drawn := [⟨0, 0, 1⟩] } := by
  rw [search_succ, searchBody_classify Real.sqrt _ _
    (by
      intro h
      have h2 := h.2
      rw [hitExample_lens] at h2
      exact Bool.false_ne_true h2)
    (by
      intro h
      have h2 := h.2
      rw [hitExample_critical] at h2
      exact Bool.false_ne_true h2), hitExample_inside]
  rw [if_neg (by decide), if_pos (Or.inl rfl)]
  rfl

/-- C11: a call of `search` on a region of positive side with a positive resolution,
started with every `eliminated[]` entry at zero, returns (for every recursion bound
above `max(0, ceil(log2(size/resolution)))`), and afterwards the sum of
`eliminated[level]` over any set of levels, in particular over the indices
`0..999` of the array, is at most `size * size`. -/
theorem search_eliminated_le_area (root : searchGrid ℝ) (st : globals ℝ)
    (hzero : ∀ l : Int, st.eliminated l = 0) (hsize : 0 < root.searchArea.size)
    (hres : 0 < root.event.resolution) (fuel : Nat)
    (hfuel : (max 0 (Int.ceil (Real.logb 2
      (root.searchArea.size / root.event.resolution)))).toNat < fuel) :
    ∃ st1 : globals ℝ, search Real.sqrt fuel root st = some st1 ∧
      (∀ S : Finset Int,
        ∑ l in S, st1.eliminated l ≤ root.searchArea.size * root.searchArea.size) ∧
      ∑ l in Finset.Icc (0 : Int) 999, st1.eliminated l
        ≤ root.searchArea.size * root.searchArea.size := by
  obtain ⟨m, rfl⟩ := Nat.exists_eq_succ_of_ne_zero (Nat.not_eq_zero_of_lt hfuel)
  have hsome := search_isSome Real.sqrt m root st
    (size_le_of_depth_bound _ _ hsize hres m (Nat.lt_succ_iff.1 hfuel))
  obtain ⟨st1, hst1⟩ := Option.isSome_iff_exists.1 hsome
  have hall : ∀ S : Finset Int,
      ∑ l in S, st1.eliminated l ≤ root.searchArea.size * root.searchArea.size := by
    intro S
    have h := (search_eliminated_bounds Real.sqrt S (m + 1) root st st1 hst1).2
    simpa [hzero] using h
  exact ⟨st1, hst1, hall, hall _⟩

theorem search_eliminated_le_area_witness :
    ∃ st1 : globals ℝ,
      search Real.sqrt 3
        (makeSearchGrid (⟨-1, -2, 4⟩ : searchArea ℝ) ⟨⟨0, 0⟩, 1⟩ ⟨[⟨⟨0, 0⟩, 1⟩], 1⟩
          true true 1) globalsZero = some st1 ∧
      ∑ l in Finset.Icc (0 : Int) 999, st1.eliminated l ≤ (4 : ℝ) * 4 := by
  obtain ⟨st1, h1, _, h3⟩ := search_eliminated_le_area
    (makeSearchGrid (⟨-1, -2, 4⟩ : searchArea ℝ) ⟨⟨0, 0⟩, 1⟩ ⟨[⟨⟨0, 0⟩, 1⟩], 1⟩ true true 1)
    globalsZero (fun _ => rfl) (by norm_num [makeSearchGrid]) (by norm_num [makeSearchGrid]) 3
    (by
      have h : Real.logb 2 ((4 : ℝ) / 1) = ((2 : Nat) : ℝ) := by
        rw [show (4 : ℝ) / 1 = (2 : ℝ) ^ (2 : Nat) by norm_num, Real.logb_pow,
          Real.logb_self_eq_one (by norm_num)]
        norm_num
      show (max 0 (Int.ceil (Real.logb 2 ((4 : ℝ) / 1)))).toNat < 3
      rw [h]
      simp)
  exact ⟨st1, h1, h3⟩

/-- C12 (counterexample): the search of the region `[0,1] x [0,1]` (lens of mass 1
at `(5,5)`, source of radius 10 at the origin, zeroed counters) classifies the root
`INSIDE_SOURCE`, reports it as a hit (the region is drawn), and still the sum of
`eliminated[]` over `0..999` equals the area `1 * 1` of the initial region. -/
theorem search_hit_counts_as_eliminated :
    ∃ st1 : globals ℝ,
      search Real.sqrt 1
        (makeSearchGrid (⟨0, 0, 1⟩ : searchArea ℝ) ⟨⟨0, 0⟩, 10⟩ ⟨[⟨⟨5, 5⟩, 1⟩], 1 / 4⟩
          true true 1) globalsZero = some st1 ∧
      mapsToSource Real.sqrt
        (makeSearchGrid (⟨0, 0, 1⟩ : searchArea ℝ) ⟨⟨0, 0⟩, 10⟩ ⟨[⟨⟨5, 5⟩, 1⟩], 1 / 4⟩
          true true 1) = intersectionType.INSIDE_SOURCE ∧
      st1.drawn = [⟨0, 0, 1⟩] ∧
      ∑ l in Finset.Icc (0 : Int) 999, st1.eliminated l = (1 : ℝ) * 1 := by
  refine ⟨_, hitExample_search, hitExample_inside, rfl, ?_⟩
  show ∑ l in Finset.Icc (0 : Int) 999,
    (addEliminated (addCalculations globalsZero 1 40) 1 ((1 : ℝ) * 1)).eliminated l = 1 * 1
  rw [sum_addEliminated]
  simp [addCalculations, globalsZero]

/-- C12 (as amended): hit regions do contribute to `eliminated[]`: a node that
terminates through the `INSIDE_SOURCE` / `size <= resolution` branch adds
`size * size` to `eliminated[level]`.  If after a call of `search` on a region of
positive side, started with zeroed counters, the sum of `eliminated[]` (over any set
of levels) equals the area of the initial region, then no node of the recursion tree
returned from the lens loop or from the critical-curve check with a side at most the
resolution, which are the terminal nodes that add nothing. -/
theorem search_full_area_no_unrecorded_leaf (root : searchGrid ℝ) (st st1 : globals ℝ)
    (hzero : ∀ l : Int, st.eliminated l = 0) (hsize : 0 < root.searchArea.size)
    (fuel : Nat) (hsearch : search Real.sqrt fuel root st = some st1) (S : Finset Int)
    (heq : ∑ l in S, st1.eliminated l = root.searchArea.size * root.searchArea.size) :
    (∀ (n : Nat) (c : searchGrid ℝ), c ∈ nodesAtDepth Real.sqrt n root →
      ¬ (((c.checkLenses = true ∧ lensInArea c = true)
          ∨ (c.checkCriticalCurve = true ∧ straddlesCriticalCurve c = true))
        ∧ c.searchArea.size ≤ c.event.resolution)) ∧
    (∀ (c : searchGrid ℝ) (s : globals ℝ),
      ¬ (c.checkLenses = true ∧ lensInArea c = true) →
      ¬ (c.checkCriticalCurve = true ∧ straddlesCriticalCurve c = true) →
      mapsToSource Real.sqrt c ≠ intersectionType.NO_OVERLAP →
      (mapsToSource Real.sqrt c = intersectionType.INSIDE_SOURCE
        ∨ c.searchArea.size ≤ c.event.resolution) →
      (searchBody Real.sqrt c s).2 = none ∧
      (searchBody Real.sqrt c s).1.eliminated c.level
        = s.eliminated c.level + c.searchArea.size * c.searchArea.size) := by
  constructor
  · exact search_eliminated_eq Real.sqrt S fuel root st st1 hsearch hsize
      (by simpa [hzero] using heq)
  · intro c s hlens hcrit h1 h2
    rw [searchBody_classify Real.sqrt c s hlens hcrit, if_neg h1, if_pos h2]
    refine ⟨rfl, ?_⟩
    simp [addEliminated, addCalculations]

theorem search_full_area_no_unrecorded_leaf_witness :
    ¬ ((((makeSearchGrid (⟨0, 0, 1⟩ : searchArea ℝ) ⟨⟨0, 0⟩, 10⟩ ⟨[⟨⟨5, 5⟩, 1⟩], 1 / 4⟩
            true true 1).checkLenses = true
          ∧ lensInArea (makeSearchGrid (⟨0, 0, 1⟩ : searchArea ℝ) ⟨⟨0, 0⟩, 10⟩
            ⟨[⟨⟨5, 5⟩, 1⟩], 1 / 4⟩ true true 1) = true)
        ∨ ((makeSearchGrid (⟨0, 0, 1⟩ : searchArea ℝ) ⟨⟨0, 0⟩, 10⟩ ⟨[⟨⟨5, 5⟩, 1⟩], 1 / 4⟩
            true true 1).checkCriticalCurve = true
          ∧ straddlesCriticalCurve (makeSearchGrid (⟨0, 0, 1⟩ : searchArea ℝ) ⟨⟨0, 0⟩, 10⟩
            ⟨[⟨⟨5, 5⟩, 1⟩], 1 / 4⟩ true true 1) = true))
      ∧ (1 : ℝ) ≤ 1 / 4) :=
  (search_full_area_no_unrecorded_leaf
    (makeSearchGrid (⟨0, 0, 1⟩ : searchArea ℝ) ⟨⟨0, 0⟩, 10⟩ ⟨[⟨⟨5, 5⟩, 1⟩], 1 / 4⟩ true true 1)
    globalsZero _ (fun _ => rfl) (by norm_num [makeSearchGrid]) 1 hitExample_search
    (Finset.Icc (0 : Int) 999)
    (by
      show ∑ l in Finset.Icc (0 : Int) 999,
        (addEliminated (addCalculations globalsZero 1 40) 1 ((1 : ℝ) * 1)).eliminated l = 1 * 1
      rw [sum_addEliminated]
      simp [addCalculations, globalsZero])).1 0 _ (by simp [nodesAtDepth])

end AreaClaims

theorem head?_range_map {β : Type} (f : Nat → β) (n : Nat) (hn : 0 < n) (Y : List β) :
    ((List.range n).map f ++ Y).head? = some (f 0) := by
  obtain ⟨m, rfl⟩ := Nat.exists_eq_succ_of_ne_zero hn.ne'
  simp [List.range_succ_eq_map]

section Shoelace

variable {α : Type} [LinearOrderedField α]

/-- The cross sum along a run of samples whose consecutive cross terms all equal `c`,
followed by a path that starts where the run ends. -/
theorem crossSum_range_map (f : Nat → point α) (c : α)
    (hc : ∀ i : Nat, (f i).x * (f (i + 1)).y - (f (i + 1)).x * (f i).y = c) (n : Nat)
    (Y : List (point α)) (hY : Y.head? = some (f n)) :
    crossSum ((List.range n).map f ++ Y) = (n : α) * c + crossSum Y := by
  induction n generalizing Y with
  | zero => simp
  | succ n ih =>
    rw [List.range_succ, List.map_append, List.map_singleton, List.append_assoc,
      List.singleton_append, ih (f n :: Y) rfl]
    cases Y with
    | nil => simp at hY
    | cons q rest =>
      simp only [List.head?_cons, Option.some.injEq] at hY
      subst hY
      rw [crossSum, hc n]
      push_cast
      ring

/-- The shoelace area of a non-empty polygon closes the path at its first vertex. -/
theorem shoelaceArea_eq (v : List (point α)) (p : point α) (h : v.head? = some p) :
    shoelaceArea v = crossSum (v ++ [p]) / 2 := by
  cases v with
  | nil => simp at h
  | cons q rest =>
    simp only [List.head?_cons, Option.some.injEq] at h
    subst h
    rfl

end Shoelace

section ShoelaceBoundary

variable {α : Type} [LinearOrderedField α] [FloorRing α]

/-- The boundary samples of `mapsToSource` run clockwise: their signed area is
`-(size * size)`. -/
theorem shoelaceArea_boundaryPoints (grid : searchGrid α) :
    shoelaceArea (boundaryPoints grid)
      = -(grid.searchArea.size * grid.searchArea.size) := by
  have hn := pointsPerSide_pos grid
  have hn0 : (pointsPerSide grid : α) ≠ 0 := by exact_mod_cast hn.ne'
  have hdu : (pointsPerSide grid : α) * (grid.searchArea.size / (pointsPerSide grid : α))
      = grid.searchArea.size := by field_simp
  rw [shoelaceArea_eq _ (makePoint grid.searchArea.x grid.searchArea.y)]
  · simp only [boundaryPoints, List.append_assoc]
    generalize grid.searchArea.size / (pointsPerSide grid : α) = du at hdu ⊢
    rw [crossSum_range_map _ (grid.searchArea.x * du),
      crossSum_range_map _ (-(du * (grid.searchArea.y + grid.searchArea.size))),
      crossSum_range_map _ (-((grid.searchArea.x + grid.searchArea.size) * du)),
      crossSum_range_map _ (du * grid.searchArea.y)]
    · simp only [crossSum]
      linear_combination
        (grid.searchArea.x - (grid.searchArea.y + grid.searchArea.size)
          - (grid.searchArea.x + grid.searchArea.size) + grid.searchArea.y) / 2 * hdu
    · intro i
      simp only [makePoint]
      push_cast
      ring
    · simp only [List.head?_cons, makePoint, Option.some.injEq, point.mk.injEq]
      constructor
      · linear_combination hdu
      · trivial
    · intro i
      simp only [makePoint]
      push_cast
      ring
    · rw [head?_range_map _ _ hn]
      simp only [makePoint, Option.some.injEq, point.mk.injEq]
      constructor
      · simp
      · linear_combination hdu
    · intro i
      simp only [makePoint]
      push_cast
      ring
    · rw [head?_range_map _ _ hn]
      simp only [makePoint, Option.some.injEq, point.mk.injEq]
      constructor
      · linear_combination -hdu
      · simp
    · intro i
      simp only [makePoint]
      push_cast
      ring
    · rw [head?_range_map _ _ hn]
      simp only [makePoint, Option.some.injEq, point.mk.injEq]
      constructor
      · simp
      · linear_combination -hdu
  · simp only [boundaryPoints, List.append_assoc]
    rw [head?_range_map _ _ hn]
    simp [makePoint]

end ShoelaceBoundary

section Samples

variable {α : Type} [LinearOrderedField α] [FloorRing α]

theorem length_boundaryPoints (grid : searchGrid α) :
    (boundaryPoints grid).length = 4 * pointsPerSide grid := by
  simp only [boundaryPoints, List.length_append, List.length_map, List.length_range]
  omega

/-- The vertex `v[i]` of `mapsToSource`, side by side. -/
theorem boundaryPoints_getElem? (grid : searchGrid α) (i : Nat) :
    (boundaryPoints grid)[i]? =
      if i < pointsPerSide grid then
        some (makePoint grid.searchArea.x
          (grid.searchArea.y + (i : α) * (grid.searchArea.size / (pointsPerSide grid : α))))
      else if i < 2 * pointsPerSide grid then
        some (makePoint
          (grid.searchArea.x + ((i - pointsPerSide grid : Nat) : α)
            * (grid.searchArea.size / (pointsPerSide grid : α)))
          (grid.searchArea.y + grid.searchArea.size))
      else if i < 3 * pointsPerSide grid then
        some (makePoint (grid.searchArea.x + grid.searchArea.size)
          (grid.searchArea.y + grid.searchArea.size
            - ((i - 2 * pointsPerSide grid : Nat) : α)
              * (grid.searchArea.size / (pointsPerSide grid : α))))
      else if i < 4 * pointsPerSide grid then
        some (makePoint
          (grid.searchArea.x + grid.searchArea.size
            - ((i - 3 * pointsPerSide grid : Nat) : α)
              * (grid.searchArea.size / (pointsPerSide grid : α)))
          grid.searchArea.y)
      else none := by
  simp only [boundaryPoints, List.append_assoc]
  generalize pointsPerSide grid = n
  rw [List.getElem?_append]
  simp only [List.length_map, List.length_range]
  split
  · rename_i h
    simp [List.getElem?_range h]
  · rename_i h1
    rw [List.getElem?_append]
    simp only [List.length_map, List.length_range]
    split
    · rename_i h
      rw [if_pos (by omega)]
      simp [List.getElem?_range h]
    · rename_i h2
      rw [if_neg (by omega), List.getElem?_append]
      simp only [List.length_map, List.length_range]
      split
      · rename_i h
        rw [if_pos (by omega)]
        simp only [List.getElem?_map, List.getElem?_range h, Option.map_some']
        rw [show i - n - n = i - 2 * n by omega]
      · rename_i h3
        rw [if_neg (by omega)]
        split
        · rename_i h
          have h' : i - n - n - n < n := by omega
          simp only [List.getElem?_map, List.getElem?_range h', Option.map_some']
          rw [show i - n - n - n = i - 3 * n by omega]
        · rename_i h
          rw [List.getElem?_eq_none]
          simp only [List.length_map, List.length_range]
          omega

theorem pointsPerSide_eq (grid : searchGrid α) (hsize : 0 < grid.searchArea.size)
    (hres : 0 < grid.event.resolution) :
    (pointsPerSide grid : Int)
      = max 10 (Int.floor (grid.searchArea.size / grid.event.resolution)) := by
  have hq : 0 ≤ grid.searchArea.size / grid.event.resolution := (div_pos hsize hres).le
  simp only [pointsPerSide, truncToInt, if_pos hq]
  split
  · rename_i h
    rw [Int.toNat_of_nonneg (by omega), max_eq_right (by omega)]
  · rename_i h
    rw [max_eq_left (by omega)]
    rfl

/-- Which side a vertex of `mapsToSource` lies on, by its index. -/
theorem boundaryPoints_index_cases (grid : searchGrid α) (j : Nat) (p : point α)
    (h : (boundaryPoints grid)[j]? = some p) :
    (j < pointsPerSide grid ∧ p.x = grid.searchArea.x ∧
      p.y = grid.searchArea.y
        + (j : α) * (grid.searchArea.size / (pointsPerSide grid : α))) ∨
    (∃ k : Nat, k < pointsPerSide grid ∧ j = pointsPerSide grid + k ∧
      p.x = grid.searchArea.x + (k : α) * (grid.searchArea.size / (pointsPerSide grid : α)) ∧
      p.y = grid.searchArea.y + grid.searchArea.size) ∨
    (∃ k : Nat, k < pointsPerSide grid ∧ j = 2 * pointsPerSide grid + k ∧
      p.x = grid.searchArea.x + grid.searchArea.size ∧
      p.y = grid.searchArea.y + grid.searchArea.size
        - (k : α) * (grid.searchArea.size / (pointsPerSide grid : α))) ∨
    (∃ k : Nat, k < pointsPerSide grid ∧ j = 3 * pointsPerSide grid + k ∧
      p.x = grid.searchArea.x + grid.searchArea.size
        - (k : α) * (grid.searchArea.size / (pointsPerSide grid : α)) ∧
      p.y = grid.searchArea.y) := by
  rw [boundaryPoints_getElem?] at h
  split at h
  · rename_i h1
    simp only [Option.some.injEq] at h
    subst h
    exact Or.inl ⟨h1, rfl, rfl⟩
  · split at h
    · simp only [Option.some.injEq] at h
      subst h
      exact Or.inr (Or.inl ⟨j - pointsPerSide grid, by omega, by omega, rfl, rfl⟩)
    · split at h
      · simp only [Option.some.injEq] at h
        subst h
        exact Or.inr (Or.inr (Or.inl ⟨j - 2 * pointsPerSide grid, by omega, by omega, rfl, rfl⟩))
      · split at h
        · simp only [Option.some.injEq] at h
          subst h
          exact Or.inr (Or.inr (Or.inr ⟨j - 3 * pointsPerSide grid, by omega, by omega, rfl,
            rfl⟩))
        · simp at h

/-- The offsets `k * du` of the samples of one side, `k < pointsPerSide`, are
distinct, start at zero and stay below the side. -/
theorem sample_offset (grid : searchGrid α) (hsize : 0 < grid.searchArea.size) (k : Nat)
    (hk : k < pointsPerSide grid) :
    (k : α) * (grid.searchArea.size / (pointsPerSide grid : α)) < grid.searchArea.size ∧
      ((k : α) * (grid.searchArea.size / (pointsPerSide grid : α)) = 0 → k = 0) := by
  have hn : (0 : α) < (pointsPerSide grid : α) := by exact_mod_cast pointsPerSide_pos grid
  have hd : 0 < grid.searchArea.size / (pointsPerSide grid : α) := div_pos hsize hn
  have hkn : (k : α) < (pointsPerSide grid : α) := by exact_mod_cast hk
  constructor
  · calc (k : α) * (grid.searchArea.size / (pointsPerSide grid : α))
        < (pointsPerSide grid : α) * (grid.searchArea.size / (pointsPerSide grid : α)) :=
          mul_lt_mul_of_pos_right hkn hd
      _ = grid.searchArea.size := by field_simp
  · intro h0
    rcases mul_eq_zero.1 h0 with h | h
    · exact_mod_cast h
    · exact absurd h hd.ne'

/-- Each corner of the region is a vertex of `mapsToSource` exactly once. -/
theorem boundaryPoints_corner_unique (grid : searchGrid α)
    (hsize : 0 < grid.searchArea.size) (c : corner) :
    ∃! i : Nat, (boundaryPoints grid)[i]? = some (areaCorner grid.searchArea c) := by
  have hn := pointsPerSide_pos grid
  have hoff := sample_offset grid hsize
  cases c
  · refine ⟨0, ?_, ?_⟩
    · simp only []
      rw [boundaryPoints_getElem?, if_pos hn]
      simp [areaCorner]
    · intro j hj
      rcases boundaryPoints_index_cases grid j _ hj with ⟨h1, _, hy⟩ | ⟨k, hk, _, _, hy⟩ |
        ⟨k, hk, _, hx, _⟩ | ⟨k, hk, _, hx, _⟩ <;> simp only [areaCorner, makePoint] at *
      · exact (hoff j h1).2 (by linarith)
      · linarith
      · linarith
      · linarith [(hoff k hk).1]
  · refine ⟨pointsPerSide grid, ?_, ?_⟩
    · simp only []
      rw [boundaryPoints_getElem?, if_neg (lt_irrefl _), if_pos (by omega)]
      simp [areaCorner]
    · intro j hj
      rcases boundaryPoints_index_cases grid j _ hj with ⟨h1, _, hy⟩ | ⟨k, hk, hjk, hx, _⟩ |
        ⟨k, hk, _, hx, _⟩ | ⟨k, hk, _, _, hy⟩ <;> simp only [areaCorner, makePoint] at *
      · linarith [(hoff j h1).1]
      · have := (hoff k hk).2 (by linarith)
        omega
      · linarith
      · linarith
  · refine ⟨2 * pointsPerSide grid, ?_, ?_⟩
    · simp only []
      rw [boundaryPoints_getElem?, if_neg (by omega), if_neg (by omega), if_pos (by omega)]
      simp [areaCorner]
    · intro j hj
      rcases boundaryPoints_index_cases grid j _ hj with ⟨h1, hx, _⟩ | ⟨k, hk, _, hx, _⟩ |
        ⟨k, hk, hjk, _, hy⟩ | ⟨k, hk, _, _, hy⟩ <;> simp only [areaCorner, makePoint] at *
      · linarith
      · linarith [(hoff k hk).1]
      · have := (hoff k hk).2 (by linarith)
        omega
      · linarith
  · refine ⟨3 * pointsPerSide grid, ?_, ?_⟩
    · simp only []
      rw [boundaryPoints_getElem?, if_neg (by omega), if_neg (by omega), if_neg (by omega),
        if_pos (by omega)]
      simp [areaCorner]
    · intro j hj
      rcases boundaryPoints_index_cases grid j _ hj with ⟨h1, hx, _⟩ | ⟨k, hk, _, _, hy⟩ |
        ⟨k, hk, _, _, hy⟩ | ⟨k, hk, hjk, hx, _⟩ <;> simp only [areaCorner, makePoint] at *
      · linarith
      · linarith
      · linarith [(hoff k hk).1]
      · have := (hoff k hk).2 (by linarith)
        omega

end Samples

section SampleClaims

/-- C19: for a node of positive side and positive resolution, `mapsToSource` is
`testPolygonAgainstSource` applied to the polygon obtained by mapping, one by one,
the `4*n` boundary samples, `n = max(10, floor(size/resolution))`: `n` points with
spacing `size/n` on the left side bottom to top, then the top side left to right,
the right side top to bottom and the bottom side right to left.  Every sample lies
on the boundary of the region, each corner is a sample exactly once, and a sample
`p` that is no lens origin is mapped to `p` minus the sum over the lenses of
`mass * (p - origin) / |p - origin|^2`. -/
theorem mapsToSource_spec (sqrt : ℝ → ℝ) (grid : searchGrid ℝ)
    (hsize : 0 < grid.searchArea.size) (hres : 0 < grid.event.resolution) :
    mapsToSource sqrt grid = testPolygonAgainstSource sqrt
      ((boundaryPoints grid).map (mapToSourcePlane grid.event.lenses)) grid.source ∧
    (pointsPerSide grid : Int)
      = max 10 (Int.floor (grid.searchArea.size / grid.event.resolution)) ∧
    (boundaryPoints grid).length = 4 * pointsPerSide grid ∧
    (∀ i : Nat, i < pointsPerSide grid →
      (boundaryPoints grid)[i]? = some
        { x := grid.searchArea.x,
          y := grid.searchArea.y + (i : ℝ) * (grid.searchArea.size / (pointsPerSide grid : ℝ)) } ∧
      (boundaryPoints grid)[pointsPerSide grid + i]? = some
        { x := grid.searchArea.x
            + (i : ℝ) * (grid.searchArea.size / (pointsPerSide grid : ℝ)),
          y := grid.searchArea.y + grid.searchArea.size } ∧
      (boundaryPoints grid)[2 * pointsPerSide grid + i]? = some
        { x := grid.searchArea.x + grid.searchArea.size,
          y := grid.searchArea.y + grid.searchArea.size
            - (i : ℝ) * (grid.searchArea.size / (pointsPerSide grid : ℝ)) } ∧
      (boundaryPoints grid)[3 * pointsPerSide grid + i]? = some
        { x := grid.searchArea.x + grid.searchArea.size
            - (i : ℝ) * (grid.searchArea.size / (pointsPerSide grid : ℝ)),
          y := grid.searchArea.y }) ∧
    (∀ p ∈ boundaryPoints grid, pointInArea p grid.searchArea = true ∧
      (p.x = grid.searchArea.x ∨ p.x = grid.searchArea.x + grid.searchArea.size
        ∨ p.y = grid.searchArea.y ∨ p.y = grid.searchArea.y + grid.searchArea.size)) ∧
    (∀ c : corner,
      ∃! i : Nat, (boundaryPoints grid)[i]? = some (areaCorner grid.searchArea c)) ∧
    (∀ p : point ℝ,
      (∀ l ∈ grid.event.lenses, (p.x - l.origin.x) ^ 2 + (p.y - l.origin.y) ^ 2 ≠ 0) →
      mapToSourcePlane grid.event.lenses p = some
        { x := p.x - (grid.event.lenses.map (fun l => l.mass * (p.x - l.origin.x)
            / ((p.x - l.origin.x) ^ 2 + (p.y - l.origin.y) ^ 2))).sum,
          y := p.y - (grid.event.lenses.map (fun l => l.mass * (p.y - l.origin.y)
            / ((p.x - l.origin.x) ^ 2 + (p.y - l.origin.y) ^ 2))).sum }) := by
  refine ⟨rfl, pointsPerSide_eq grid hsize hres, length_boundaryPoints grid, ?_, ?_,
    boundaryPoints_corner_unique grid hsize, ?_⟩
  · intro i hi
    refine ⟨?_, ?_, ?_, ?_⟩
    · rw [boundaryPoints_getElem?, if_pos hi]
      rfl
    · rw [boundaryPoints_getElem?, if_neg (by omega), if_pos (by omega),
        Nat.add_sub_cancel_left]
      rfl
    · rw [boundaryPoints_getElem?, if_neg (by omega), if_neg (by omega), if_pos (by omega),
        Nat.add_sub_cancel_left]
      rfl
    · rw [boundaryPoints_getElem?, if_neg (by omega), if_neg (by omega), if_neg (by omega),
        if_pos (by omega), Nat.add_sub_cancel_left]
      rfl
  · intro p hp
    refine ⟨boundaryPoints_in_area grid hsize.le p hp, ?_⟩
    obtain ⟨j, hj⟩ := List.getElem?_of_mem hp
    rcases boundaryPoints_index_cases grid j p hj with ⟨_, hx, _⟩ | ⟨k, _, _, _, hy⟩ |
      ⟨k, _, _, hx, _⟩ | ⟨k, _, _, _, hy⟩
    · exact Or.inl hx
    · exact Or.inr (Or.inr (Or.inr hy))
    · exact Or.inr (Or.inl hx)
    · exact Or.inr (Or.inr (Or.inl hy))
  · intro p hp
    have hd : ∀ l : lens ℝ, lensDsq l p
        = (p.x - l.origin.x) ^ 2 + (p.y - l.origin.y) ^ 2 := by
      intro l
      simp only [lensDsq]
      ring
    rw [mapToSourcePlane_of_ne p _ (by
      intro l hl
      rw [hd]
      exact hp l hl)]
    simp only [hd]

theorem mapsToSource_spec_witness :
    (pointsPerSide (makeSearchGrid (⟨-1, -2, 4⟩ : searchArea ℝ) ⟨⟨0, 0⟩, 1⟩
        ⟨[⟨⟨0, 0⟩, 1⟩], 1⟩ true true 1) : Int)
      = max 10 (Int.floor ((4 : ℝ) / 1)) :=
  (mapsToSource_spec Real.sqrt
    (makeSearchGrid (⟨-1, -2, 4⟩ : searchArea ℝ) ⟨⟨0, 0⟩, 1⟩ ⟨[⟨⟨0, 0⟩, 1⟩], 1⟩ true true 1)
    (by norm_num [makeSearchGrid]) (by norm_num [makeSearchGrid])).2.1

/-- The sign convention of `shoelaceArea`: the unit square listed counter-clockwise
has area `+1`. -/
theorem shoelaceArea_ccw_square :
    shoelaceArea [(⟨0, 0⟩ : point ℝ), ⟨1, 0⟩, ⟨1, 1⟩, ⟨0, 1⟩] = 1 := by
  norm_num [shoelaceArea, crossSum]

/-- C20 (counterexample): for the region `[0,1] x [0,1]` the closed polygon of the
boundary samples of `mapsToSource` has signed area `-1`, which is not positive and
is not `+size^2 = 1`. -/
theorem boundaryPoints_area_not_positive :
    shoelaceArea (boundaryPoints
        (makeSearchGrid (⟨0, 0, 1⟩ : searchArea ℝ) ⟨⟨0, 0⟩, 1⟩ ⟨[⟨⟨5, 5⟩, 1⟩], 1⟩ true true 1))
      = -1 ∧
    ¬ (0 < shoelaceArea (boundaryPoints
        (makeSearchGrid (⟨0, 0, 1⟩ : searchArea ℝ) ⟨⟨0, 0⟩, 1⟩ ⟨[⟨⟨5, 5⟩, 1⟩], 1⟩
          true true 1))) ∧
    shoelaceArea (boundaryPoints
        (makeSearchGrid (⟨0, 0, 1⟩ : searchArea ℝ) ⟨⟨0, 0⟩, 1⟩ ⟨[⟨⟨5, 5⟩, 1⟩], 1⟩ true true 1))
      ≠ (1 : ℝ) ^ 2 := by
  have h := shoelaceArea_boundaryPoints
    (makeSearchGrid (⟨0, 0, 1⟩ : searchArea ℝ) ⟨⟨0, 0⟩, 1⟩ ⟨[⟨⟨5, 5⟩, 1⟩], 1⟩ true true 1)
  simp only [makeSearchGrid, mul_one] at h
  simp only [makeSearchGrid]
  rw [h]
  norm_num

/-- C20 (as amended): for every region of positive side the boundary samples of
`mapsToSource` (before the lens mapping) run clockwise around the region: left side
upwards, top side rightwards, right side downwards, bottom side leftwards.  The
closed polygon of the samples has strictly negative signed (shoelace) area, equal
to `-size^2`. -/
theorem boundaryPoints_clockwise (grid : searchGrid ℝ) (hsize : 0 < grid.searchArea.size) :
    shoelaceArea (boundaryPoints grid) = -grid.searchArea.size ^ 2 ∧
      shoelaceArea (boundaryPoints grid) < 0 := by
  have h := shoelaceArea_boundaryPoints grid
  have hpos : 0 < grid.searchArea.size * grid.searchArea.size := mul_pos hsize hsize
  constructor
  · rw [h]
    ring
  · rw [h]
    linarith

theorem boundaryPoints_clockwise_witness :
    shoelaceArea (boundaryPoints
        (makeSearchGrid (⟨-1, -2, 4⟩ : searchArea ℝ) ⟨⟨0, 0⟩, 1⟩ ⟨[⟨⟨0, 0⟩, 1⟩], 1⟩ true true 1))
      < 0 :=
  (boundaryPoints_clockwise
    (makeSearchGrid (⟨-1, -2, 4⟩ : searchArea ℝ) ⟨⟨0, 0⟩, 1⟩ ⟨[⟨⟨0, 0⟩, 1⟩], 1⟩ true true 1)
    (by norm_num [makeSearchGrid])).2

end SampleClaims

section Flags

variable {α : Type} [LinearOrderedField α]

/-- A point of a child region lies in the parent region, whatever the side. -/
theorem pointInArea_of_child_any (a c : searchArea α) (p : point α)
    (hc : c ∈ cRects a) (hp : pointInArea p c = true) : pointInArea p a = true := by
  simp only [cRects, makeSearchArea, List.mem_cons, List.mem_singleton, List.not_mem_nil,
    or_false] at hc
  rw [pointInArea_iff] at hp ⊢
  have hh : a.size / 2 + a.size / 2 = a.size := add_halves a.size
  rcases hc with rfl | rfl | rfl | rfl <;> simp only at hp <;>
    refine ⟨by linarith, by linarith, by linarith, by linarith⟩

end Flags

section FlagsSearch

variable {α : Type} [LinearOrderedField α] [FloorRing α]

/-- The flags of the grid passed to `divideAndConquer`: `checkLenses` is still set
exactly when the call comes from the lens loop, `checkCriticalCurve` exactly when it
was set and the call comes from the lens loop or the critical-curve check. -/
theorem searchBody_snd_some_flags_iff (sqrt : α → α) (grid grid1 : searchGrid α)
    (st : globals α) (h : (searchBody sqrt grid st).2 = some grid1) :
    (grid1.checkLenses = true ↔ (grid.checkLenses = true ∧ lensInArea grid = true)) ∧
    (grid1.checkCriticalCurve = true ↔
      (grid.checkCriticalCurve = true ∧
        ((grid.checkLenses = true ∧ lensInArea grid = true)
          ∨ straddlesCriticalCurve grid = true))) := by
  by_cases hlens : grid.checkLenses = true ∧ lensInArea grid = true
  · rw [searchBody_lens sqrt grid st hlens] at h
    simp only [] at h
    split at h
    · simp only [Option.some.injEq] at h
      subst h
      exact ⟨by simp [hlens], by simp [hlens]⟩
    · simp at h
  · by_cases hcrit : grid.checkCriticalCurve = true ∧ straddlesCriticalCurve grid = true
    · rw [searchBody_critical sqrt grid st hlens hcrit] at h
      simp only [] at h
      split at h
      · simp only [Option.some.injEq] at h
        subst h
        exact ⟨by simp [hlens], by simp [hcrit]⟩
      · simp at h
    · rw [searchBody_classify sqrt grid st hlens hcrit] at h
      split at h
      · simp at h
      · split at h
        · simp at h
        · simp only [Option.some.injEq] at h
          subst h
          refine ⟨by simp [hlens], ?_⟩
          simp only [Bool.false_eq_true, false_iff]
          rintro ⟨h1, h2 | h2⟩
          · exact hlens h2
          · exact hcrit ⟨h1, h2⟩

/-- A child created by `search` sits one level below its parent, keeps cleared flags
cleared, and contains no lens origin when its parent contains none. -/
theorem subGrids_inherit (sqrt : α → α) (grid c : searchGrid α) (hc : c ∈ subGrids sqrt grid) :
    c.level = grid.level + 1 ∧
    (c.checkLenses = true ↔ (grid.checkLenses = true ∧ lensInArea grid = true)) ∧
    (c.checkCriticalCurve = true → grid.checkCriticalCurve = true) ∧
    (lensInArea grid = false → lensInArea c = false) := by
  obtain ⟨_, harea, hev, _⟩ := mem_subGrids sqrt grid c hc
  unfold subGrids at hc
  cases hb : (searchBody sqrt grid globalsZero).2 with
  | none => rw [hb] at hc; simp at hc
  | some grid1 =>
    rw [hb] at hc
    obtain ⟨_, _, _, k4, k5, k6⟩ := mem_childGrids grid1 c hc
    obtain ⟨_, _, _, _, h5⟩ := searchBody_snd_some sqrt grid grid1 _ hb
    obtain ⟨f1, f2⟩ := searchBody_snd_some_flags_iff sqrt grid grid1 _ hb
    refine ⟨by rw [k6, h5], by rw [k4]; exact f1, ?_, ?_⟩
    · intro h
      rw [k5] at h
      exact (f2.1 h).1
    · intro hno
      unfold lensInArea at hno ⊢
      rw [List.any_eq_false] at hno ⊢
      intro l hl hin
      rw [hev] at hl
      exact hno l hl (pointInArea_of_child_any _ _ _ harea hin)

theorem nodesAtDepth_inherit (sqrt : α → α) (n : Nat) (grid c : searchGrid α)
    (hc : c ∈ nodesAtDepth sqrt n grid) :
    c.level = grid.level + (n : Int) ∧
    (grid.checkLenses = false → c.checkLenses = false) ∧
    (grid.checkCriticalCurve = false → c.checkCriticalCurve = false) ∧
    (lensInArea grid = false → lensInArea c = false) := by
  induction n generalizing grid with
  | zero =>
    simp only [nodesAtDepth, List.mem_singleton] at hc
    subst hc
    simp
  | succ n ih =>
    obtain ⟨d, hd, hcd⟩ := (mem_nodesAtDepth_succ sqrt n grid c).1 hc
    obtain ⟨h1, h2, h3, h4⟩ := subGrids_inherit sqrt grid d hd
    obtain ⟨k1, k2, k3, k4⟩ := ih d hcd
    refine ⟨by rw [k1, h1]; push_cast; ring, ?_, ?_, fun h => k4 (h4 h)⟩
    · intro h
      apply k2
      cases hd1 : d.checkLenses with
      | false => rfl
      | true =>
        have := (h2.1 hd1).1
        rw [h] at this
        exact absurd this (by decide)
    · intro h
      apply k3
      cases hd1 : d.checkCriticalCurve with
      | false => rfl
      | true =>
        have := h3 hd1
        rw [h] at this
        exact absurd this (by decide)

end FlagsSearch

section FlagClaims

/-- C21: every child created by `divideAndConquer` has the level of its parent plus
one and the flags of the grid passed at the moment of division (`checkLenses` still
set only when the division comes from the lens loop, `checkCriticalCurve` still set
only when it was set and the division comes from the lens loop or the critical-curve
check).  Hence along every path of the recursion tree a flag that is FALSE in a node
is FALSE in all its descendants, a node `n` levels down has level `level + n`, and
every descendant of a node whose `checkLenses` was cleared (it was set and no lens
origin lies in the region) has `checkLenses` FALSE and contains no lens origin. -/
theorem divideAndConquer_inherits_flags (root : searchGrid ℝ) :
    (∀ (grid1 : searchGrid ℝ) (st : globals ℝ),
      (searchBody Real.sqrt root st).2 = some grid1 →
        (grid1.checkLenses = true ↔ (root.checkLenses = true ∧ lensInArea root = true)) ∧
        (grid1.checkCriticalCurve = true ↔
          (root.checkCriticalCurve = true ∧
            ((root.checkLenses = true ∧ lensInArea root = true)
              ∨ straddlesCriticalCurve root = true))) ∧
        ∀ c ∈ childGrids grid1, c.level = root.level + 1 ∧
          c.checkLenses = grid1.checkLenses ∧
          c.checkCriticalCurve = grid1.checkCriticalCurve) ∧
    (∀ (n : Nat) (c : searchGrid ℝ), c ∈ nodesAtDepth Real.sqrt n root →
      c.level = root.level + (n : Int) ∧
      (root.checkLenses = false → c.checkLenses = false) ∧
      (root.checkCriticalCurve = false → c.checkCriticalCurve = false) ∧
      (lensInArea root = false → lensInArea c = false)) ∧
    (root.checkLenses = true → lensInArea root = false →
      ∀ (n : Nat) (c : searchGrid ℝ), c ∈ nodesAtDepth Real.sqrt (n + 1) root →
        c.checkLenses = false ∧ lensInArea c = false) := by
  refine ⟨?_, fun n c hc => nodesAtDepth_inherit Real.sqrt n root c hc, ?_⟩
  · intro grid1 st hb
    obtain ⟨f1, f2⟩ := searchBody_snd_some_flags_iff Real.sqrt root grid1 st hb
    obtain ⟨_, _, _, _, h5⟩ := searchBody_snd_some Real.sqrt root grid1 st hb
    refine ⟨f1, f2, ?_⟩
    intro c hc
    obtain ⟨_, _, _, k4, k5, k6⟩ := mem_childGrids grid1 c hc
    exact ⟨by rw [k6, h5], k4, k5⟩
  · intro _ hno n c hc
    obtain ⟨d, hd, hcd⟩ := (mem_nodesAtDepth_succ Real.sqrt n root c).1 hc
    obtain ⟨_, h2, _, h4⟩ := subGrids_inherit Real.sqrt root d hd
    have hdf : d.checkLenses = false := by
      cases hd1 : d.checkLenses with
      | false => rfl
      | true =>
        have := (h2.1 hd1).2
        rw [hno] at this
        exact absurd this (by decide)
    obtain ⟨_, k2, _, k4⟩ := nodesAtDepth_inherit Real.sqrt n d c hcd
    exact ⟨k2 hdf, k4 (h4 hno)⟩

theorem divideAndConquer_inherits_flags_witness :
    (makeSearchGrid (⟨-1, -2, 2⟩ : searchArea ℝ) ⟨⟨0, 0⟩, 1⟩ ⟨[⟨⟨0, 0⟩, 1⟩], 1⟩
      true true 2).level
      = (makeSearchGrid (⟨-1, -2, 4⟩ : searchArea ℝ) ⟨⟨0, 0⟩, 1⟩ ⟨[⟨⟨0, 0⟩, 1⟩], 1⟩
        true true 1).level + ((1 : Nat) : Int) :=
  ((divideAndConquer_inherits_flags
    (makeSearchGrid (⟨-1, -2, 4⟩ : searchArea ℝ) ⟨⟨0, 0⟩, 1⟩ ⟨[⟨⟨0, 0⟩, 1⟩], 1⟩
      true true 1)).2.1 1
    (makeSearchGrid (⟨-1, -2, 2⟩ : searchArea ℝ) ⟨⟨0, 0⟩, 1⟩ ⟨[⟨⟨0, 0⟩, 1⟩], 1⟩
      true true 2)
    (by
      have hl : lensInArea (makeSearchGrid (⟨-1, -2, 4⟩ : searchArea ℝ) ⟨⟨0, 0⟩, 1⟩
          ⟨[⟨⟨0, 0⟩, 1⟩], 1⟩ true true 1) = true := by
        norm_num [makeSearchGrid, lensInArea, pointInArea]
      rw [nodesAtDepth, subGrids, searchBody_lens Real.sqrt _ _ ⟨rfl, hl⟩]
      norm_num [makeSearchGrid, childGrids, cRects, makeSearchArea, nodesAtDepth])).1

end FlagClaims
theorem callsClassifier_iff {α : Type} [LinearOrderedField α] (grid : searchGrid α) :
    callsClassifier grid = true ↔
      (¬ (grid.checkLenses = true ∧ lensInArea grid = true)
        ∧ ¬ (grid.checkCriticalCurve = true ∧ straddlesCriticalCurve grid = true)) := by
  unfold callsClassifier
  cases grid.checkLenses <;> cases lensInArea grid <;> cases grid.checkCriticalCurve <;>
    cases straddlesCriticalCurve grid <;> simp

theorem length_filter_flatMap {β γ : Type} (f : β → List γ) (p : γ → Bool) (l : List β) :
    ((l.flatMap f).filter p).length = (l.map (fun c => ((f c).filter p).length)).sum := by
  induction l with
  | nil => rfl
  | cons c rest ih =>
    rw [List.flatMap_cons, List.filter_append, List.length_append, ih, List.map_cons,
      List.sum_cons]

/-- A fold of steps each of which adds its own amount to a measure adds the sum of
the amounts. -/
theorem foldlM_add {β σ : Type} (μ : σ → Int) (δ : β → Int) (f : β → σ → Option σ)
    (l : List β) (hstep : ∀ c ∈ l, ∀ s s1 : σ, f c s = some s1 → μ s1 = μ s + δ c)
    (st st1 : σ) (h : l.foldlM (fun s c => f c s) st = some st1) :
    μ st1 = μ st + (l.map δ).sum := by
  induction l generalizing st with
  | nil =>
    simp only [List.foldlM_nil, Option.pure_def, Option.some.injEq] at h
    subst h
    simp
  | cons c rest ih =>
    rw [List.foldlM_cons] at h
    cases hc : f c st with
    | none => rw [hc] at h; simp at h
    | some s1 =>
      rw [hc] at h
      simp only [Option.bind_eq_bind, Option.some_bind] at h
      rw [ih (fun d hd => hstep d (List.mem_cons_of_mem c hd)) s1 h,
        hstep c (List.mem_cons_self c rest) st s1 hc, List.map_cons, List.sum_cons]
      ring

section Calls

variable {α : Type} [LinearOrderedField α] [FloorRing α]

/-- What the body of `search` does to `calculations[]`: `calculations[level] += 40`
when the node calls the classifier, nothing otherwise. -/
theorem searchBody_calculations (sqrt : α → α) (grid : searchGrid α) (st : globals α) :
    (searchBody sqrt grid st).1.calculations =
      if callsClassifier grid = true then
        (fun l => if l = grid.level then st.calculations l + 40 else st.calculations l)
      else st.calculations := by
  by_cases hlens : grid.checkLenses = true ∧ lensInArea grid = true
  · have hn : ¬ callsClassifier grid = true := by
      rw [callsClassifier_iff]
      exact fun h => h.1 hlens
    rw [searchBody_lens sqrt grid st hlens, if_neg hn]
  · by_cases hcrit : grid.checkCriticalCurve = true ∧ straddlesCriticalCurve grid = true
    · have hn : ¬ callsClassifier grid = true := by
        rw [callsClassifier_iff]
        exact fun h => h.2 hcrit
      rw [searchBody_critical sqrt grid st hlens hcrit, if_neg hn]
    · rw [searchBody_classify sqrt grid st hlens hcrit,
        if_pos ((callsClassifier_iff grid).2 ⟨hlens, hcrit⟩)]
      split
      · rfl
      · split <;> rfl

/-- The calls at level `l` are the call of the node itself, when `l` is its level,
plus the calls of its children. -/
theorem classifierCalls_eq (sqrt : α → α) (grid : searchGrid α) (l : Int) :
    classifierCalls sqrt grid l =
      (if l = grid.level ∧ callsClassifier grid = true then 1 else 0)
        + ((subGrids sqrt grid).map (fun c => classifierCalls sqrt c l)).sum := by
  have hchild : ∀ c ∈ subGrids sqrt grid, c.level = grid.level + 1 :=
    fun c hc => (subGrids_inherit sqrt grid c hc).1
  rcases lt_trichotomy l grid.level with hlt | heq | hgt
  · have h0 : ((subGrids sqrt grid).map (fun c => classifierCalls sqrt c l)).sum = 0 := by
      apply List.sum_eq_zero
      intro x hx
      obtain ⟨c, hc, rfl⟩ := List.mem_map.1 hx
      rw [classifierCalls, if_neg]
      rw [hchild c hc]
      omega
    rw [h0, classifierCalls, if_neg (by omega), if_neg (by omega)]
  · have h0 : ((subGrids sqrt grid).map (fun c => classifierCalls sqrt c l)).sum = 0 := by
      apply List.sum_eq_zero
      intro x hx
      obtain ⟨c, hc, rfl⟩ := List.mem_map.1 hx
      rw [classifierCalls, if_neg]
      rw [hchild c hc]
      omega
    rw [h0, classifierCalls, if_pos (by omega)]
    subst heq
    simp only [sub_self, Int.toNat_zero, nodesAtDepth, true_and, add_zero]
    by_cases hc : callsClassifier grid = true
    · simp [hc]
    · simp [hc]
  · rw [classifierCalls, if_pos (by omega), if_neg (by omega), zero_add]
    obtain ⟨m, hm⟩ : ∃ m : Nat, (l - grid.level).toNat = m + 1 :=
      Nat.exists_eq_succ_of_ne_zero (by omega)
    rw [hm, nodesAtDepth, length_filter_flatMap]
    congr 1
    apply List.map_congr_left
    intro c hc
    rw [classifierCalls, if_pos (by rw [hchild c hc]; omega)]
    congr 3
    rw [hchild c hc]
    omega

/-- After `search`, `calculations[l]` has grown by 40 times the number of classifier
calls made at level `l`. -/
theorem search_calculations (sqrt : α → α) (fuel : Nat) (grid : searchGrid α)
    (st st1 : globals α) (h : search sqrt fuel grid st = some st1) (l : Int) :
    st1.calculations l = st.calculations l + 40 * (classifierCalls sqrt grid l : Int) := by
  induction fuel generalizing grid st st1 with
  | zero => simp [search] at h
  | succ fuel ih =>
    rw [search_succ] at h
    have hcalc := searchBody_calculations sqrt grid st
    rw [classifierCalls_eq]
    cases hb : (searchBody sqrt grid st).2 with
    | none =>
      rw [hb] at h
      simp only [Option.some.injEq] at h
      subst h
      have hsub : subGrids sqrt grid = [] := by
        rw [subGrids, searchBody_snd_globals sqrt grid globalsZero st, hb]
      rw [hsub, hcalc]
      by_cases hc : callsClassifier grid = true
      · by_cases hl : l = grid.level
        · simp [hc, hl]
        · simp [hc, hl]
      · simp [hc]
    | some grid1 =>
      rw [hb] at h
      simp only [] at h
      have hsub : subGrids sqrt grid = childGrids grid1 := by
        rw [subGrids, searchBody_snd_globals sqrt grid globalsZero st, hb]
      have hfold := foldlM_add (fun s : globals α => s.calculations l)
        (fun c => 40 * (classifierCalls sqrt c l : Int)) (search sqrt fuel) (childGrids grid1)
        (fun c _ s s1 hs => ih c s s1 hs) _ st1 h
      simp only [] at hfold
      rw [hfold, hsub, hcalc]
      have hsum : ((childGrids grid1).map (fun c => 40 * (classifierCalls sqrt c l : Int))).sum
          = 40 * (((childGrids grid1).map (fun c => classifierCalls sqrt c l)).sum : Nat) := by
        induction childGrids grid1 with
        | nil => simp
        | cons c rest ihl =>
          simp only [List.map_cons, List.sum_cons, ihl]
          push_cast
          ring
      rw [hsum]
      by_cases hc : callsClassifier grid = true
      · by_cases hl : l = grid.level
        · simp only [hc, hl, if_true, and_self]
          push_cast
          ring
        · simp only [hc, hl, if_true, if_false, false_and]
          push_cast
          ring
      · simp only [hc, Bool.false_eq_true, if_false, and_false]
        push_cast
        ring

end Calls

section CallClaims

/-- C22: a node that calls the classifier (in particular every node that terminates
with a classification) adds exactly 40 to `calculations[]` at its own level and
changes no other entry; a node that returns from the lens loop or from the
critical-curve check changes no entry.  After a call of `search` started with every
`calculations[]` entry at zero (region of positive side, positive resolution, any
recursion bound above `max(0, ceil(log2(size/resolution)))`), `calculations[l]` is
40 times the number of `mapsToSource` calls made by the nodes at level `l`. -/
theorem search_calculations_count (root : searchGrid ℝ) (st : globals ℝ)
    (hzero : ∀ l : Int, st.calculations l = 0) (hsize : 0 < root.searchArea.size)
    (hres : 0 < root.event.resolution) (fuel : Nat)
    (hfuel : (max 0 (Int.ceil (Real.logb 2
      (root.searchArea.size / root.event.resolution)))).toNat < fuel) :
    (∃ st1 : globals ℝ, search Real.sqrt fuel root st = some st1 ∧
      ∀ l : Int, st1.calculations l = 40 * (classifierCalls Real.sqrt root l : Int)) ∧
    (∀ (g : searchGrid ℝ) (s : globals ℝ), callsClassifier g = true →
      (searchBody Real.sqrt g s).1.calculations
        = fun l => if l = g.level then s.calculations l + 40 else s.calculations l) ∧
    (∀ (g : searchGrid ℝ) (s : globals ℝ),
      ((g.checkLenses = true ∧ lensInArea g = true)
        ∨ (g.checkCriticalCurve = true ∧ straddlesCriticalCurve g = true)) →
      (searchBody Real.sqrt g s).1.calculations = s.calculations) := by
  refine ⟨?_, ?_, ?_⟩
  · obtain ⟨m, rfl⟩ := Nat.exists_eq_succ_of_ne_zero (Nat.not_eq_zero_of_lt hfuel)
    have hsome := search_isSome Real.sqrt m root st
      (size_le_of_depth_bound _ _ hsize hres m (Nat.lt_succ_iff.1 hfuel))
    obtain ⟨st1, hst1⟩ := Option.isSome_iff_exists.1 hsome
    refine ⟨st1, hst1, ?_⟩
    intro l
    rw [search_calculations Real.sqrt (m + 1) root st st1 hst1 l, hzero, zero_add]
  · intro g s hc
    rw [searchBody_calculations, if_pos hc]
  · intro g s hcheck
    have hn : ¬ callsClassifier g = true := by
      rw [callsClassifier_iff]
      rintro ⟨h1, h2⟩
      rcases hcheck with h | h
      · exact h1 h
      · exact h2 h
    rw [searchBody_calculations, if_neg hn]

theorem search_calculations_count_witness :
    ∃ st1 : globals ℝ,
      search Real.sqrt 3
        (makeSearchGrid (⟨-1, -2, 4⟩ : searchArea ℝ) ⟨⟨0, 0⟩, 1⟩ ⟨[⟨⟨0, 0⟩, 1⟩], 1⟩
          true true 1) globalsZero = some st1 ∧
      st1.calculations 2 = 40 * (classifierCalls Real.sqrt
        (makeSearchGrid (⟨-1, -2, 4⟩ : searchArea ℝ) ⟨⟨0, 0⟩, 1⟩ ⟨[⟨⟨0, 0⟩, 1⟩], 1⟩
          true true 1) 2 : Int) := by
  obtain ⟨st1, h1, h2⟩ := (search_calculations_count
    (makeSearchGrid (⟨-1, -2, 4⟩ : searchArea ℝ) ⟨⟨0, 0⟩, 1⟩ ⟨[⟨⟨0, 0⟩, 1⟩], 1⟩ true true 1)
    globalsZero (fun _ => rfl) (by norm_num [makeSearchGrid]) (by norm_num [makeSearchGrid]) 3
    (by
      have h : Real.logb 2 ((4 : ℝ) / 1) = ((2 : Nat) : ℝ) := by
        rw [show (4 : ℝ) / 1 = (2 : ℝ) ^ (2 : Nat) by norm_num, Real.logb_pow,
          Real.logb_self_eq_one (by norm_num)]
        norm_num
      show (max 0 (Int.ceil (Real.logb 2 ((4 : ℝ) / 1)))).toNat < 3
      rw [h]
      simp)).1
  exact ⟨st1, h1, h2 2⟩

end CallClaims
section Rectangle

/-- A vertical edge passes no ray test: with `du = 0` the parameter is not finite. -/
theorem rayHitsEdge_vertical {α : Type} [LinearOrderedField α] (src : source α)
    (x ya yb : α) : rayHitsEdge src ⟨x, ya⟩ ⟨x, yb⟩ = false := by
  simp [rayHitsEdge, fdiv]

/-- The ray test of a horizontal edge at height `y` whose end points lie strictly on
either side of the source origin: it passes exactly when `y >= origin.y`. -/
theorem rayHitsEdge_horizontal (src : source ℝ) (xa xb y : ℝ)
    (h : (xa < src.origin.x ∧ src.origin.x < xb) ∨ (xb < src.origin.x ∧ src.origin.x < xa)) :
    rayHitsEdge src ⟨xa, y⟩ ⟨xb, y⟩ = decide (y ≥ src.origin.y) := by
  have hne : xb - xa ≠ 0 := by
    rcases h with h | h
    · exact (sub_pos.2 (h.1.trans h.2)).ne'
    · exact (sub_neg.2 (h.1.trans h.2)).ne
  have hp0 : 0 < -(xa - src.origin.x) / (xb - xa) := by
    rcases h with h | h
    · exact div_pos (by linarith) (by linarith)
    · exact div_pos_of_neg_of_neg (by linarith) (by linarith)
  have hp1 : -(xa - src.origin.x) / (xb - xa) ≤ 1 := by
    rcases h with h | h
    · rw [div_le_one (by linarith)]
      linarith
    · rw [div_le_one_of_neg (by linarith)]
      linarith
  simp only [rayHitsEdge, fdiv, if_neg hne, sub_self, mul_zero, add_zero, hp0, hp1,
    decide_True, Bool.true_and]

/-- An edge of non-zero length on a vertical line that stays farther than the radius
from the source origin does not pass the circle test. -/
theorem edgeCrossesSource_vertical_far (src : source ℝ) (x ya yb : ℝ) (hne : ya ≠ yb)
    (hfar : src.radius ^ 2 < (x - src.origin.x) ^ 2) :
    edgeCrossesSource Real.sqrt src ⟨x, ya⟩ ⟨x, yb⟩ = false := by
  cases hc : edgeCrossesSource Real.sqrt src ⟨x, ya⟩ ⟨x, yb⟩ with
  | false => rfl
  | true =>
    have hout : src.radius ^ 2 < (x - src.origin.x) ^ 2 + (yb - src.origin.y) ^ 2 := by
      have := sq_nonneg (yb - src.origin.y)
      linarith
    obtain ⟨t, _, _, hle⟩ := (edgeCrossesSource_real_iff src ⟨x, ya⟩ ⟨x, yb⟩
      (by simp [hne]) hout).1 hc
    simp only [interpolatePosition, sub_self, zero_mul, add_zero] at hle
    have := sq_nonneg (ya + (yb - ya) * t - src.origin.y)
    linarith

/-- An edge of non-zero length on a horizontal line that stays farther than the
radius from the source origin does not pass the circle test. -/
theorem edgeCrossesSource_horizontal_far (src : source ℝ) (xa xb y : ℝ) (hne : xa ≠ xb)
    (hfar : src.radius ^ 2 < (y - src.origin.y) ^ 2) :
    edgeCrossesSource Real.sqrt src ⟨xa, y⟩ ⟨xb, y⟩ = false := by
  cases hc : edgeCrossesSource Real.sqrt src ⟨xa, y⟩ ⟨xb, y⟩ with
  | false => rfl
  | true =>
    have hout : src.radius ^ 2 < (xb - src.origin.x) ^ 2 + (y - src.origin.y) ^ 2 := by
      have := sq_nonneg (xb - src.origin.x)
      linarith
    obtain ⟨t, _, _, hle⟩ := (edgeCrossesSource_real_iff src ⟨xa, y⟩ ⟨xb, y⟩
      (by simp [hne]) hout).1 hc
    simp only [interpolatePosition, sub_self, zero_mul, add_zero] at hle
    have := sq_nonneg (xa + (xb - xa) * t - src.origin.x)
    linarith

/-- C23: for the axis-aligned rectangle given as the polygon `(x0,y0)`, `(x0,y1)`,
`(x1,y1)`, `(x1,y0)` with `x0 < x1` and `y0 < y1`, and a source of radius `r >= 0`
whose disk lies strictly inside it, `testPolygonAgainstSource` returns
`ENCLOSES_SOURCE`: the two vertical edges and the bottom edge pass no ray test, the
top edge passes it, so exactly one edge is counted. -/
theorem testPolygonAgainstSource_rectangle (x0 y0 x1 y1 : ℝ) (src : source ℝ)
    (hx : x0 < x1) (hy : y0 < y1) (hr : 0 ≤ src.radius)
    (h1 : x0 + src.radius < src.origin.x) (h2 : src.origin.x < x1 - src.radius)
    (h3 : y0 + src.radius < src.origin.y) (h4 : src.origin.y < y1 - src.radius) :
    testPolygonAgainstSource Real.sqrt
        ([(⟨x0, y0⟩ : point ℝ), ⟨x0, y1⟩, ⟨x1, y1⟩, ⟨x1, y0⟩].map some) src
      = intersectionType.ENCLOSES_SOURCE ∧
    rayHitsEdge src ⟨x0, y0⟩ ⟨x0, y1⟩ = false ∧
    rayHitsEdge src ⟨x0, y1⟩ ⟨x1, y1⟩ = true ∧
    rayHitsEdge src ⟨x1, y1⟩ ⟨x1, y0⟩ = false ∧
    rayHitsEdge src ⟨x1, y0⟩ ⟨x0, y0⟩ = false ∧
    rayCrossings src ([(⟨x0, y0⟩ : point ℝ), ⟨x0, y1⟩, ⟨x1, y1⟩, ⟨x1, y0⟩].map some) = 1 := by
  have e0 := rayHitsEdge_vertical src x0 y0 y1
  have e1 : rayHitsEdge src ⟨x0, y1⟩ ⟨x1, y1⟩ = true := by
    rw [rayHitsEdge_horizontal src x0 x1 y1 (Or.inl ⟨by linarith, by linarith⟩)]
    simp only [ge_iff_le, decide_eq_true_eq]
    linarith
  have e2 := rayHitsEdge_vertical src x1 y1 y0
  have e3 : rayHitsEdge src ⟨x1, y0⟩ ⟨x0, y0⟩ = false := by
    rw [rayHitsEdge_horizontal src x1 x0 y0 (Or.inr ⟨by linarith, by linarith⟩)]
    simp only [ge_iff_le, decide_eq_false_iff_not, not_le]
    linarith
  have fx0 : src.radius ^ 2 < (x0 - src.origin.x) ^ 2 := by nlinarith
  have fx1 : src.radius ^ 2 < (x1 - src.origin.x) ^ 2 := by nlinarith
  have fy0 : src.radius ^ 2 < (y0 - src.origin.y) ^ 2 := by nlinarith
  have fy1 : src.radius ^ 2 < (y1 - src.origin.y) ^ 2 := by nlinarith
  have c0 := edgeCrossesSource_vertical_far src x0 y0 y1 hy.ne fx0
  have c1 := edgeCrossesSource_horizontal_far src x0 x1 y1 hx.ne fy1
  have c2 := edgeCrossesSource_vertical_far src x1 y1 y0 hy.ne' fx1
  have c3 := edgeCrossesSource_horizontal_far src x1 x0 y0 hx.ne' fy0
  have hcount : rayCrossings src
      ([(⟨x0, y0⟩ : point ℝ), ⟨x0, y1⟩, ⟨x1, y1⟩, ⟨x1, y0⟩].map some) = 1 := by
    simp [rayCrossings, rayHitsAt, vertexAt, List.range_succ, List.filter, e0, e1, e2, e3]
  have hany : ([(⟨x0, y0⟩ : point ℝ), ⟨x0, y1⟩, ⟨x1, y1⟩, ⟨x1, y0⟩].map some).any
      (vertexInSource Real.sqrt src) = false := by
    rw [List.any_eq_false]
    intro vi hvi
    obtain ⟨p, hp, rfl⟩ := List.mem_map.1 hvi
    rw [vertexInSource_real_sq]
    rintro ⟨_, hle⟩
    simp only [List.mem_cons, List.mem_singleton, List.not_mem_nil, or_false] at hp
    have s0 := sq_nonneg (y0 - src.origin.y)
    have s1 := sq_nonneg (y1 - src.origin.y)
    rcases hp with rfl | rfl | rfl | rfl <;> simp only at hle <;> linarith
  have hcross : (List.range
      ([(⟨x0, y0⟩ : point ℝ), ⟨x0, y1⟩, ⟨x1, y1⟩, ⟨x1, y0⟩].map some).length).any
      (edgeCrossesAt Real.sqrt src
        ([(⟨x0, y0⟩ : point ℝ), ⟨x0, y1⟩, ⟨x1, y1⟩, ⟨x1, y0⟩].map some)) = false := by
    simp [edgeCrossesAt, vertexAt, List.range_succ, c0, c1, c2, c3]
  refine ⟨?_, e0, e1, e2, e3, hcount⟩
  rw [testPolygonAgainstSource_of_outside Real.sqrt src _ (by simp) hany, hcross, hcount]
  rfl

theorem testPolygonAgainstSource_rectangle_witness :
    testPolygonAgainstSource Real.sqrt
        ([(⟨-1, -1⟩ : point ℝ), ⟨-1, 1⟩, ⟨1, 1⟩, ⟨1, -1⟩].map some) ⟨⟨0, 0⟩, 1 / 2⟩
      = intersectionType.ENCLOSES_SOURCE :=
  (testPolygonAgainstSource_rectangle (-1) (-1) 1 1 ⟨⟨0, 0⟩, 1 / 2⟩ (by norm_num)
    (by norm_num) (by norm_num) (by norm_num) (by norm_num) (by norm_num) (by norm_num)).1

end Rectangle

section MainFrames

/-- The search of one frame of `main` returns when its recursion bound is at least
10: the window side 4 is at most `resolution * 2^9`. -/
theorem main_search_isSome (fuel : Nat) (hfuel : 10 ≤ fuel) (i : Int) (st : globals ℝ) :
    (search Real.sqrt fuel (makeSearchGrid main.a (main.s i) main.e true true 1) st).isSome
      = true := by
  obtain ⟨m, rfl⟩ : ∃ m : Nat, fuel = m + 1 := ⟨fuel - 1, by omega⟩
  apply search_isSome
  have h9 : (2 : ℝ) ^ 9 ≤ 2 ^ m := pow_le_pow_right₀ (by norm_num) (by omega)
  norm_num [makeSearchGrid, main.a, main.e, makeSearchArea, makeEvent] at h9 ⊢
  linarith

/-- In every frame of `main` the region `(-1, -2, 1)` is a node two levels below the
root (both ancestors contain the lens at the origin and are divided by the lens
loop), and it calls the classifier: it contains no lens origin and the Jacobian has
the same sign at its four corners. -/
theorem main_node_calls_classifier (i : Int) :
    makeSearchGrid (⟨-1, -2, 1⟩ : searchArea ℝ) (main.s i) main.e true true 3
        ∈ nodesAtDepth Real.sqrt 2 (makeSearchGrid main.a (main.s i) main.e true true 1) ∧
      callsClassifier
        (makeSearchGrid (⟨-1, -2, 1⟩ : searchArea ℝ) (main.s i) main.e true true 3) = true := by
  constructor
  · have hl0 : lensInArea (makeSearchGrid (main.a : searchArea ℝ) (main.s i) main.e
        true true 1) = true := by
      norm_num [makeSearchGrid, lensInArea, pointInArea, main.a, main.e, main.lenses,
        makeSearchArea, makeEvent, makeLens, makePoint]
    have hl1 : lensInArea (makeSearchGrid (⟨-1, -2, 2⟩ : searchArea ℝ) (main.s i) main.e
        true true 2) = true := by
      norm_num [makeSearchGrid, lensInArea, pointInArea, main.e, main.lenses,
        makeEvent, makeLens, makePoint]
    rw [mem_nodesAtDepth_succ]
    refine ⟨makeSearchGrid (⟨-1, -2, 2⟩ : searchArea ℝ) (main.s i) main.e true true 2, ?_, ?_⟩
    · rw [subGrids, searchBody_lens Real.sqrt _ _ ⟨rfl, hl0⟩,
        if_pos (by norm_num [makeSearchGrid, main.a, main.e, makeSearchArea, makeEvent])]
      norm_num [makeSearchGrid, childGrids, cRects, makeSearchArea, main.a]
    · rw [mem_nodesAtDepth_succ]
      refine ⟨makeSearchGrid (⟨-1, -2, 1⟩ : searchArea ℝ) (main.s i) main.e true true 3,
        ?_, by simp [nodesAtDepth]⟩
      rw [subGrids, searchBody_lens Real.sqrt _ _ ⟨rfl, hl1⟩,
        if_pos (by norm_num [makeSearchGrid, main.e, makeEvent])]
      norm_num [makeSearchGrid, childGrids, cRects, makeSearchArea]
  · have hl : lensInArea (makeSearchGrid (⟨-1, -2, 1⟩ : searchArea ℝ) (main.s i) main.e
        true true 3) = false := by
      norm_num [makeSearchGrid, lensInArea, pointInArea, main.e, main.lenses,
        makeEvent, makeLens, makePoint]
    have hc : straddlesCriticalCurve (makeSearchGrid (⟨-1, -2, 1⟩ : searchArea ℝ) (main.s i)
        main.e true true 3) = false := by
      norm_num [makeSearchGrid, straddlesCriticalCurve, jacobianSignAtPoint, jacobianSums,
        lensJacobianContribution, fdiv, lensDsq, areaCorner, makePoint, main.e, main.lenses,
        makeEvent, makeLens]
    simp [callsClassifier, hl, hc]

/-- Every frame of `main` makes at least one classifier call at level 3. -/
theorem main_classifierCalls_pos (i : Int) :
    1 ≤ classifierCalls Real.sqrt (makeSearchGrid main.a (main.s i) main.e true true 1) 3 := by
  obtain ⟨hmem, hcall⟩ := main_node_calls_classifier i
  have h : classifierCalls Real.sqrt (makeSearchGrid main.a (main.s i) main.e true true 1) 3
      = ((nodesAtDepth Real.sqrt 2
          (makeSearchGrid main.a (main.s i) main.e true true 1)).filter
            callsClassifier).length := by
    rw [classifierCalls, if_pos (by norm_num [makeSearchGrid])]
    rfl
  rw [h]
  exact List.length_pos_of_mem (List.mem_filter.2 ⟨hmem, hcall⟩)

end MainFrames

section MainClaims

/-- One pass of the frame loop on a key other than `q`: the search is started from
the current globals and the loop goes on from the globals the search leaves. -/
theorem main_loop_cons (fuel : Nat) (c : Char) (keys : List Char) (i : Int)
    (st st1 : globals ℝ) (hq : c ≠ 'q')
    (h : search Real.sqrt fuel
      (makeSearchGrid main.a (main.s (main.key c i)) main.e true true 1) st = some st1) :
    main.loop Real.sqrt fuel (c :: keys) i st
      = main.loop Real.sqrt fuel keys (main.key c i) st1 := by
  rw [main.loop, if_neg hq, h]

/-- The globals are all zero when the frame loop of `main` is entered. -/
theorem main_run_eq (fuel : Nat) (c : Char) (keys : List Char) :
    main.run Real.sqrt fuel c keys
      = main.loop Real.sqrt fuel (c :: keys) 0 (globalsZero : globals ℝ) := by
  have h : ∀ (n : Nat) (st : globals ℝ), (List.range n).foldl (fun st _ => st) st = st := by
    intro n st
    induction n with
    | zero => rfl
    | succ n ih => rw [List.range_succ, List.foldl_append, ih]; rfl
  rw [main.run, main.resetLoop, h]

/-- C24 (counterexample): a run of `main` with two frames (the key read after the
first frame is `x`, which leaves the frame index at 0).  The second call of `search`
starts from the globals `st1` left by the first frame, in which `calculations[3]`
is not zero, and after the second frame `calculations[3]` is twice the value that
this frame's search alone produces. -/
theorem main_second_frame_not_reset :
    ∃ st1 st2 : globals ℝ,
      main.run Real.sqrt 10 'x' [] = some st1 ∧
      main.run Real.sqrt 10 'x' ['x'] = some st2 ∧
      search Real.sqrt 10 (makeSearchGrid main.a (main.s 0) main.e true true 1) st1
        = some st2 ∧
      st1.calculations 3 ≠ 0 ∧
      st2.calculations 3 = 2 * st1.calculations 3 ∧
      st2.calculations 3 ≠ st1.calculations 3 := by
  obtain ⟨st1, h1⟩ := Option.isSome_iff_exists.1
    (main_search_isSome 10 (le_refl _) 0 (globalsZero : globals ℝ))
  obtain ⟨st2, h2⟩ := Option.isSome_iff_exists.1 (main_search_isSome 10 (le_refl _) 0 st1)
  have hk : main.key 'x' 0 = 0 := by decide
  have hq : 'x' ≠ 'q' := by decide
  have c1 := search_calculations Real.sqrt 10 _ _ st1 h1 3
  have c2 := search_calculations Real.sqrt 10 _ _ st2 h2 3
  have hpos := main_classifierCalls_pos 0
  have hz : (globalsZero : globals ℝ).calculations 3 = 0 := rfl
  rw [hz, zero_add] at c1
  refine ⟨st1, st2, ?_, ?_, h2, ?_, ?_, ?_⟩
  · rw [main_run_eq, main_loop_cons 10 'x' [] 0 _ st1 hq (by rw [hk]; exact h1)]
    rfl
  · rw [main_run_eq, main_loop_cons 10 'x' ['x'] 0 _ st1 hq (by rw [hk]; exact h1), hk,
      main_loop_cons 10 'x' [] 0 _ st2 hq (by rw [hk]; exact h2)]
    rfl
  · rw [c1]
    omega
  · rw [c2, c1]
    ring
  · rw [c2, c1]
    omega

/-- C24 (as amended): the counters are not reset between the frames of `main`.  They
are all zero when the first search starts; on every key other than `q` the search
(which returns for every recursion bound of at least 10) starts from the globals
left by the earlier frames, and the loop goes on from the globals it leaves: the
frame adds to `calculations[l]` 40 times its own number of classifier calls at level
`l` and does not decrease the sum of `eliminated[]` over any set of levels. -/
theorem main_frames_accumulate (fuel : Nat) (hfuel : 10 ≤ fuel) (c : Char)
    (keys : List Char) (i : Int) (st : globals ℝ) (hq : c ≠ 'q') :
    main.run Real.sqrt fuel c keys
      = main.loop Real.sqrt fuel (c :: keys) 0 (globalsZero : globals ℝ) ∧
    ∃ st1 : globals ℝ,
      search Real.sqrt fuel
        (makeSearchGrid main.a (main.s (main.key c i)) main.e true true 1) st = some st1 ∧
      main.loop Real.sqrt fuel (c :: keys) i st
        = main.loop Real.sqrt fuel keys (main.key c i) st1 ∧
      (∀ l : Int, st1.calculations l = st.calculations l
        + 40 * (classifierCalls Real.sqrt
          (makeSearchGrid main.a (main.s (main.key c i)) main.e true true 1) l : Int)) ∧
      (∀ S : Finset Int, ∑ l in S, st.eliminated l ≤ ∑ l in S, st1.eliminated l) := by
  refine ⟨main_run_eq fuel c keys, ?_⟩
  obtain ⟨st1, h1⟩ := Option.isSome_iff_exists.1
    (main_search_isSome fuel hfuel (main.key c i) st)
  exact ⟨st1, h1, main_loop_cons fuel c keys i st st1 hq h1,
    fun l => search_calculations Real.sqrt fuel _ st st1 h1 l,
    fun S => (search_eliminated_bounds Real.sqrt S fuel _ st st1 h1).1⟩

theorem main_frames_accumulate_witness :
    ∃ st1 : globals ℝ,
      search Real.sqrt 10
        (makeSearchGrid main.a (main.s (main.key 'f' 0)) main.e true true 1) globalsZero
          = some st1 ∧
      main.loop Real.sqrt 10 ['f', 'b'] 0 globalsZero
        = main.loop Real.sqrt 10 ['b'] (main.key 'f' 0) st1 := by
  obtain ⟨st1, h1, h2, _⟩ := (main_frames_accumulate 10 (le_refl _) 'f' ['b'] 0
    globalsZero (by decide)).2
  exact ⟨st1, h1, h2⟩

end MainClaims

end Raytrace
